import Mathlib

/-!
# iSynth: the module-graph runtime of `synth.cpp`

A shallow embedding of the evaluation contract (`Module::output`,
`StereoModule::output`, `validateOutputRange`, `validateWithin`), of the
recording sink `WaveOut`, of `Constant`, of the patch parser `addModule`, and of
the driver `produceStream`.

Conventions of the embedding.

* A `float` is modelled by the rational number it denotes (`ℚ`); comparisons of
  finite floats are exact on their values.  NaN and the infinities are outside
  the model.  The conversion of a `double` to `float` is `toFloat`.  Sums and
  products of floats are those of the rationals: their rounding is outside the
  model, except for the counter `time += 1.0` of `produceStream`, whose values
  are whole numbers (`nextTime`).
* A `float` array is a function `Nat → ℚ`; the declared size of the array is
  supplied where the array is indexed (`FloatPtr`), and an index outside the
  declared size ends the run with `Exc.UndefinedBehaviour`.
* Member functions are state-passing functions.  A call that throws returns the
  state reached at the `throw` together with the exception.
* Pure virtual member functions are the fields of `Virtuals`.
-/

namespace ISynth

/-! ## Constants and exceptions -/

/-- The constant `max_buffer_size` of the source: `const int max_buffer_size = 4000;`. -/
def max_buffer_size : Nat := 4000

/-- Exceptions declared in the source with `EXCEPTION`/`EXCEPTION_D`, each with the
text it is constructed from.  The formatted text of the two range exceptions
(`snprintf`) is kept as its arguments.  `UndefinedBehaviour` is not an exception:
it marks a run that leaves defined C++ (an index outside an array, a null
`char *` given to `std::string`). -/
inductive Exc where
  | CouldntWriteExcept (text : String)
  | InvalidInputRangeExcept (input : String) (inp_min inp_max : ℚ)
      (name : String) (min max : ℚ)
  | InvalidOutputRangeExcept (name : String) (min value max : ℚ)
  | TooManyParamsExcept
  | UnknownModuleTypeExcept (text : String)
  | ExpectingFloatExcept (text : String)
  | ExpectingIntExcept (text : String)
  | ExpectingModuleExcept (text : String)
  | UnknownModuleExcept (text : String)
  | UnknownTypeExcept (text : String)
  | NotStereoExcept (text : String)
  | NotMonoExcept (text : String)
  | TooFewParamsExcept (text : String)
  | NoOutputModuleExcept
  | OutputNotStereoExcept
  | UndefinedBehaviour (what : String)
  deriving DecidableEq

/-- A `float *` together with the declared size of the array it points into. -/
structure FloatPtr where
  cap : Nat
  data : Nat → ℚ

/-- Reading `p[i]`: defined only inside the array. -/
def FloatPtr.read (p : FloatPtr) (i : Nat) : Option ℚ :=
  if i < p.cap then some (p.data i) else none

/-! ## The recording sink `WaveOut` -/

/-- Truncation toward zero of a float value, the integer part taken by a
float-to-integer conversion. -/
def truncate (x : ℚ) : Int := Int.tdiv x.num x.den

/-- The conversion `short(x)`: the integer part of `x`, kept to 16 bits in
two's complement.  (For an integer part outside `[-32768, 32767]` the C++
conversion is undefined; the model keeps the low 16 bits of the integer part, as a
conversion through a 32-bit `int` does while the integer part is in the range of
`int`.) -/
def toShort (x : ℚ) : Int := (truncate x + 32768) % 65536 - 32768

/-- The two bytes of a `short` in little-endian order. -/
def shortBytes (z : Int) : List Nat :=
  let u := (z % 65536).toNat
  [u % 256, u / 256]

/-- The four bytes of an `int` in little-endian order. -/
def intBytes (z : Int) : List Nat :=
  let u := (z % 4294967296).toNat
  [u % 256, u / 256 % 256, u / 65536 % 256, u / 16777216]

/-- Overwrite the bytes of `file` from offset `off` on with `bytes`
(`fseek(m_out, off, SEEK_SET); fwrite(...)` inside the existing file). -/
def pokeAt : Nat → List Nat → List Nat → List Nat
  | _, [], file => file
  | off, b :: bs, file => pokeAt (off + 1) bs (file.set off b)

/-- The 44 bytes `header[]` written by the constructor of `WaveOut`. -/
def waveHeader (stereo : Bool) : List Nat :=
  [0x52, 0x49, 0x46, 0x46,
   0x00, 0x00, 0x00, 0x00,
   0x57, 0x41, 0x56, 0x45, 0x66, 0x6D, 0x74, 0x20,
   0x10, 0x00, 0x00, 0x00, 0x01, 0x00,
   (if stereo then 0x02 else 0x01), 0x00,
   0x44, 0xAC, 0x00, 0x00,
   0x10, 0xB1, 0x02, 0x00,
   (if stereo then 0x04 else 0x02), 0x00,
   0x10, 0x00,
   0x64, 0x61, 0x74, 0x61,
   0x00, 0x00, 0x00, 0x00]

/-- The members of `class WaveOut`; `m_out` is the content of the open file, whose
position is at the end between calls. -/
structure WaveOut where
  m_out : List Nat
  m_scaler : ℚ
  m_length : Int
  deriving DecidableEq

/-- The constructor `WaveOut(filename, scaler, stereo)` when the file opens. -/
def WaveOut.new (scaler : ℚ) (stereo : Bool) : WaveOut :=
  { m_out := waveHeader stereo, m_scaler := scaler, m_length := 0 }

/-- The member `WaveOut::updateLength`. -/
def WaveOut.updateLength (w : WaveOut) : WaveOut :=
  let chunklength : Int := w.m_length * 2
  let f1 := pokeAt 40 (intBytes chunklength) w.m_out
  let f2 := pokeAt 4 (intBytes (chunklength + 36)) f1
  { w with m_out := f2 }

/-- The indices `i` of the loop `for(int i=0; i<size; i++) out[i] = short(buffer[i]*m_scaler)`
of `WaveOut::writeBuffer`. -/
def WaveOut.writeBufferIndices (size : Nat) : List Nat := List.range size

/-- The member `WaveOut::writeBuffer`.  The staging array is
`static short out[max_buffer_size]`; `none` when the loop indexes `out` or
`buffer` outside the array. -/
def WaveOut.writeBuffer (w : WaveOut) (buffer : FloatPtr) (size : Nat) : Option WaveOut :=
  if (WaveOut.writeBufferIndices size).all
      (fun i => decide (i < max_buffer_size) && decide (i < buffer.cap)) then
    let out : List Int :=
      (WaveOut.writeBufferIndices size).map (fun i => toShort (buffer.data i * w.m_scaler))
    let w1 : WaveOut :=
      { w with m_out := w.m_out ++ out.flatMap shortBytes, m_length := w.m_length + size }
    some w1.updateLength
  else none

/-- The unsigned 32-bit little-endian value held by the four bytes of `file` from
offset `off` on (a byte the file does not have counts 0). -/
def readInt32 (file : List Nat) (off : Nat) : Nat :=
  file.getD off 0 + 256 * file.getD (off + 1) 0 + 65536 * file.getD (off + 2) 0 +
    16777216 * file.getD (off + 3) 0

/-- A sequence of calls `writeBuffer(buffer, size)` on one sink, in order; `none`
when one of them indexes outside an array. -/
def WaveOut.writeBuffers : WaveOut → List (FloatPtr × Nat) → Option WaveOut
  | w, [] => some w
  | w, (buffer, size) :: rest =>
    match w.writeBuffer buffer size with
    | none => none
    | some w1 => w1.writeBuffers rest

/-! ## The evaluation contract: `Module` and `StereoModule` -/

/-- The data members of `class Module`; `sub` holds what a derived class adds,
together with every object its member functions reach. -/
structure Module (E : Type) where
  m_output : Nat → ℚ
  m_last_fill : ℚ
  m_waveout : Option WaveOut
  sub : E

/-- The constructor `Module()`: `m_last_fill(0)`, `m_waveout(0)`, and the `memset`
of `m_output`. -/
def Module.new {E : Type} (sub : E) : Module E :=
  { m_output := fun _ => 0, m_last_fill := 0, m_waveout := none, sub := sub }

/-- The virtual member functions of `class Module`.  `fill` is a transformer of the
object (and of what it reaches) that may throw; `getOutputRange` and
`validateInputRange` read the object. -/
structure Virtuals (E : Type) where
  fill : ℚ → Nat → Module E → Module E × Option Exc
  getOutputRange : Module E → ℚ × ℚ
  moduleName : String
  validateInputRange : Module E → Option Exc
  stereo : Bool

/-- The calls `output` makes, in order.  This is instrumentation: it is not a member
of the class and no member function reads it. -/
inductive Call where
  | validateInputRange
  | fill (last_fill : ℚ) (samples : Nat)
  | writeBuffer (size : Nat)
  | validateOutputRange (samples : Nat)
  deriving DecidableEq

/-- An object together with the record of the calls its `output` has made. -/
structure Traced (E : Type) where
  obj : Module E
  calls : List Call

/-- Number of executions of `fill` in a record of calls. -/
def fills (calls : List Call) : Nat :=
  calls.countP (fun c => match c with | .fill _ _ => true | _ => false)

/-- Number of executions of `validateInputRange` in a record of calls. -/
def inputChecks (calls : List Call) : Nat :=
  calls.countP (fun c => match c with | .validateInputRange => true | _ => false)

/-- The member `Module::validateWithin`, on the name and range reported by `input`. -/
def validateWithin (input_name : String) (input_range : ℚ × ℚ) (name : String)
    (min max : ℚ) : Option Exc :=
  if input_range.1 < min ∨ input_range.2 > max then
    some (.InvalidInputRangeExcept input_name input_range.1 input_range.2 name min max)
  else none

/-- The `throw` inside the loop of `validateOutputRange`: the text is formatted from
`m_output[i]`. -/
def reportOutputRange (name : String) (min max : ℚ) (m_output : FloatPtr) (i : Nat) : Exc :=
  match m_output.read i with
  | none => .UndefinedBehaviour "m_output[i] outside m_output"
  | some m => .InvalidOutputRangeExcept name min m max

/-- The loop of `Module::validateOutputRange` from index `i` on, with `remaining`
iterations to go: the test is `buffer[i] < min || m_output[i] > max`. -/
def validateOutputRangeFrom (name : String) (min max : ℚ) (buffer m_output : FloatPtr) :
    Nat → Nat → Option Exc
  | _, 0 => none
  | i, remaining + 1 =>
    match buffer.read i with
    | none => some (.UndefinedBehaviour "buffer[i] outside buffer")
    | some b =>
      if b < min then some (reportOutputRange name min max m_output i)
      else
        match m_output.read i with
        | none => some (.UndefinedBehaviour "m_output[i] outside m_output")
        | some m =>
          if m > max then some (reportOutputRange name min max m_output i)
          else validateOutputRangeFrom name min max buffer m_output (i + 1) remaining

/-- The member `Module::validateOutputRange(buffer, samples)`; `m_output` inside it is
`Module::m_output`, of `max_buffer_size` floats. -/
def Module.validateOutputRange {E : Type} (v : Virtuals E) (self : Module E)
    (buffer : FloatPtr) (samples : Nat) : Option Exc :=
  let r := v.getOutputRange self
  validateOutputRangeFrom v.moduleName r.1 r.2 buffer ⟨max_buffer_size, self.m_output⟩ 0 samples

/-- The statement `if(m_waveout) m_waveout->writeBuffer(buffer, size);`. -/
def Module.record {E : Type} (self : Module E) (buffer : FloatPtr) (size : Nat) :
    Module E × Option Exc :=
  match self.m_waveout with
  | none => (self, none)
  | some w =>
    match w.writeBuffer buffer size with
    | none => (self, some (.UndefinedBehaviour "writeBuffer indexes outside an array"))
    | some w1 => ({ self with m_waveout := some w1 }, none)

/-- The calls recorded by the statement `if(m_waveout) m_waveout->writeBuffer(buffer, size);`. -/
def recordCalls (w : Option WaveOut) (size : Nat) : List Call :=
  match w with
  | none => []
  | some _ => [.writeBuffer size]

/-- The member `Module::output(last_fill, samples)`.  `ndebug` tells whether `NDEBUG`
is defined (contract checking is enabled when it is not).  The value returned is the
content of `m_output` at the return. -/
def Module.output {E : Type} (v : Virtuals E) (ndebug : Bool) (last_fill : ℚ) (samples : Nat)
    (s : Traced E) : Traced E × Except Exc (Nat → ℚ) :=
  if s.obj.m_last_fill < last_fill then
    match v.validateInputRange s.obj with
    | some e => (⟨s.obj, s.calls ++ [.validateInputRange]⟩, .error e)
    | none =>
      match v.fill last_fill samples s.obj with
      | (o1, some e) =>
        (⟨o1, s.calls ++ [.validateInputRange, .fill last_fill samples]⟩, .error e)
      | (o1, none) =>
        let o2 : Module E := { o1 with m_last_fill := last_fill }
        let c2 := s.calls ++ [.validateInputRange, .fill last_fill samples]
          ++ recordCalls o2.m_waveout samples
        match o2.record ⟨max_buffer_size, o2.m_output⟩ samples with
        | (o3, some e) => (⟨o3, c2⟩, .error e)
        | (o3, none) =>
          if ndebug then (⟨o3, c2⟩, .ok o3.m_output)
          else
            match Module.validateOutputRange v o3 ⟨max_buffer_size, o3.m_output⟩ samples with
            | some e => (⟨o3, c2 ++ [.validateOutputRange samples]⟩, .error e)
            | none => (⟨o3, c2 ++ [.validateOutputRange samples]⟩, .ok o3.m_output)
  else (s, .ok s.obj.m_output)

/-- What `class StereoModule` adds to `Module`: its own `m_output` of
`max_buffer_size*2` floats, which hides `Module::m_output` in `StereoModule` and in
the classes derived from it. -/
structure StereoPart (E : Type) where
  m_output : Nat → ℚ
  sub : E

/-- The constructor `StereoModule()`. -/
def StereoModule.new {E : Type} (sub : E) : Module (StereoPart E) :=
  Module.new { m_output := fun _ => 0, sub := sub }

/-- The member `StereoModule::output(last_fill, samples)`.  The value returned is the
content of `StereoModule::m_output` at the return. -/
def StereoModule.output {E : Type} (v : Virtuals (StereoPart E)) (last_fill : ℚ)
    (samples : Nat) (s : Traced (StereoPart E)) :
    Traced (StereoPart E) × Except Exc (Nat → ℚ) :=
  if s.obj.m_last_fill < last_fill then
    match v.fill last_fill samples s.obj with
    | (o1, some e) => (⟨o1, s.calls ++ [.fill last_fill samples]⟩, .error e)
    | (o1, none) =>
      let o2 : Module (StereoPart E) := { o1 with m_last_fill := last_fill }
      let c2 := s.calls ++ [.fill last_fill samples] ++ recordCalls o2.m_waveout (samples * 2)
      match o2.record ⟨max_buffer_size * 2, o2.sub.m_output⟩ (samples * 2) with
      | (o3, some e) => (⟨o3, c2⟩, .error e)
      | (o3, none) =>
        match Module.validateOutputRange v o3 ⟨max_buffer_size * 2, o3.sub.m_output⟩
            (samples * 2) with
        | some e => (⟨o3, c2 ++ [.validateOutputRange (samples * 2)]⟩, .error e)
        | none => (⟨o3, c2 ++ [.validateOutputRange (samples * 2)]⟩, .ok o3.sub.m_output)
  else (s, .ok s.obj.sub.m_output)

/-- The members `Module::log` and `StereoModule::log` when the file opens. -/
def Module.log {E : Type} (self : Module E) (scaler : ℚ) (stereo : Bool) : Module E :=
  match self.m_waveout with
  | none => { self with m_waveout := some (WaveOut.new scaler stereo) }
  | some _ => self

/-! ## `Constant` -/

/-- The member `Constant::setValue`: `for(int i=0; i<max_buffer_size; i++) m_output[i] = value;`. -/
def Constant.setValue (value : ℚ) (self : Module Unit) : Module Unit :=
  { self with m_output := fun i => if i < max_buffer_size then value else self.m_output i }

/-- The constructor `Constant(value)`. -/
def Constant.new (value : ℚ) : Module Unit :=
  Constant.setValue value (Module.new ())

/-- The virtual member functions of `class Constant`. -/
def Constant.virtuals : Virtuals Unit :=
  { fill := fun _ _ self => (self, none)
    getOutputRange := fun self => (self.m_output 0, self.m_output 0)
    moduleName := "Constant"
    validateInputRange := fun _ => none
    stereo := false }

/-! ## Graphs: classes whose `fill` pulls the `output` of other modules

The classes of the signal-processing modules are not part of `synth.cpp`.  Their
`fill` is modelled from the description of the evaluation contract: it pulls the
`output` of each input with the timestamp and block size it was given, and then
computes on the members of its own object. -/

/-- What a class with one input adds to `Module`: its own members and the object
its input pointer refers to. -/
structure OneInput (P EI : Type) where
  own : P
  input : Traced EI

/-- Modelled from the spec: the `fill` of a class with one mono input, which is
absent from the source.  It pulls `input.output(last_fill, samples)`; an exception
of the input propagates; otherwise `compute` acts on the members of the object
itself, given the buffer the input returned. -/
def pullOne {P EI : Type} (vin : Virtuals EI) (ndebug : Bool)
    (compute : ℚ → Nat → (Nat → ℚ) → Module P → Module P × Option Exc) :
    ℚ → Nat → Module (OneInput P EI) → Module (OneInput P EI) × Option Exc :=
  fun last_fill samples self =>
    match Module.output vin ndebug last_fill samples self.sub.input with
    | (input, .error e) => ({ self with sub := { self.sub with input := input } }, some e)
    | (input, .ok buf) =>
      let r := compute last_fill samples buf
        { m_output := self.m_output, m_last_fill := self.m_last_fill,
          m_waveout := self.m_waveout, sub := self.sub.own }
      ({ m_output := r.1.m_output, m_last_fill := r.1.m_last_fill,
         m_waveout := r.1.m_waveout, sub := { own := r.1.sub, input := input } }, r.2)

/-- An object with one input, put together from the object without its input and the
object the input pointer refers to. -/
def withInput {P EI : Type} (x : Traced P) (a : Traced EI) : Traced (OneInput P EI) :=
  ⟨{ m_output := x.obj.m_output, m_last_fill := x.obj.m_last_fill,
     m_waveout := x.obj.m_waveout, sub := { own := x.obj.sub, input := a } }, x.calls⟩

/-- The object with one input, without the object its input pointer refers to. -/
def withoutInput {P EI : Type} (x : Traced (OneInput P EI)) : Traced P :=
  ⟨{ m_output := x.obj.m_output, m_last_fill := x.obj.m_last_fill,
     m_waveout := x.obj.m_waveout, sub := x.obj.sub.own }, x.calls⟩

/-- What the class of `D` adds to `Module` in the graph `A -> {B, C} -> D`: its own
members, the objects `B` and `C` its input pointers refer to, and the one object `A`
that the input pointers of both `B` and `C` refer to. -/
structure DiamondSub (EA PB PC PD : Type) where
  own : PD
  b : Traced PB
  c : Traced PC
  a : Traced EA

/-- Modelled from the spec: the `fill` of `D` in the graph `A -> {B, C} -> D`, which is
absent from the source.  It pulls `B.output(last_fill, samples)`, then
`C.output(last_fill, samples)`, where `B` and `C` have the same object `A` as
input; an exception of either propagates; otherwise `compute` acts on the members
of `D` itself, given the two buffers. -/
def pullDiamond {EA PB PC PD : Type} (vB : Virtuals (OneInput PB EA))
    (vC : Virtuals (OneInput PC EA)) (ndebug : Bool)
    (compute : ℚ → Nat → (Nat → ℚ) → (Nat → ℚ) → Module PD → Module PD × Option Exc) :
    ℚ → Nat → Module (DiamondSub EA PB PC PD) →
      Module (DiamondSub EA PB PC PD) × Option Exc :=
  fun last_fill samples self =>
    match Module.output vB ndebug last_fill samples (withInput self.sub.b self.sub.a) with
    | (b1, .error e) =>
      ({ self with sub := { self.sub with b := withoutInput b1, a := b1.obj.sub.input } },
        some e)
    | (b1, .ok bufB) =>
      match Module.output vC ndebug last_fill samples
          (withInput self.sub.c b1.obj.sub.input) with
      | (c1, .error e) =>
        ({ self with sub := { self.sub with
            b := withoutInput b1, c := withoutInput c1, a := c1.obj.sub.input } }, some e)
      | (c1, .ok bufC) =>
        let r := compute last_fill samples bufB bufC
          { m_output := self.m_output, m_last_fill := self.m_last_fill,
            m_waveout := self.m_waveout, sub := self.sub.own }
        ({ m_output := r.1.m_output, m_last_fill := r.1.m_last_fill,
           m_waveout := r.1.m_waveout,
           sub := { own := r.1.sub, b := withoutInput b1, c := withoutInput c1,
                    a := c1.obj.sub.input } }, r.2)

/-- What the `fill` of the test class `Copy` computes from the block of its input. -/
def Copy.compute : ℚ → Nat → (Nat → ℚ) → Module Unit → Module Unit × Option Exc :=
  fun _ samples buf self =>
    ({ self with m_output := fun i => if i < samples then buf i else self.m_output i }, none)

/-- What the `fill` of the test class `Mix` computes from the blocks of its inputs. -/
def Mix.compute : ℚ → Nat → (Nat → ℚ) → (Nat → ℚ) → Module Unit → Module Unit × Option Exc :=
  fun _ samples bufB bufC self =>
    ({ self with
        m_output := fun i => if i < samples then bufB i + bufC i else self.m_output i }, none)

/-- A test class with one input, a `Constant`: it declares the range of its input,
accepts every input range, and its `fill` copies the block of the input. -/
def Copy.virtuals : Virtuals (OneInput Unit Unit) :=
  { fill := pullOne Constant.virtuals false Copy.compute
    getOutputRange := fun self => Constant.virtuals.getOutputRange self.sub.input.obj
    moduleName := "Copy"
    validateInputRange := fun _ => none
    stereo := false }

/-- A test class for `D` in the graph `A -> {B, C} -> D` where `A` is a `Constant` and
`B` and `C` are of class `Copy`: its `validateInputRange` is
`validateWithin(B, -1, 1); validateWithin(C, -1, 1)`, it declares the range `[-2, 2]`,
and its `fill` adds the blocks of `B` and `C`. -/
def Mix.virtuals : Virtuals (DiamondSub Unit Unit Unit Unit) :=
  { fill := pullDiamond Copy.virtuals Copy.virtuals false Mix.compute
    getOutputRange := fun _ => (-2, 2)
    moduleName := "Mix"
    validateInputRange := fun self =>
      match validateWithin Copy.virtuals.moduleName
          (Copy.virtuals.getOutputRange (withInput self.sub.b self.sub.a).obj) "Mix" (-1) 1 with
      | some e => some e
      | none =>
        validateWithin Copy.virtuals.moduleName
          (Copy.virtuals.getOutputRange (withInput self.sub.c self.sub.a).obj) "Mix" (-1) 1
    stereo := false }

/-- The freshly constructed graph `A -> {B, C} -> D` with `A` a `Constant(value)`, `B`
and `C` of class `Copy` and `D` of class `Mix`. -/
def Mix.diamond (value : ℚ) : Traced (DiamondSub Unit Unit Unit Unit) :=
  ⟨Module.new { own := (), b := ⟨Module.new (), []⟩, c := ⟨Module.new (), []⟩,
                a := ⟨Constant.new value, []⟩ }, []⟩

/-! ## The patch parser `addModule`

A `Module *` is the index of the object in the list `heap` of the objects created by
`new`.  The maps `g_module_infos` and `g_modules` are functions from the key to the
entry, `none` for a key the map does not hold.  The library function `atof` is a
parameter. -/

/-- The `union ModuleParam`, by the member that `addModule` assigns. -/
inductive ModuleParam where
  | m_module (p : Nat)
  | m_float (x : ℚ)
  | m_int (z : Int)
  deriving DecidableEq

/-- An object a `Module *` may point to: a `Constant` created by `addModule`, or an
object returned by a factory, of a class outside the source, with what its `stereo()`
reports. -/
inductive Object (X : Type) where
  | constant (c : Traced Unit)
  | made (stereo : Bool) (x : X)

/-- The virtual member `stereo()` of the object. -/
def Object.stereo {X : Type} : Object X → Bool
  | .constant _ => Constant.virtuals.stereo
  | .made st _ => st

/-- The members of `class ModuleInfo`; the factory `m_instantiator` returns a newly
created object. -/
structure ModuleInfo (X : Type) where
  m_name : String
  m_parameters : List (String × String)
  m_instantiator : List ModuleParam → Object X

/-- The member `ModuleInfo::parameter(n)`. -/
def ModuleInfo.parameter {X : Type} (info : ModuleInfo X) (n : Nat) :
    Except Exc (String × String) :=
  match info.m_parameters[n]? with
  | none => .error .TooManyParamsExcept
  | some p => .ok p

/-- The member `ModuleInfo::parameterCount()`. -/
def ModuleInfo.parameterCount {X : Type} (info : ModuleInfo X) : Nat :=
  info.m_parameters.length

/-- The member `ModuleInfo::addParameter(name, type)`. -/
def ModuleInfo.addParameter {X : Type} (info : ModuleInfo X) (name type : String) :
    ModuleInfo X :=
  { info with m_parameters := info.m_parameters ++ [(name, type)] }

/-- The global state the parser works on: the registry `g_module_infos`, the instance
table `g_modules`, the objects created so far, and, as instrumentation, the
invocations of factories so far (type name and parameters). -/
structure Globals (X : Type) where
  g_module_infos : String → Option (ModuleInfo X)
  g_modules : String → Option Nat
  heap : List (Object X)
  instantiated : List (String × List ModuleParam)

/-- The delimiters of `addModule`: `const char *delim = ",() \r\n\t";`. -/
def delim : List Char := ",() \r\n\t".toList

/-- The tokens that `strtok(definition, delim)` and the following `strtok(0, delim)`
return before the null pointer; `cur` is the token being read. -/
def strtokFrom : List Char → List Char → List String
  | [], cur => if cur = [] then [] else [String.mk cur]
  | c :: cs, cur =>
    if c ∈ delim then
      if cur = [] then strtokFrom cs [] else String.mk cur :: strtokFrom cs []
    else strtokFrom cs (cur ++ [c])

/-- The tokens of a line. -/
def strtok (definition : String) : List String := strtokFrom definition.toList []

/-- The character `*t` of a token (the terminating NUL for an empty string). -/
def firstChar (t : String) : Char := t.toList.headD (Char.ofNat 0)

/-- The expression `s + t` for a `std::string s` and a `char *t`, `none` standing for
the null pointer: undefined for the null pointer. -/
def appendCStr (s : String) (t : Option String) : Except Exc String :=
  match t with
  | none => .error (.UndefinedBehaviour "std::string + null char pointer")
  | some t => .ok (s ++ t)

/-- The local variables `type`, `name` and `params` of `addModule`. -/
structure Locals where
  type : String
  name : String
  params : List ModuleParam
  deriving DecidableEq

/-- The conversion of a `double` to `int` in `m->m_int = atof(t)`: the integer part,
when it is in the range of a 32-bit `int`; the conversion is undefined otherwise. -/
def toInt (x : ℚ) : Option Int :=
  if -2147483648 ≤ truncate x ∧ truncate x ≤ 2147483647 then some (truncate x) else none

/-- Rounding of a rational to the nearest integer, a tie going to the even one. -/
def roundHalfEven (q : ℚ) : Int :=
  if q - ⌊q⌋ < 1 / 2 then ⌊q⌋
  else if 1 / 2 < q - ⌊q⌋ then ⌊q⌋ + 1
  else if ⌊q⌋ % 2 = 0 then ⌊q⌋ else ⌊q⌋ + 1

/-- The exponent of the last place of the `float` nearest to `x`: a `float` has a
significand of 24 bits, and its smallest step is `2^-149`. -/
def floatExponent (x : ℚ) : Int := max (Int.log 2 |x| - 23) (-149)

/-- The conversion of a `double` to `float`, as in `m->m_float = atof(t)` and
`new Constant(atof(t))`: the nearest `float`, a tie going to the even significand.
(A value beyond the largest `float` is converted to an infinity, which is outside the
model.) -/
def toFloat (x : ℚ) : ℚ := roundHalfEven (x / 2 ^ floatExponent x) * 2 ^ floatExponent x

/-- The part of the loop body of `addModule` that binds the token `t` to a parameter
declared with type `param_type`.  `atof t` is the `double` the library function
returns. -/
def bindParam {X : Type} (atof : String → ℚ) (def_copy type t param_type : String)
    (g : Globals X) : Globals X × Except Exc ModuleParam :=
  if param_type = "float" then
    if (firstChar t).isDigit then (g, .ok (.m_float (toFloat (atof t))))
    else (g, .error (.ExpectingFloatExcept (def_copy ++ t)))
  else if param_type = "int" then
    if (firstChar t).isDigit then
      match toInt (atof t) with
      | none => (g, .error (.UndefinedBehaviour "double to int outside the range of int"))
      | some z => (g, .ok (.m_int z))
    else (g, .error (.ExpectingIntExcept (def_copy ++ t)))
  else if param_type = "Module" then
    if (firstChar t).isDigit then
      ({ g with heap := g.heap ++ [.constant ⟨Constant.new (toFloat (atof t)), []⟩] },
        .ok (.m_module g.heap.length))
    else
      match g.g_modules t with
      | none => (g, .error (.UnknownModuleExcept (def_copy ++ t)))
      | some p =>
        match g.heap[p]? with
        | none => (g, .error (.UndefinedBehaviour "Module pointer to no object"))
        | some o =>
          if o.stereo then (g, .error (.NotMonoExcept (def_copy ++ t)))
          else (g, .ok (.m_module p))
  else if param_type = "StereoModule" then
    if (firstChar t).isAlpha then
      match g.g_modules t with
      | none => (g, .error (.UnknownModuleExcept (def_copy ++ t)))
      | some p =>
        match g.heap[p]? with
        | none => (g, .error (.UndefinedBehaviour "Module pointer to no object"))
        | some o =>
          if o.stereo then (g, .ok (.m_module p))
          else (g, .error (.NotStereoExcept (def_copy ++ t)))
    else (g, .error (.ExpectingModuleExcept (def_copy ++ t)))
  else (g, .error (.UnknownTypeExcept (def_copy ++ type)))

/-- One pass through the body of the `do ... while` loop of `addModule`, with the
token `t`. -/
def addModuleStep {X : Type} (atof : String → ℚ) (def_copy t : String) (g : Globals X)
    (l : Locals) : Globals X × Except Exc Locals :=
  if l.type = "" then
    match g.g_module_infos t with
    | none => (g, .error (.UnknownModuleTypeExcept (def_copy ++ t)))
    | some _ => (g, .ok { l with type := t })
  else if l.name = "" then (g, .ok { l with name := t })
  else
    match g.g_module_infos l.type with
    | none => (g, .error (.UndefinedBehaviour "null ModuleInfo pointer"))
    | some info =>
      match info.parameter l.params.length with
      | .error e => (g, .error e)
      | .ok p =>
        match bindParam atof def_copy l.type t p.2 g with
        | (g1, .error e) => (g1, .error e)
        | (g1, .ok m) => (g1, .ok { l with params := l.params ++ [m] })

/-- The `do ... while(t = strtok(0, delim))` loop of `addModule` over the tokens
still to come. -/
def addModuleLoop {X : Type} (atof : String → ℚ) (def_copy : String) :
    List String → Globals X → Locals → Globals X × Except Exc Locals
  | [], g, l => (g, .ok l)
  | t :: ts, g, l =>
    match addModuleStep atof def_copy t g l with
    | (g1, .error e) => (g1, .error e)
    | (g1, .ok l1) => addModuleLoop atof def_copy ts g1 l1

/-- The function `addModule(definition)`.  The value returned is the `Module *`
stored in `g_modules[name]`.  The loop is entered with the first token, which is the
null pointer for a line without token; after the loop `t` is the null pointer that
ended it. -/
def addModule {X : Type} (atof : String → ℚ) (definition : String) (g : Globals X) :
    Globals X × Except Exc Nat :=
  let def_copy := definition
  match strtok definition with
  | [] => (g, .error (.UndefinedBehaviour "type = t with t the null pointer"))
  | t :: ts =>
    match addModuleLoop atof def_copy (t :: ts) g ⟨"", "", []⟩ with
    | (g1, .error e) => (g1, .error e)
    | (g1, .ok l) =>
      match g1.g_module_infos l.type with
      | none => (g1, .error (.UndefinedBehaviour "null ModuleInfo pointer"))
      | some info =>
        if l.params.length ≠ info.parameterCount then
          match appendCStr def_copy none with
          | .error e => (g1, .error e)
          | .ok text => (g1, .error (.TooFewParamsExcept text))
        else
          ({ g1 with
              heap := g1.heap ++ [info.m_instantiator l.params]
              g_modules := fun k => if k = l.name then some g1.heap.length else g1.g_modules k
              instantiated := g1.instantiated ++ [(l.type, l.params)] },
            .ok g1.heap.length)

/-! ## The class `Add(Module, Module)` and the evaluation of parsed graphs

The catalog of module classes (`modules_generated.cpp`) is not part of `synth.cpp`.
The class `Add` below is the binary sum the specification names: its `fill` pulls the
`output` of its two inputs and writes their sum. -/

/-- Modelled from the spec: an object of the class `Add(Module, Module)`, which is
absent from the source: the members of `Module`, the two input pointers its
constructor stores, and the record of the calls of its `output`. -/
abbrev AddObject := Traced (Nat × Nat)

/-- The heap of a patch made of `Constant` and `Add` objects. -/
abbrev AddHeap := List (Object AddObject)

/-- Modelled from the spec: the factory of the descriptor `Add(Module, Module)`, which
is absent from the source: `new Add(parameters[0]->m_module, parameters[1]->m_module)`.
The object reports mono. -/
def Add.create : List ModuleParam → Object AddObject
  | [.m_module a, .m_module b] => .made false ⟨Module.new (a, b), []⟩
  | _ => .made false ⟨Module.new (0, 0), []⟩

/-- Modelled from the spec: the descriptor `Add(Module, Module)`. -/
def Add.info : ModuleInfo AddObject :=
  { m_name := "Add", m_parameters := [("a", "Module"), ("b", "Module")],
    m_instantiator := Add.create }

/-- Modelled from the spec: the virtual member functions of the class `Add`, which is
absent from the source.  The object reaches the heap through its two input pointers;
`pull heap p t n` is the call `output(t, n)` on the object `p` points to.  `fill`
pulls both inputs with the timestamp and block size it is given and writes their sum
to the first `samples` samples; the declared range is the sum of the input ranges;
every input range is accepted. -/
def Add.virtuals (pull : AddHeap → Nat → ℚ → Nat → AddHeap × Except Exc (Nat → ℚ))
    (range : AddHeap → Nat → ℚ × ℚ) : Virtuals ((Nat × Nat) × AddHeap) :=
  { fill := fun last_fill samples self =>
      match pull self.sub.2 self.sub.1.1 last_fill samples with
      | (h1, .error e) => ({ self with sub := (self.sub.1, h1) }, some e)
      | (h1, .ok bufA) =>
        match pull h1 self.sub.1.2 last_fill samples with
        | (h2, .error e) => ({ self with sub := (self.sub.1, h2) }, some e)
        | (h2, .ok bufB) =>
          ({ self with
              m_output := fun i => if i < samples then bufA i + bufB i else self.m_output i
              sub := (self.sub.1, h2) }, none)
    getOutputRange := fun self =>
      ((range self.sub.2 self.sub.1.1).1 + (range self.sub.2 self.sub.1.2).1,
       (range self.sub.2 self.sub.1.1).2 + (range self.sub.2 self.sub.1.2).2)
    moduleName := "Add"
    validateInputRange := fun _ => none
    stereo := false }

/-- A test class derived from `StereoModule` with no input: it declares the range
`[-1, 1]` and its `fill` emits `3/2` in the left channel of the first frame and `0`
in every other sample of the block. -/
def Loud.virtuals : Virtuals (StereoPart Unit) :=
  { fill := fun _ samples self =>
      ({ self with sub := { self.sub with
          m_output := fun i =>
            if i < samples * 2 then (if i = 0 then 3 / 2 else 0) else self.sub.m_output i } },
       none)
    getOutputRange := fun _ => (-1, 1)
    moduleName := "Loud"
    validateInputRange := fun _ => none
    stereo := true }

/-- A test class derived from `StereoModule` with one mono input, a `Constant`: its
`validateInputRange` is `validateWithin(input, -1, 1)`, it declares the range
`[-2, 2]`, and its `fill` pulls the input and copies it to both channels. -/
def Spread.virtuals : Virtuals (StereoPart (Traced Unit)) :=
  { fill := fun last_fill samples self =>
      match Module.output Constant.virtuals false last_fill samples self.sub.sub with
      | (input, .error e) => ({ self with sub := { self.sub with sub := input } }, some e)
      | (input, .ok buf) =>
        ({ self with sub :=
            { m_output := fun i => if i < samples * 2 then buf (i / 2) else self.sub.m_output i
              sub := input } }, none)
    getOutputRange := fun _ => (-2, 2)
    moduleName := "Spread"
    validateInputRange := fun self =>
      validateWithin Constant.virtuals.moduleName
        (Constant.virtuals.getOutputRange self.sub.sub.obj) "Spread" (-1) 1
    stereo := true }

/-- A freshly constructed `Spread` whose input is a freshly constructed `Constant(value)`. -/
def Spread.new (value : ℚ) : Traced (StereoPart (Traced Unit)) :=
  ⟨StereoModule.new ⟨Constant.new value, []⟩, []⟩

/-- A test class derived from `Module` with no input: it declares the range `[-1, 1]`
and its `fill` emits `3/2` in the first sample and `0` in every other sample of the
block. -/
def Peak.virtuals : Virtuals Unit :=
  { fill := fun _ samples self =>
      ({ self with m_output := fun i =>
          if i < samples then (if i = 0 then 3 / 2 else 0) else self.m_output i }, none)
    getOutputRange := fun _ => (-1, 1)
    moduleName := "Peak"
    validateInputRange := fun _ => none
    stereo := false }

/-- A stand-in for the library function `atof`, used where a line is evaluated: the
number denoted by the decimal digits a token begins with. -/
def atofDigits (t : String) : ℚ :=
  ((t.toList.takeWhile Char.isDigit).foldl (fun acc c => acc * 10 + (c.toNat - 48)) 0 : Nat)

/-- A test state of the parser.  The registry holds the descriptor `Input(axis: int)`
that `produceStream` registers, whose objects report mono, and `Pan(Module)`, whose
objects report stereo, `Wide(StereoModule)`, whose objects report stereo, and
`Gain(Module, Module)`, whose objects report mono.  The instance table holds the mono
instances `m` and `_m` (object 0) and the stereo instance `st` (object 1). -/
def testGlobals : Globals Unit :=
  { g_module_infos := fun k =>
      if k = "Input" then some ⟨"Input", [("axis", "int")], fun _ => .made false ()⟩
      else if k = "Pan" then some ⟨"Pan", [("in", "Module")], fun _ => .made true ()⟩
      else if k = "Wide" then some ⟨"Wide", [("in", "StereoModule")], fun _ => .made true ()⟩
      else if k = "Gain" then
        some ⟨"Gain", [("in", "Module"), ("amount", "Module")], fun _ => .made false ()⟩
      else none
    g_modules := fun k =>
      if k = "m" then some 0 else if k = "_m" then some 0
      else if k = "st" then some 1 else none
    heap := [.made false (), .made true ()]
    instantiated := [] }

/-- A second test state of the parser, with an empty instance table.  The registry
holds `Input(axis: int)`, `Scale(factor: float)` and `Noise()`, a type that declares
no parameter; their objects report mono. -/
def literalGlobals : Globals Unit :=
  { g_module_infos := fun k =>
      if k = "Input" then some ⟨"Input", [("axis", "int")], fun _ => .made false ()⟩
      else if k = "Scale" then some ⟨"Scale", [("factor", "float")], fun _ => .made false ()⟩
      else if k = "Noise" then some ⟨"Noise", [], fun _ => .made false ()⟩
      else none
    g_modules := fun _ => none
    heap := []
    instantiated := [] }

/-- A stereo test class without input: `fill` leaves the buffer as it is, and the
declared range is `[-1, 1]`. -/
def Silence.virtuals : Virtuals (StereoPart Unit) :=
  { fill := fun _ _ o => (o, none)
    getOutputRange := fun _ => (-1, 1)
    moduleName := "Silence"
    validateInputRange := fun _ => none
    stereo := true }

/-! ## The driver `produceStream`

`produceStream` reads the file `patch.txt`, calls `fillModuleList` (of
`modules_generated.cpp`) and makes the virtual call `output->output(time, samples)` on
an object of a class of the catalog; these are taken from outside, in `Driver`. -/

/-- What `produceStream` takes from outside `synth.cpp`, and the build it is compiled
in. -/
structure Driver (X : Type) where
  /-- The effect of `fillModuleList()` on the registry. -/
  fillModuleList : (String → Option (ModuleInfo X)) → (String → Option (ModuleInfo X))
  /-- The object `new Input(axis)`. -/
  newInput : Int → X
  /-- The library function of that name. -/
  atof : String → ℚ
  /-- The file, which is taken to open: the content of the array `s` at each call
  `addModule(s)` of the loop `while(!feof(in))`, in order. -/
  patch : List String
  /-- The virtual call `m->output(last_fill, samples)` on the object `m` of the heap:
  the heap after the call, and the array returned or the exception thrown. -/
  output : List (Object X) → Nat → ℚ → Nat → List (Object X) × Except Exc FloatPtr
  /-- Whether `__APPLE__` is defined. -/
  apple : Bool

/-- The factory `Input::create`: `return new Input(parameters[0]->m_int);`.  The
schema registered for `Input` lets the parser call it on one `int` only; an `Input`
object reports mono. -/
def Input.create {X : Type} (newInput : Int → X) (parameters : List ModuleParam) :
    Object X :=
  match parameters with
  | .m_int axis :: _ => .made false (newInput axis)
  | _ => .made false (newInput 0)

/-- The member `Input::getOutputRange`. -/
def Input.getOutputRange (m_axis : Int) : ℚ × ℚ := (if m_axis = 2 then 0 else -1, 1)

/-- The first three statements of `produceStream`: `fillModuleList()`, and the
registration of `Input` with its parameter `axis` of type `int`. -/
def Driver.register {X : Type} (d : Driver X) (g : Globals X) : Globals X :=
  let registry := d.fillModuleList g.g_module_infos
  let input : ModuleInfo X :=
    (ModuleInfo.mk "Input" [] (Input.create d.newInput)).addParameter "axis" "int"
  { g with g_module_infos := fun k => if k = "Input" then some input else registry k }

/-- The globals together with the `static` locals of `produceStream`: `first`,
`output` (`none` is the null pointer a `static` pointer starts as) and `time`; and,
as instrumentation, the calls `output->output(time, samples)` made so far, with the
object, the timestamp and the sample count. -/
structure Statics (X : Type) where
  globals : Globals X
  first : Bool
  output : Option Nat
  time : ℚ
  pulls : List (Nat × ℚ × Nat)

/-- The state at program start. -/
def Statics.initial {X : Type} (g : Globals X) : Statics X :=
  { globals := g, first := true, output := none, time := 0, pulls := [] }

/-- The loop `while(!feof(in)) { fgets(s, 255, in); addModule(s); }` over the
contents of `s` still to come. -/
def parsePatch {X : Type} (atof : String → ℚ) : List String → Globals X →
    Globals X × Option Exc
  | [], g => (g, none)
  | s :: rest, g =>
    match addModule atof s g with
    | (g1, .error e) => (g1, some e)
    | (g1, .ok _) => parsePatch atof rest g1

/-- The block `if(first) { ... }` of `produceStream` when `first` is true. -/
def produceStream.setup {X : Type} (d : Driver X) (s : Statics X) :
    Statics X × Option Exc :=
  let s1 := { s with first := false }
  match parsePatch d.atof d.patch s1.globals with
  | (g1, some e) => ({ s1 with globals := g1 }, some e)
  | (g1, none) =>
    match g1.g_modules "output" with
    | none => ({ s1 with globals := g1 }, some .NoOutputModuleExcept)
    | some p =>
      match g1.heap[p]? with
      | none =>
        ({ s1 with globals := g1, output := some p },
          some (.UndefinedBehaviour "Module pointer to no object"))
      | some o =>
        if o.stereo then ({ s1 with globals := g1, output := some p }, none)
        else ({ s1 with globals := g1, output := some p }, some .OutputNotStereoExcept)

/-- The statement `time += 1.0` on the `static float time`.  The counter takes whole
values from 0 on; up to 16777216 (2^24) a `float` holds each of them, and
`16777216 + 1.0` is rounded to the `float` 16777216. -/
def nextTime (time : ℚ) : ℚ := if time < 16777216 then time + 1 else time

/-- The values one pass of the loop `for(int i=0; i<samples*2; i+=2)` writes through
`buffer`, from `o[i]` and `o[i+1]`.  The products and the sum are those of the
rationals: the rounding of the `float` product before the conversion is outside the
model. -/
def pcmFrame (apple : Bool) (left right : ℚ) : List Int :=
  if apple then [toShort (left + right * 16384)]
  else [toShort (left * 32767), toShort (right * 32767)]

/-- The loop `for(int i=0; i<samples*2; i+=2)` of `produceStream`: the values written
through `buffer`, in order; undefined when it reads `o` outside the array. -/
def pcm (apple : Bool) (o : FloatPtr) (samples : Nat) : Except Exc (List Int) :=
  if (List.range samples).all (fun k => decide (2 * k + 1 < o.cap)) then
    .ok ((List.range samples).flatMap
      (fun k => pcmFrame apple (o.data (2 * k)) (o.data (2 * k + 1))))
  else .error (.UndefinedBehaviour "o[i] outside the array output returned")

/-- The statements of `produceStream` from `static float time = 0;` on.  The value
returned is what they have written through `buffer`. -/
def produceStream.play {X : Type} (d : Driver X) (samples : Nat) (s1 : Statics X) :
    Statics X × Except Exc (List Int) :=
  match s1.output with
  | none => (s1, .error (.UndefinedBehaviour "output is the null pointer"))
  | some p =>
    match d.output s1.globals.heap p s1.time samples with
    | (heap1, .error e) =>
      ({ s1 with
          globals := { s1.globals with heap := heap1 }
          pulls := s1.pulls ++ [(p, s1.time, samples)] },
        .error e)
    | (heap1, .ok o) =>
      let s2 : Statics X :=
        { s1 with
            globals := { s1.globals with heap := heap1 }
            pulls := s1.pulls ++ [(p, s1.time, samples)]
            time := nextTime s1.time }
      match pcm d.apple o samples with
      | .error e => (s2, .error e)
      | .ok values => (s2, .ok values)

/-- The function `produceStream(buffer, samples)`.  The value returned is what the
call has written through `buffer`. -/
def produceStream {X : Type} (d : Driver X) (samples : Nat) (s : Statics X) :
    Statics X × Except Exc (List Int) :=
  let s0 := { s with globals := d.register s.globals }
  match (if s0.first then produceStream.setup d s0 else (s0, none)) with
  | (s1, some e) => (s1, .error e)
  | (s1, none) => produceStream.play d samples s1

/-- Successive calls of `produceStream`, with the given sample counts, each of which
returns; `none` when one of them throws. -/
def produceStreams {X : Type} (d : Driver X) : List Nat → Statics X → Option (Statics X)
  | [], s => some s
  | samples :: rest, s =>
    match produceStream d samples s with
    | (_, .error _) => none
    | (s1, .ok _) => produceStreams d rest s1

/-! ## Test drivers -/

/-- The objects of the test drivers: an `Input`, or an object of the stereo test class
`Silence` with the record of its calls. -/
inductive DriverObject where
  | input (axis : Int)
  | silence (x : Traced (StereoPart Unit))

/-- The `Silence` object at `p` in the heap, if there is one. -/
def silenceView (p : Nat) (heap : List (Object DriverObject)) :
    Option (Traced (StereoPart Unit)) :=
  match heap[p]? with
  | some (.made true (.silence x)) => some x
  | _ => none

/-- The virtual call `m->output(last_fill, samples)` on a `Silence` object of the heap:
`StereoModule::output` with the virtual members of `Silence`. -/
def silenceOutput (heap : List (Object DriverObject)) (p : Nat) (t : ℚ) (n : Nat) :
    List (Object DriverObject) × Except Exc FloatPtr :=
  match silenceView p heap with
  | some x =>
    ((heap.set p (.made true (.silence (StereoModule.output Silence.virtuals t n x).1))),
      (StereoModule.output Silence.virtuals t n x).2.map (FloatPtr.mk (max_buffer_size * 2)))
  | none => (heap, .error (.UndefinedBehaviour "no Silence object"))

/-- A test driver: `fillModuleList` registers the type `Silence()`, which declares no
parameter and whose factory returns a freshly constructed `Silence` object. -/
def silenceDriver (patch : List String) (apple : Bool) : Driver DriverObject :=
  { fillModuleList := fun registry k =>
      if k = "Silence" then
        some ⟨"Silence", [], fun _ => .made true (.silence ⟨StereoModule.new (), []⟩)⟩
      else registry k
    newInput := .input
    atof := atofDigits
    patch := patch
    output := silenceOutput
    apple := apple }

/-- The globals at program start: nothing registered, nothing defined. -/
def Globals.empty {X : Type} : Globals X :=
  { g_module_infos := fun _ => none
    g_modules := fun _ => none
    heap := []
    instantiated := [] }

/-- A test driver whose output module returns the array `o` of `max_buffer_size*2`
floats at every call. -/
def bufferDriver (apple : Bool) (o : Nat → ℚ) : Driver Unit :=
  { fillModuleList := fun registry => registry
    newInput := fun _ => ()
    atof := atofDigits
    patch := []
    output := fun heap _ _ _ => (heap, .ok ⟨max_buffer_size * 2, o⟩)
    apple := apple }

/-! ## Theorems -/

theorem fills_append (a b : List Call) : fills (a ++ b) = fills a + fills b := by
  simp [fills, List.countP_append]

theorem inputChecks_append (a b : List Call) :
    inputChecks (a ++ b) = inputChecks a + inputChecks b := by
  simp [inputChecks, List.countP_append]

theorem fills_nil : fills [] = 0 := rfl

theorem fills_cons_fill (t : ℚ) (n : Nat) (l : List Call) :
    fills (Call.fill t n :: l) = fills l + 1 := by
  simp [fills]

theorem fills_cons_validateInputRange (l : List Call) :
    fills (Call.validateInputRange :: l) = fills l := by
  simp [fills]

theorem fills_cons_writeBuffer (n : Nat) (l : List Call) :
    fills (Call.writeBuffer n :: l) = fills l := by
  simp [fills]

theorem fills_cons_validateOutputRange (n : Nat) (l : List Call) :
    fills (Call.validateOutputRange n :: l) = fills l := by
  simp [fills]

theorem inputChecks_nil : inputChecks [] = 0 := rfl

theorem inputChecks_cons_fill (t : ℚ) (n : Nat) (l : List Call) :
    inputChecks (Call.fill t n :: l) = inputChecks l := by
  simp [inputChecks]

theorem inputChecks_cons_validateOutputRange (n : Nat) (l : List Call) :
    inputChecks (Call.validateOutputRange n :: l) = inputChecks l := by
  simp [inputChecks]

theorem inputChecks_recordCalls (w : Option WaveOut) (n : Nat) :
    inputChecks (recordCalls w n) = 0 := by
  cases w <;> simp [recordCalls, inputChecks]

theorem fills_recordCalls (w : Option WaveOut) (n : Nat) : fills (recordCalls w n) = 0 := by
  cases w <;> simp [recordCalls, fills]

theorem record_last_fill {E : Type} (self : Module E) (b : FloatPtr) (n : Nat) :
    (self.record b n).1.m_last_fill = self.m_last_fill := by
  unfold Module.record
  split
  · rfl
  · split <;> rfl

theorem record_m_output {E : Type} (self : Module E) (b : FloatPtr) (n : Nat) :
    (self.record b n).1.m_output = self.m_output := by
  unfold Module.record
  split
  · rfl
  · split <;> rfl

theorem record_sub {E : Type} (self : Module E) (b : FloatPtr) (n : Nat) :
    (self.record b n).1.sub = self.sub := by
  unfold Module.record
  split
  · rfl
  · split <;> rfl

theorem output_cached {E : Type} (v : Virtuals E) (ndebug : Bool) (t : ℚ) (n : Nat)
    (s : Traced E) (h : t ≤ s.obj.m_last_fill) :
    Module.output v ndebug t n s = (s, .ok s.obj.m_output) := by
  simp [Module.output, not_lt.mpr h]

theorem stereo_output_cached {E : Type} (v : Virtuals (StereoPart E)) (t : ℚ) (n : Nat)
    (s : Traced (StereoPart E)) (h : t ≤ s.obj.m_last_fill) :
    StereoModule.output v t n s = (s, .ok s.obj.sub.m_output) := by
  simp [StereoModule.output, not_lt.mpr h]

/-- What a call of `Module::output` at a fresh timestamp that returns leaves behind. -/
theorem output_fresh_ok {E : Type} (v : Virtuals E) (ndebug : Bool) (t : ℚ) (n : Nat)
    (s : Traced E) (h : s.obj.m_last_fill < t) (buf : Nat → ℚ)
    (hok : (Module.output v ndebug t n s).2 = .ok buf) :
    (Module.output v ndebug t n s).1.obj.m_last_fill = t ∧
    (Module.output v ndebug t n s).1.obj.m_output = buf ∧
    fills (Module.output v ndebug t n s).1.calls = fills s.calls + 1 := by
  unfold Module.output at hok ⊢
  simp only [h, if_true] at hok ⊢
  cases hv : v.validateInputRange s.obj with
  | some e => simp [hv] at hok
  | none =>
    simp only [hv] at hok ⊢
    rcases hf : v.fill t n s.obj with ⟨o1, _ | e⟩
    · simp only [hf] at hok ⊢
      have hl := record_last_fill ({ o1 with m_last_fill := t } : Module E)
        ⟨max_buffer_size, o1.m_output⟩ n
      rcases hr : Module.record ({ o1 with m_last_fill := t } : Module E)
        ⟨max_buffer_size, o1.m_output⟩ n with ⟨o3, _ | e⟩
      · simp only [hr] at hok hl ⊢
        cases ndebug with
        | true =>
          simp only [if_true] at hok ⊢
          refine ⟨hl, ?_, ?_⟩
          · simpa using hok
          · simp only [fills_append, fills_recordCalls, fills_cons_fill, fills_nil,
              fills_cons_validateInputRange, fills_cons_validateOutputRange]
        | false =>
          simp only [Bool.false_eq_true, if_false] at hok ⊢
          cases hc : Module.validateOutputRange v o3 ⟨max_buffer_size, o3.m_output⟩ n with
          | some e => simp [hc] at hok
          | none =>
            simp only [hc] at hok ⊢
            refine ⟨hl, ?_, ?_⟩
            · simpa using hok
            · simp only [fills_append, fills_recordCalls, fills_cons_fill, fills_nil,
              fills_cons_validateInputRange, fills_cons_validateOutputRange]
      · simp [hr] at hok
    · simp [hf] at hok

/-- What a call of `StereoModule::output` at a fresh timestamp that returns leaves behind. -/
theorem stereo_output_fresh_ok {E : Type} (v : Virtuals (StereoPart E)) (t : ℚ) (n : Nat)
    (s : Traced (StereoPart E)) (h : s.obj.m_last_fill < t) (buf : Nat → ℚ)
    (hok : (StereoModule.output v t n s).2 = .ok buf) :
    (StereoModule.output v t n s).1.obj.m_last_fill = t ∧
    (StereoModule.output v t n s).1.obj.sub.m_output = buf ∧
    fills (StereoModule.output v t n s).1.calls = fills s.calls + 1 := by
  unfold StereoModule.output at hok ⊢
  simp only [h, if_true] at hok ⊢
  rcases hf : v.fill t n s.obj with ⟨o1, _ | e⟩
  · simp only [hf] at hok ⊢
    have hl := record_last_fill ({ o1 with m_last_fill := t } : Module (StereoPart E))
      ⟨max_buffer_size * 2, o1.sub.m_output⟩ (n * 2)
    rcases hr : Module.record ({ o1 with m_last_fill := t } : Module (StereoPart E))
      ⟨max_buffer_size * 2, o1.sub.m_output⟩ (n * 2) with ⟨o3, _ | e⟩
    · simp only [hr] at hok hl ⊢
      cases hc : Module.validateOutputRange v o3 ⟨max_buffer_size * 2, o3.sub.m_output⟩
          (n * 2) with
      | some e => simp [hc] at hok
      | none =>
        simp only [hc] at hok ⊢
        refine ⟨hl, ?_, ?_⟩
        · simpa using hok
        · simp only [fills_append, fills_recordCalls, fills_cons_fill, fills_nil,
            fills_cons_validateOutputRange]
    · simp [hr] at hok
  · simp [hf] at hok

/-- Two consecutive calls of `Module::output` with the same timestamp, the first of
which returns. -/
theorem output_twice {E : Type} (v : Virtuals E) (ndebug : Bool) (t : ℚ) (n : Nat)
    (s : Traced E) (buf : Nat → ℚ) (hok : (Module.output v ndebug t n s).2 = .ok buf) :
    Module.output v ndebug t n (Module.output v ndebug t n s).1 =
      ((Module.output v ndebug t n s).1, .ok buf) ∧
    fills (Module.output v ndebug t n s).1.calls =
      fills s.calls + (if s.obj.m_last_fill < t then 1 else 0) := by
  by_cases h : s.obj.m_last_fill < t
  · obtain ⟨h1, h2, h3⟩ := output_fresh_ok v ndebug t n s h buf hok
    rw [output_cached v ndebug t n _ (le_of_eq h1.symm), h2]
    simp [h, h3]
  · have hc := output_cached v ndebug t n s (not_lt.mp h)
    rw [hc] at hok ⊢
    have hb : s.obj.m_output = buf := by simpa using hok
    rw [hc, hb]
    simp [h]

/-- Two consecutive calls of `StereoModule::output` with the same timestamp, the first
of which returns. -/
theorem stereo_output_twice {E : Type} (v : Virtuals (StereoPart E)) (t : ℚ) (n : Nat)
    (s : Traced (StereoPart E)) (buf : Nat → ℚ)
    (hok : (StereoModule.output v t n s).2 = .ok buf) :
    StereoModule.output v t n (StereoModule.output v t n s).1 =
      ((StereoModule.output v t n s).1, .ok buf) ∧
    fills (StereoModule.output v t n s).1.calls =
      fills s.calls + (if s.obj.m_last_fill < t then 1 else 0) := by
  by_cases h : s.obj.m_last_fill < t
  · obtain ⟨h1, h2, h3⟩ := stereo_output_fresh_ok v t n s h buf hok
    rw [stereo_output_cached v t n _ (le_of_eq h1.symm), h2]
    simp [h, h3]
  · have hc := stereo_output_cached v t n s (not_lt.mp h)
    rw [hc] at hok ⊢
    have hb : s.obj.sub.m_output = buf := by simpa using hok
    rw [hc, hb]
    simp [h]

/-! ### C1: two calls with the same timestamp -/

/-- C1, as stated, fails: a freshly constructed `Constant` has last-evaluated
timestamp `0`, so two consecutive calls `output(0, 8)` (timestamp `0` is the first one
the driver supplies) both return and `fill` is executed not once but never. -/
theorem fresh_module_first_timestamp_never_filled :
    (Module.output Constant.virtuals false 0 8 ⟨Constant.new 1, []⟩).2
      = .ok (Constant.new 1).m_output ∧
    (Module.output Constant.virtuals false 0 8
      (Module.output Constant.virtuals false 0 8 ⟨Constant.new 1, []⟩).1).2
      = .ok (Constant.new 1).m_output ∧
    fills (Module.output Constant.virtuals false 0 8
      (Module.output Constant.virtuals false 0 8 ⟨Constant.new 1, []⟩).1).1.calls = 0 ∧
    ¬ fills (Module.output Constant.virtuals false 0 8
      (Module.output Constant.virtuals false 0 8 ⟨Constant.new 1, []⟩).1).1.calls = 1 := by
  have h : Module.output Constant.virtuals false 0 8 ⟨Constant.new 1, []⟩
      = (⟨Constant.new 1, []⟩, .ok (Constant.new 1).m_output) :=
    output_cached Constant.virtuals false 0 8 ⟨Constant.new 1, []⟩ (le_refl _)
  rw [h]
  simp only [h]
  exact ⟨trivial, trivial, rfl, by simp [fills]⟩

/-- C1 (amended): for every module, mono or stereo, every state and every timestamp
`t`, if the first of two consecutive calls `output(t, n)` returns a buffer then the
second call returns the same buffer and changes nothing, and across the two calls
`fill` is executed exactly once when `t` is strictly greater than the last-evaluated
timestamp, and not at all otherwise. -/
theorem output_twice_same_buffer_one_fill {E F : Type} (v : Virtuals E)
    (vs : Virtuals (StereoPart F)) (ndebug : Bool) (t : ℚ) (n : Nat)
    (s : Traced E) (ss : Traced (StereoPart F)) :
    (∀ buf, (Module.output v ndebug t n s).2 = .ok buf →
      Module.output v ndebug t n (Module.output v ndebug t n s).1 =
        ((Module.output v ndebug t n s).1, .ok buf) ∧
      fills (Module.output v ndebug t n (Module.output v ndebug t n s).1).1.calls =
        fills s.calls + (if s.obj.m_last_fill < t then 1 else 0)) ∧
    (∀ buf, (StereoModule.output vs t n ss).2 = .ok buf →
      StereoModule.output vs t n (StereoModule.output vs t n ss).1 =
        ((StereoModule.output vs t n ss).1, .ok buf) ∧
      fills (StereoModule.output vs t n (StereoModule.output vs t n ss).1).1.calls =
        fills ss.calls + (if ss.obj.m_last_fill < t then 1 else 0)) := by
  constructor
  · intro buf hok
    obtain ⟨h1, h2⟩ := output_twice v ndebug t n s buf hok
    exact ⟨h1, by rw [h1]; exact h2⟩
  · intro buf hok
    obtain ⟨h1, h2⟩ := stereo_output_twice vs t n ss buf hok
    exact ⟨h1, by rw [h1]; exact h2⟩

/-- Witness of `output_twice_same_buffer_one_fill`: a fresh `Constant(1)` and a fresh
`Spread` over `Constant(1)`, both called twice at timestamp `1`. -/
theorem output_twice_same_buffer_one_fill_witness :
    (Module.output Constant.virtuals false 1 8
        (Module.output Constant.virtuals false 1 8 ⟨Constant.new 1, []⟩).1 =
        ((Module.output Constant.virtuals false 1 8 ⟨Constant.new 1, []⟩).1,
          .ok (Constant.new 1).m_output) ∧
      fills (Module.output Constant.virtuals false 1 8
        (Module.output Constant.virtuals false 1 8 ⟨Constant.new 1, []⟩).1).1.calls =
        fills [] + (if (Constant.new 1).m_last_fill < 1 then 1 else 0)) ∧
    (StereoModule.output Spread.virtuals 1 2
        (StereoModule.output Spread.virtuals 1 2 (Spread.new 1)).1 =
        ((StereoModule.output Spread.virtuals 1 2 (Spread.new 1)).1,
          .ok (StereoModule.output Spread.virtuals 1 2
            (Spread.new 1)).1.obj.sub.m_output) ∧
      fills (StereoModule.output Spread.virtuals 1 2
        (StereoModule.output Spread.virtuals 1 2 (Spread.new 1)).1).1.calls =
        fills [] + (if (Spread.new 1).obj.m_last_fill < 1 then 1 else 0)) :=
  ⟨(output_twice_same_buffer_one_fill Constant.virtuals Spread.virtuals false 1 8
      ⟨Constant.new 1, []⟩ (Spread.new 1)).1 _ rfl,
   (output_twice_same_buffer_one_fill Constant.virtuals Spread.virtuals false 1 2
      ⟨Constant.new 1, []⟩ (Spread.new 1)).2 _ rfl⟩

/-! ### C2: a timestamp not greater than the last one -/

/-- C2: for every module, mono or stereo, whose last-evaluated timestamp is at least
`t`, `output(t, n)` returns the cached buffer and leaves the whole object as it was:
the output buffer, the last-evaluated timestamp and the recording sink are unchanged,
and the record of calls is unchanged, so neither `validateInputRange` nor `fill` nor
`writeBuffer` is called. -/
theorem output_not_fresh_returns_cache {E F : Type} (v : Virtuals E)
    (vs : Virtuals (StereoPart F)) (ndebug : Bool) (t : ℚ) (n : Nat)
    (s : Traced E) (ss : Traced (StereoPart F)) :
    (t ≤ s.obj.m_last_fill →
      Module.output v ndebug t n s = (s, .ok s.obj.m_output) ∧
      (Module.output v ndebug t n s).1.calls = s.calls ∧
      (Module.output v ndebug t n s).1.obj.m_output = s.obj.m_output ∧
      (Module.output v ndebug t n s).1.obj.m_last_fill = s.obj.m_last_fill ∧
      (Module.output v ndebug t n s).1.obj.m_waveout = s.obj.m_waveout) ∧
    (t ≤ ss.obj.m_last_fill →
      StereoModule.output vs t n ss = (ss, .ok ss.obj.sub.m_output) ∧
      (StereoModule.output vs t n ss).1.calls = ss.calls ∧
      (StereoModule.output vs t n ss).1.obj.sub.m_output = ss.obj.sub.m_output ∧
      (StereoModule.output vs t n ss).1.obj.m_last_fill = ss.obj.m_last_fill ∧
      (StereoModule.output vs t n ss).1.obj.m_waveout = ss.obj.m_waveout) := by
  constructor
  · intro h
    rw [output_cached v ndebug t n s h]
    exact ⟨rfl, rfl, rfl, rfl, rfl⟩
  · intro h
    rw [stereo_output_cached vs t n ss h]
    exact ⟨rfl, rfl, rfl, rfl, rfl⟩

/-- Witness of `output_not_fresh_returns_cache`: a `Constant` and a `Spread` last
evaluated at timestamp `3`, both with a recording sink attached, asked for
timestamp `2`. -/
theorem output_not_fresh_returns_cache_witness :
    ((2 : ℚ) ≤ 3 ∧
      Module.output Constant.virtuals false 2 8
        ⟨{ (Constant.new 1).log 32768 false with m_last_fill := 3 }, []⟩ =
        (⟨{ (Constant.new 1).log 32768 false with m_last_fill := 3 }, []⟩,
          .ok (Constant.new 1).m_output)) ∧
    ((2 : ℚ) ≤ 3 ∧
      StereoModule.output Spread.virtuals 2 8
        ⟨{ (Spread.new 1).obj.log 32768 true with m_last_fill := 3 }, []⟩ =
        (⟨{ (Spread.new 1).obj.log 32768 true with m_last_fill := 3 }, []⟩,
          .ok (Spread.new 1).obj.sub.m_output)) :=
  ⟨⟨by norm_num,
    ((output_not_fresh_returns_cache Constant.virtuals Spread.virtuals false 2 8
      ⟨{ (Constant.new 1).log 32768 false with m_last_fill := 3 }, []⟩
      ⟨{ (Spread.new 1).obj.log 32768 true with m_last_fill := 3 }, []⟩).1
        (by norm_num [Constant.new, Module.log, Constant.setValue, Module.new])).1⟩,
   ⟨by norm_num,
    ((output_not_fresh_returns_cache Constant.virtuals Spread.virtuals false 2 8
      ⟨{ (Constant.new 1).log 32768 false with m_last_fill := 3 }, []⟩
      ⟨{ (Spread.new 1).obj.log 32768 true with m_last_fill := 3 }, []⟩).2
        (by norm_num [Spread.new, Module.log, StereoModule.new, Module.new])).1⟩⟩

/-! ### C3: the graph `A -> {B, C} -> D` -/

/-- What a call of `Module::output` at a fresh timestamp that returns has done:
`validateInputRange` passed, `fill` returned, and what the object reaches is as
`fill` left it. -/
theorem output_fresh_ok_fill {E : Type} (v : Virtuals E) (ndebug : Bool) (t : ℚ) (n : Nat)
    (s : Traced E) (h : s.obj.m_last_fill < t) (buf : Nat → ℚ)
    (hok : (Module.output v ndebug t n s).2 = .ok buf) :
    v.validateInputRange s.obj = none ∧
    (v.fill t n s.obj).2 = none ∧
    (Module.output v ndebug t n s).1.obj.sub = (v.fill t n s.obj).1.sub ∧
    (Module.output v ndebug t n s).1.obj.m_output = (v.fill t n s.obj).1.m_output := by
  unfold Module.output at hok ⊢
  simp only [h, if_true] at hok ⊢
  cases hv : v.validateInputRange s.obj with
  | some e => simp [hv] at hok
  | none =>
    simp only [hv] at hok ⊢
    rcases hf : v.fill t n s.obj with ⟨o1, _ | e⟩
    · simp only [hf] at hok ⊢
      have hs := record_sub ({ o1 with m_last_fill := t } : Module E)
        ⟨max_buffer_size, o1.m_output⟩ n
      have hm := record_m_output ({ o1 with m_last_fill := t } : Module E)
        ⟨max_buffer_size, o1.m_output⟩ n
      rcases hr : Module.record ({ o1 with m_last_fill := t } : Module E)
        ⟨max_buffer_size, o1.m_output⟩ n with ⟨o3, _ | e⟩
      · simp only [hr] at hok hs hm ⊢
        cases ndebug with
        | true =>
          simp only [if_true] at hok ⊢
          exact ⟨trivial, trivial, hs, hm⟩
        | false =>
          simp only [Bool.false_eq_true, if_false] at hok ⊢
          cases hc : Module.validateOutputRange v o3 ⟨max_buffer_size, o3.m_output⟩ n with
          | some e => simp [hc] at hok
          | none =>
            simp only [hc] at hok ⊢
            exact ⟨trivial, trivial, hs, hm⟩
      · simp [hr] at hok
    · simp [hf] at hok

theorem pullOne_input {P EI : Type} (vin : Virtuals EI) (ndebug : Bool)
    (compute : ℚ → Nat → (Nat → ℚ) → Module P → Module P × Option Exc)
    (t : ℚ) (n : Nat) (self : Module (OneInput P EI)) :
    (pullOne vin ndebug compute t n self).1.sub.input =
      (Module.output vin ndebug t n self.sub.input).1 := by
  unfold pullOne
  rcases Module.output vin ndebug t n self.sub.input with ⟨input, e | buf⟩ <;> rfl

theorem pullOne_ok {P EI : Type} (vin : Virtuals EI) (ndebug : Bool)
    (compute : ℚ → Nat → (Nat → ℚ) → Module P → Module P × Option Exc)
    (t : ℚ) (n : Nat) (self : Module (OneInput P EI))
    (h : (pullOne vin ndebug compute t n self).2 = none) :
    ∃ buf, (Module.output vin ndebug t n self.sub.input).2 = .ok buf := by
  unfold pullOne at h
  rcases hr : Module.output vin ndebug t n self.sub.input with ⟨input, e | buf⟩
  · simp [hr] at h
  · exact ⟨buf, rfl⟩

/-- A call of `output` at a fresh timestamp, which returns, on an object whose `fill`
pulls one input: the input was pulled with the same timestamp and returned, and the
object's own `fill` was executed once. -/
theorem oneInput_output_ok {P EI : Type} (vin : Virtuals EI) (v : Virtuals (OneInput P EI))
    (ndebug : Bool) (compute : ℚ → Nat → (Nat → ℚ) → Module P → Module P × Option Exc)
    (hv : v.fill = pullOne vin ndebug compute) (t : ℚ) (n : Nat)
    (x : Traced P) (a : Traced EI) (h : x.obj.m_last_fill < t) (buf : Nat → ℚ)
    (hok : (Module.output v ndebug t n (withInput x a)).2 = .ok buf) :
    (∃ bufA, (Module.output vin ndebug t n a).2 = .ok bufA) ∧
    (Module.output v ndebug t n (withInput x a)).1.obj.sub.input =
      (Module.output vin ndebug t n a).1 ∧
    fills (withoutInput (Module.output v ndebug t n (withInput x a)).1).calls =
      fills x.calls + 1 := by
  have h1 : (withInput x a).obj.m_last_fill < t := h
  obtain ⟨_, hf, hs, _⟩ := output_fresh_ok_fill v ndebug t n (withInput x a) h1 buf hok
  obtain ⟨_, _, hc⟩ := output_fresh_ok v ndebug t n (withInput x a) h1 buf hok
  rw [hv] at hf hs
  refine ⟨?_, ?_, ?_⟩
  · exact pullOne_ok vin ndebug compute t n (withInput x a).obj hf
  · rw [hs, pullOne_input]
    rfl
  · exact hc

theorem pullDiamond_ok {EA PB PC PD : Type} (vB : Virtuals (OneInput PB EA))
    (vC : Virtuals (OneInput PC EA)) (ndebug : Bool)
    (compute : ℚ → Nat → (Nat → ℚ) → (Nat → ℚ) → Module PD → Module PD × Option Exc)
    (t : ℚ) (n : Nat) (self : Module (DiamondSub EA PB PC PD))
    (h : (pullDiamond vB vC ndebug compute t n self).2 = none) :
    (∃ bufB, (Module.output vB ndebug t n (withInput self.sub.b self.sub.a)).2 = .ok bufB) ∧
    (∃ bufC, (Module.output vC ndebug t n (withInput self.sub.c
      (Module.output vB ndebug t n (withInput self.sub.b self.sub.a)).1.obj.sub.input)).2
        = .ok bufC) ∧
    (pullDiamond vB vC ndebug compute t n self).1.sub.b =
      withoutInput (Module.output vB ndebug t n (withInput self.sub.b self.sub.a)).1 ∧
    (pullDiamond vB vC ndebug compute t n self).1.sub.c =
      withoutInput (Module.output vC ndebug t n (withInput self.sub.c
        (Module.output vB ndebug t n (withInput self.sub.b self.sub.a)).1.obj.sub.input)).1 ∧
    (pullDiamond vB vC ndebug compute t n self).1.sub.a =
      (Module.output vC ndebug t n (withInput self.sub.c
        (Module.output vB ndebug t n (withInput self.sub.b self.sub.a)).1.obj.sub.input)).1.obj.sub.input := by
  unfold pullDiamond at h ⊢
  rcases hb : Module.output vB ndebug t n (withInput self.sub.b self.sub.a) with ⟨b1, e | bufB⟩
  · simp [hb] at h
  · simp only [hb] at h ⊢
    rcases hc : Module.output vC ndebug t n (withInput self.sub.c b1.obj.sub.input)
      with ⟨c1, e | bufC⟩
    · simp [hc] at h
    · exact ⟨⟨bufB, rfl⟩, ⟨bufC, rfl⟩, rfl, rfl, rfl⟩

/-- C3, as stated, fails: in the fresh graph `A -> {B, C} -> D` with `A` a
`Constant(2)`, `B` and `C` copying `A`, and `D` accepting inputs within `[-1, 1]`,
every last-evaluated timestamp is `0 < 1`, yet `D.output(1, 8)` fails in
`validateInputRange` with Invalid-Input-Range and the `fill` of `A` (and of `B`, `C`
and `D`) is executed not once but never. -/
theorem diamond_rejected_input_never_filled :
    (Mix.diamond 2).obj.m_last_fill < 1 ∧
    (Mix.diamond 2).obj.sub.a.obj.m_last_fill < 1 ∧
    (Mix.diamond 2).obj.sub.b.obj.m_last_fill < 1 ∧
    (Mix.diamond 2).obj.sub.c.obj.m_last_fill < 1 ∧
    (Module.output Mix.virtuals false 1 8 (Mix.diamond 2)).2 =
      .error (.InvalidInputRangeExcept "Copy" 2 2 "Mix" (-1) 1) ∧
    fills (Module.output Mix.virtuals false 1 8 (Mix.diamond 2)).1.obj.sub.a.calls = 0 ∧
    ¬ fills (Module.output Mix.virtuals false 1 8 (Mix.diamond 2)).1.obj.sub.a.calls =
      fills (Mix.diamond 2).obj.sub.a.calls + 1 := by
  refine ⟨by rfl, by rfl, by rfl, by rfl, by rfl, by rfl, ?_⟩
  have h : fills (Module.output Mix.virtuals false 1 8 (Mix.diamond 2)).1.obj.sub.a.calls = 0 := by
    rfl
  rw [h]
  simp [Mix.diamond, fills]

/-- In the graph `A -> {B, C} -> D`, at a timestamp fresh for all four: when
`D.output(t, n)` returns, each `fill` has been executed once. -/
theorem diamond_filled_once_of_ok {EA PB PC PD : Type} (vA : Virtuals EA)
    (vB : Virtuals (OneInput PB EA)) (vC : Virtuals (OneInput PC EA))
    (vD : Virtuals (DiamondSub EA PB PC PD)) (ndebug : Bool)
    (computeB : ℚ → Nat → (Nat → ℚ) → Module PB → Module PB × Option Exc)
    (computeC : ℚ → Nat → (Nat → ℚ) → Module PC → Module PC × Option Exc)
    (computeD : ℚ → Nat → (Nat → ℚ) → (Nat → ℚ) → Module PD → Module PD × Option Exc)
    (hB : vB.fill = pullOne vA ndebug computeB)
    (hC : vC.fill = pullOne vA ndebug computeC)
    (hD : vD.fill = pullDiamond vB vC ndebug computeD)
    (t : ℚ) (n : Nat) (s : Traced (DiamondSub EA PB PC PD))
    (ha : s.obj.sub.a.obj.m_last_fill < t) (hb : s.obj.sub.b.obj.m_last_fill < t)
    (hc : s.obj.sub.c.obj.m_last_fill < t) (hd : s.obj.m_last_fill < t)
    (buf : Nat → ℚ) (hok : (Module.output vD ndebug t n s).2 = .ok buf) :
    fills (Module.output vD ndebug t n s).1.obj.sub.a.calls = fills s.obj.sub.a.calls + 1 ∧
    fills (Module.output vD ndebug t n s).1.obj.sub.b.calls = fills s.obj.sub.b.calls + 1 ∧
    fills (Module.output vD ndebug t n s).1.obj.sub.c.calls = fills s.obj.sub.c.calls + 1 ∧
    fills (Module.output vD ndebug t n s).1.calls = fills s.calls + 1 := by
  obtain ⟨_, hf, hs, _⟩ := output_fresh_ok_fill vD ndebug t n s hd buf hok
  obtain ⟨_, _, hdf⟩ := output_fresh_ok vD ndebug t n s hd buf hok
  rw [hD] at hf hs
  obtain ⟨⟨bufB, hBok⟩, ⟨bufC, hCok⟩, eb, ec, ea⟩ :=
    pullDiamond_ok vB vC ndebug computeD t n s.obj hf
  obtain ⟨⟨bufA, hAok⟩, hBin, hBf⟩ :=
    oneInput_output_ok vA vB ndebug computeB hB t n s.obj.sub.b s.obj.sub.a hb bufB hBok
  obtain ⟨hAl, _, hAf⟩ := output_fresh_ok vA ndebug t n s.obj.sub.a ha bufA hAok
  obtain ⟨_, hCin, hCf⟩ :=
    oneInput_output_ok vA vC ndebug computeC hC t n s.obj.sub.c _ hc bufC hCok
  refine ⟨?_, ?_, ?_, hdf⟩
  · rw [hs, ea, hCin, hBin, output_cached vA ndebug t n _ (le_of_eq hAl.symm)]
    exact hAf
  · rw [hs, eb]
    exact hBf
  · rw [hs, ec]
    exact hCf

theorem output_fills_le {E : Type} (v : Virtuals E) (ndebug : Bool) (t : ℚ) (n : Nat)
    (s : Traced E) : fills (Module.output v ndebug t n s).1.calls ≤ fills s.calls + 1 := by
  unfold Module.output
  by_cases h : s.obj.m_last_fill < t
  · simp only [h, if_true]
    cases hv : v.validateInputRange s.obj with
    | some e =>
      simp only [fills_append, fills_cons_validateInputRange, fills_nil]
      omega
    | none =>
      simp only
      rcases hf : v.fill t n s.obj with ⟨o1, _ | e⟩
      · simp only
        rcases hr : Module.record ({ o1 with m_last_fill := t } : Module E)
          ⟨max_buffer_size, o1.m_output⟩ n with ⟨o3, _ | e⟩
        · simp only
          cases ndebug with
          | true =>
            simp only [if_true, fills_append, fills_recordCalls, fills_cons_fill, fills_nil,
              fills_cons_validateInputRange]
            omega
          | false =>
            simp only [Bool.false_eq_true, if_false]
            cases Module.validateOutputRange v o3 ⟨max_buffer_size, o3.m_output⟩ n <;>
              (simp only [fills_append, fills_recordCalls, fills_cons_fill, fills_nil,
                fills_cons_validateInputRange, fills_cons_validateOutputRange]; omega)
        · simp only [fills_append, fills_recordCalls, fills_cons_fill, fills_nil,
            fills_cons_validateInputRange]
          omega
      · simp only [fills_append, fills_cons_fill, fills_nil, fills_cons_validateInputRange]
        omega
  · simp only [h, if_false]
    omega

/-- What an object reaches after a call of `Module::output`: as it was when `fill` is
not called, and as `fill` left it otherwise. -/
theorem output_sub_cases {E : Type} (v : Virtuals E) (ndebug : Bool) (t : ℚ) (n : Nat)
    (s : Traced E) :
    (Module.output v ndebug t n s).1.obj.sub = s.obj.sub ∨
    (Module.output v ndebug t n s).1.obj.sub = (v.fill t n s.obj).1.sub := by
  unfold Module.output
  by_cases h : s.obj.m_last_fill < t
  · rw [if_pos h]
    cases hv : v.validateInputRange s.obj with
    | some e => exact Or.inl rfl
    | none =>
      simp only
      rcases hf : v.fill t n s.obj with ⟨o1, _ | e⟩
      · simp only
        have hs := record_sub ({ o1 with m_last_fill := t } : Module E)
          ⟨max_buffer_size, o1.m_output⟩ n
        rcases hr : Module.record ({ o1 with m_last_fill := t } : Module E)
          ⟨max_buffer_size, o1.m_output⟩ n with ⟨o3, _ | e⟩
        · simp only [hr] at hs ⊢
          cases ndebug with
          | true => exact Or.inr hs
          | false =>
            simp only [Bool.false_eq_true, if_false]
            cases Module.validateOutputRange v o3 ⟨max_buffer_size, o3.m_output⟩ n <;>
              exact Or.inr hs
        · simp only [hr] at hs ⊢
          exact Or.inr hs
      · exact Or.inr rfl
  · rw [if_neg h]
    exact Or.inl rfl
/-- The input of an object whose `fill` pulls one input, after a call of `output`: as
it was, or as the one call of its `output` left it. -/
theorem oneInput_input_cases {P EI : Type} (vin : Virtuals EI) (v : Virtuals (OneInput P EI))
    (ndebug : Bool) (compute : ℚ → Nat → (Nat → ℚ) → Module P → Module P × Option Exc)
    (hv : v.fill = pullOne vin ndebug compute) (t : ℚ) (n : Nat)
    (x : Traced P) (a : Traced EI) :
    (Module.output v ndebug t n (withInput x a)).1.obj.sub.input = a ∨
    (Module.output v ndebug t n (withInput x a)).1.obj.sub.input =
      (Module.output vin ndebug t n a).1 := by
  rcases output_sub_cases v ndebug t n (withInput x a) with h | h
  · left
    rw [h]
    rfl
  · right
    rw [h, hv, pullOne_input]
    rfl

theorem diamond_input_at_most_once {EA PB PC PD : Type} (vA : Virtuals EA)
    (vB : Virtuals (OneInput PB EA)) (vC : Virtuals (OneInput PC EA))
    (vD : Virtuals (DiamondSub EA PB PC PD)) (ndebug : Bool)
    (computeB : ℚ → Nat → (Nat → ℚ) → Module PB → Module PB × Option Exc)
    (computeC : ℚ → Nat → (Nat → ℚ) → Module PC → Module PC × Option Exc)
    (computeD : ℚ → Nat → (Nat → ℚ) → (Nat → ℚ) → Module PD → Module PD × Option Exc)
    (hB : vB.fill = pullOne vA ndebug computeB)
    (hC : vC.fill = pullOne vA ndebug computeC)
    (hD : vD.fill = pullDiamond vB vC ndebug computeD)
    (t : ℚ) (n : Nat) (s : Traced (DiamondSub EA PB PC PD))
    (ha : s.obj.sub.a.obj.m_last_fill < t) (hb : s.obj.sub.b.obj.m_last_fill < t) :
    fills (Module.output vD ndebug t n s).1.obj.sub.a.calls ≤ fills s.obj.sub.a.calls + 1 := by
  rcases output_sub_cases vD ndebug t n s with h | h
  · rw [h]
    omega
  · rw [h, hD]
    unfold pullDiamond
    have hbin := oneInput_input_cases vA vB ndebug computeB hB t n s.obj.sub.b s.obj.sub.a
    rcases hb1 : Module.output vB ndebug t n (withInput s.obj.sub.b s.obj.sub.a)
      with ⟨b1, e | bufB⟩
    · rw [hb1] at hbin
      simp only at hbin ⊢
      rcases hbin with h1 | h1
      · rw [h1]
        omega
      · rw [h1]
        exact output_fills_le vA ndebug t n s.obj.sub.a
    · have hBok : (Module.output vB ndebug t n (withInput s.obj.sub.b s.obj.sub.a)).2 =
          .ok bufB := by rw [hb1]
      obtain ⟨⟨bufA, hAok⟩, hBin, _⟩ :=
        oneInput_output_ok vA vB ndebug computeB hB t n s.obj.sub.b s.obj.sub.a hb bufB hBok
      obtain ⟨hAl, _, hAf⟩ := output_fresh_ok vA ndebug t n s.obj.sub.a ha bufA hAok
      rw [hb1] at hBin
      simp only at hBin
      have hcin := oneInput_input_cases vA vC ndebug computeC hC t n s.obj.sub.c b1.obj.sub.input
      rw [hBin, output_cached vA ndebug t n _ (le_of_eq hAl.symm), or_self] at hcin
      simp only [hBin]
      rcases hc1 : Module.output vC ndebug t n
          (withInput s.obj.sub.c (Module.output vA ndebug t n s.obj.sub.a).1)
        with ⟨c1, e | bufC⟩ <;>
      · rw [hc1] at hcin
        simp only at hcin ⊢
        rw [hcin, hAf]

/-- C3 (amended): in every graph in which the `fill` of `D` pulls `B.output(t, n)` and
`C.output(t, n)` and the `fill` of both `B` and `C` pulls `A.output(t, n)`, for every
timestamp `t` strictly greater than the last-evaluated timestamps of `A`, `B`, `C` and
`D`: evaluating `D.output(t, n)` executes the `fill` of `A` at most once, and if
`D.output(t, n)` returns (no range check throws) it has executed the `fill` of `A`
exactly once, and so the `fill` of `B`, of `C` and of `D`. -/
theorem diamond_shared_input_filled_once {EA PB PC PD : Type} (vA : Virtuals EA)
    (vB : Virtuals (OneInput PB EA)) (vC : Virtuals (OneInput PC EA))
    (vD : Virtuals (DiamondSub EA PB PC PD)) (ndebug : Bool)
    (computeB : ℚ → Nat → (Nat → ℚ) → Module PB → Module PB × Option Exc)
    (computeC : ℚ → Nat → (Nat → ℚ) → Module PC → Module PC × Option Exc)
    (computeD : ℚ → Nat → (Nat → ℚ) → (Nat → ℚ) → Module PD → Module PD × Option Exc)
    (hB : vB.fill = pullOne vA ndebug computeB)
    (hC : vC.fill = pullOne vA ndebug computeC)
    (hD : vD.fill = pullDiamond vB vC ndebug computeD)
    (t : ℚ) (n : Nat) (s : Traced (DiamondSub EA PB PC PD))
    (ha : s.obj.sub.a.obj.m_last_fill < t) (hb : s.obj.sub.b.obj.m_last_fill < t)
    (hc : s.obj.sub.c.obj.m_last_fill < t) (hd : s.obj.m_last_fill < t) :
    fills (Module.output vD ndebug t n s).1.obj.sub.a.calls ≤ fills s.obj.sub.a.calls + 1 ∧
    (∀ buf, (Module.output vD ndebug t n s).2 = .ok buf →
      fills (Module.output vD ndebug t n s).1.obj.sub.a.calls = fills s.obj.sub.a.calls + 1 ∧
      fills (Module.output vD ndebug t n s).1.obj.sub.b.calls = fills s.obj.sub.b.calls + 1 ∧
      fills (Module.output vD ndebug t n s).1.obj.sub.c.calls = fills s.obj.sub.c.calls + 1 ∧
      fills (Module.output vD ndebug t n s).1.calls = fills s.calls + 1) :=
  ⟨diamond_input_at_most_once vA vB vC vD ndebug computeB computeC computeD hB hC hD t n s
      ha hb,
   fun buf hok => diamond_filled_once_of_ok vA vB vC vD ndebug computeB computeC computeD
      hB hC hD t n s ha hb hc hd buf hok⟩

/-- Witness of `diamond_shared_input_filled_once`: the fresh graph with `A` a
`Constant(1)`, `B` and `C` of class `Copy` and `D` of class `Mix`, at timestamp `1`. -/
theorem diamond_shared_input_filled_once_witness :
    fills (Module.output Mix.virtuals false 1 8 (Mix.diamond 1)).1.obj.sub.a.calls =
      fills (Mix.diamond 1).obj.sub.a.calls + 1 ∧
    fills (Module.output Mix.virtuals false 1 8 (Mix.diamond 1)).1.obj.sub.b.calls =
      fills (Mix.diamond 1).obj.sub.b.calls + 1 ∧
    fills (Module.output Mix.virtuals false 1 8 (Mix.diamond 1)).1.obj.sub.c.calls =
      fills (Mix.diamond 1).obj.sub.c.calls + 1 ∧
    fills (Module.output Mix.virtuals false 1 8 (Mix.diamond 1)).1.calls =
      fills (Mix.diamond 1).calls + 1 :=
  (diamond_shared_input_filled_once Constant.virtuals Copy.virtuals Copy.virtuals
    Mix.virtuals false Copy.compute Copy.compute Mix.compute rfl rfl rfl 1 8 (Mix.diamond 1)
    (by rfl) (by rfl) (by rfl) (by rfl)).2
    (Module.output Mix.virtuals false 1 8 (Mix.diamond 1)).1.obj.m_output
    (by
      norm_num [Module.output, Mix.virtuals, Mix.diamond, Mix.compute, Copy.virtuals,
        Copy.compute, Constant.virtuals, Constant.new, Constant.setValue, Module.new,
        pullDiamond, pullOne, withInput, withoutInput, validateWithin, Module.record,
        recordCalls, Module.validateOutputRange, validateOutputRangeFrom, FloatPtr.read,
        max_buffer_size])

/-! ### C4: `validateInputRange` before `fill` -/

/-- In `Module::output`, an input range that `validateInputRange` rejects ends the
call before `fill`: the object is as it was, and only the call of
`validateInputRange` is recorded. -/
theorem mono_output_rejects_input {E : Type} (v : Virtuals E) (ndebug : Bool) (t : ℚ)
    (n : Nat) (s : Traced E) (h : s.obj.m_last_fill < t) (e : Exc)
    (hin : v.validateInputRange s.obj = some e) :
    Module.output v ndebug t n s = (⟨s.obj, s.calls ++ [.validateInputRange]⟩, .error e) := by
  unfold Module.output
  simp only [h, if_true, hin]

/-- In `StereoModule::output`, `validateInputRange` is never called. -/
theorem stereo_output_no_input_check {E : Type} (v : Virtuals (StereoPart E)) (t : ℚ)
    (n : Nat) (s : Traced (StereoPart E)) :
    inputChecks (StereoModule.output v t n s).1.calls = inputChecks s.calls := by
  unfold StereoModule.output
  by_cases h : s.obj.m_last_fill < t
  · simp only [h, if_true]
    rcases hf : v.fill t n s.obj with ⟨o1, _ | e⟩
    · simp only [hf]
      rcases hrec : Module.record ({ o1 with m_last_fill := t } : Module (StereoPart E))
        ⟨max_buffer_size * 2, o1.sub.m_output⟩ (n * 2) with ⟨o3, _ | e⟩
      · simp only [hrec]
        cases hc : Module.validateOutputRange v o3 ⟨max_buffer_size * 2, o3.sub.m_output⟩
            (n * 2) <;>
          simp only [inputChecks_append, inputChecks_recordCalls, inputChecks_cons_fill,
            inputChecks_cons_validateOutputRange, inputChecks_nil, Nat.add_zero]
      · simp only [hrec, inputChecks_append, inputChecks_recordCalls, inputChecks_cons_fill,
          inputChecks_nil, Nat.add_zero]
    · simp only [hf, inputChecks_append, inputChecks_cons_fill, inputChecks_nil, Nat.add_zero]
  · simp only [h, if_false]

/-- C4 fails on the code for stereo modules: a fresh `Spread` whose input is a
`Constant(2)` has an input range `[2, 2]` that its `validateInputRange` rejects
(it accepts `[-1, 1]`), yet `output(1, 2)` at the fresh timestamp `1` does not call
`validateInputRange`: it returns, `fill` has been executed, the buffer is modified
and the last-evaluated timestamp is advanced to `1`. -/
theorem stereo_output_fills_despite_rejected_input :
    (Spread.new 2).obj.m_last_fill < 1 ∧
    Spread.virtuals.validateInputRange (Spread.new 2).obj =
      some (.InvalidInputRangeExcept "Constant" 2 2 "Spread" (-1) 1) ∧
    (StereoModule.output Spread.virtuals 1 2 (Spread.new 2)).2 =
      .ok (StereoModule.output Spread.virtuals 1 2 (Spread.new 2)).1.obj.sub.m_output ∧
    (StereoModule.output Spread.virtuals 1 2 (Spread.new 2)).1.calls =
      [.fill 1 2, .validateOutputRange 4] ∧
    (StereoModule.output Spread.virtuals 1 2 (Spread.new 2)).1.obj.sub.m_output 0 = 2 ∧
    (Spread.new 2).obj.sub.m_output 0 = 0 ∧
    (StereoModule.output Spread.virtuals 1 2 (Spread.new 2)).1.obj.m_last_fill = 1 := by
  refine ⟨by rfl, by rfl, by rfl, by rfl, by rfl, by rfl, by rfl⟩

/-! ### C5: the output range check of a mono module -/

theorem writeBuffer_in_bounds (w : WaveOut) (buffer : FloatPtr) (size : Nat)
    (h1 : size ≤ max_buffer_size) (h2 : size ≤ buffer.cap) :
    ∃ w1, w.writeBuffer buffer size = some w1 := by
  unfold WaveOut.writeBuffer
  have h : (WaveOut.writeBufferIndices size).all
      (fun i => decide (i < max_buffer_size) && decide (i < buffer.cap)) = true := by
    rw [List.all_eq_true]
    intro i hi
    simp only [WaveOut.writeBufferIndices, List.mem_range] at hi
    simp only [Bool.and_eq_true, decide_eq_true_eq]
    omega
  rw [if_pos h]
  exact ⟨_, rfl⟩

theorem record_in_bounds {E : Type} (self : Module E) (buffer : FloatPtr) (size : Nat)
    (h1 : size ≤ max_buffer_size) (h2 : size ≤ buffer.cap) :
    (self.record buffer size).2 = none := by
  unfold Module.record
  cases hw : self.m_waveout with
  | none => rfl
  | some w =>
    obtain ⟨w1, hw1⟩ := writeBuffer_in_bounds w buffer size h1 h2
    simp only [hw1]

/-- The loop of `validateOutputRange` inside both arrays: it ends without a throw
exactly when no index passes the test `buffer[i] < min || m_output[i] > max`. -/
theorem validateOutputRangeFrom_eq_none (name : String) (lo hi : ℚ) (b m : FloatPtr)
    (i k : Nat) (hb : i + k ≤ b.cap) (hm : i + k ≤ m.cap) :
    validateOutputRangeFrom name lo hi b m i k = none ↔
      ∀ j, i ≤ j → j < i + k → ¬ b.data j < lo ∧ ¬ m.data j > hi := by
  induction k generalizing i with
  | zero =>
    simp only [validateOutputRangeFrom, true_iff]
    intro j h1 h2
    omega
  | succ k ih =>
    have hib : i < b.cap := by omega
    have him : i < m.cap := by omega
    simp only [validateOutputRangeFrom, FloatPtr.read, hib, him, if_true]
    by_cases h1 : b.data i < lo
    · simp only [h1, if_true]
      constructor
      · intro h
        simp at h
      · intro h
        exact absurd h1 (h i (le_refl _) (by omega)).1
    · simp only [h1, if_false]
      by_cases h2 : m.data i > hi
      · simp only [h2, if_true]
        constructor
        · intro h
          simp at h
        · intro h
          exact absurd h2 (h i (le_refl _) (by omega)).2
      · simp only [h2, if_false]
        rw [ih (i + 1) (by omega) (by omega)]
        constructor
        · intro h j hj1 hj2
          by_cases hji : j = i
          · subst hji
            exact ⟨h1, h2⟩
          · exact h j (by omega) (by omega)
        · intro h j hj1 hj2
          exact h j (by omega) (by omega)

/-- The loop of `validateOutputRange` inside both arrays: at the first index that
passes the test it throws Invalid-Output-Range formatted from `m_output` at that
index. -/
theorem validateOutputRangeFrom_first (name : String) (lo hi : ℚ) (b m : FloatPtr)
    (i k : Nat) (hb : i + k ≤ b.cap) (hm : i + k ≤ m.cap) (j : Nat) (hj1 : i ≤ j)
    (hj2 : j < i + k) (hbad : b.data j < lo ∨ m.data j > hi)
    (hfirst : ∀ j', i ≤ j' → j' < j → ¬ b.data j' < lo ∧ ¬ m.data j' > hi) :
    validateOutputRangeFrom name lo hi b m i k =
      some (.InvalidOutputRangeExcept name lo (m.data j) hi) := by
  induction k generalizing i with
  | zero => omega
  | succ k ih =>
    have hib : i < b.cap := by omega
    have him : i < m.cap := by omega
    simp only [validateOutputRangeFrom, FloatPtr.read, hib, him, if_true]
    by_cases hji : j = i
    · subst hji
      rcases hbad with h1 | h2
      · simp only [h1, if_true, reportOutputRange, FloatPtr.read, him]
      · by_cases h1 : b.data j < lo
        · simp only [h1, if_true, reportOutputRange, FloatPtr.read, him]
        · simp only [h1, if_false, h2, if_true, reportOutputRange, FloatPtr.read, him]
    · have hi' := hfirst i (le_refl _) (by omega)
      simp only [hi'.1, hi'.2, if_false]
      exact ih (i + 1) (by omega) (by omega) (by omega) (by omega)
        (fun j' h1 h2 => hfirst j' (by omega) h2)

/-- A call of `Module::output` with contract checking enabled, at a fresh timestamp,
with a block of at most `max_buffer_size` samples, when `validateInputRange` passes
and `fill` returns: the call ends as the range check of the filled buffer ends. -/
theorem mono_output_checked {E : Type} (v : Virtuals E) (t : ℚ) (n : Nat) (s : Traced E)
    (hn : n ≤ max_buffer_size) (hfresh : s.obj.m_last_fill < t)
    (hin : v.validateInputRange s.obj = none) (hfill : (v.fill t n s.obj).2 = none) :
    (Module.output v false t n s).1.obj.m_output = (v.fill t n s.obj).1.m_output ∧
    (Module.output v false t n s).2 =
      match validateOutputRangeFrom v.moduleName
          (v.getOutputRange (Module.output v false t n s).1.obj).1
          (v.getOutputRange (Module.output v false t n s).1.obj).2
          ⟨max_buffer_size, (v.fill t n s.obj).1.m_output⟩
          ⟨max_buffer_size, (v.fill t n s.obj).1.m_output⟩ 0 n with
      | some e => .error e
      | none => .ok (v.fill t n s.obj).1.m_output := by
  unfold Module.output
  simp only [hfresh, if_true, hin]
  rcases hf : v.fill t n s.obj with ⟨o1, _ | e⟩
  · simp only [hf]
    have hm := record_m_output ({ o1 with m_last_fill := t } : Module E)
      ⟨max_buffer_size, o1.m_output⟩ n
    have hr2 := record_in_bounds ({ o1 with m_last_fill := t } : Module E)
      ⟨max_buffer_size, o1.m_output⟩ n hn hn
    rcases hr : Module.record ({ o1 with m_last_fill := t } : Module E)
      ⟨max_buffer_size, o1.m_output⟩ n with ⟨o3, _ | e⟩
    · simp only [hr] at hm ⊢
      simp only [Bool.false_eq_true, if_false, Module.validateOutputRange]
      have hm' : o3.m_output = o1.m_output := hm
      cases hc : validateOutputRangeFrom v.moduleName (v.getOutputRange o3).1
          (v.getOutputRange o3).2 ⟨max_buffer_size, o3.m_output⟩
          ⟨max_buffer_size, o3.m_output⟩ 0 n with
      | none =>
        rw [hm'] at hc
        simp only [hc]
        exact ⟨hm', by rw [hm']⟩
      | some e =>
        rw [hm'] at hc
        simp only [hc]
        exact ⟨hm', trivial⟩
    · rw [hr] at hr2
      simp at hr2
  · rw [hf] at hfill
    simp at hfill

/-- C5: for every mono module, every block size `n ≤ 4000` and every fresh timestamp
`t`, with contract checking enabled, when `validateInputRange` passes and `fill`
returns, leaving the buffer `buf`, and the module declares the range `[lo, hi]`:
`output(t, n)` fails with Invalid-Output-Range if and only if some sample `buf[i]`
with `i < n` is below `lo` or above `hi`; the exception names the module, the declared
range and the first such sample; when there is no such sample the call returns
`buf`. -/
theorem mono_output_range_check {E : Type} (v : Virtuals E) (t : ℚ) (n : Nat) (s : Traced E)
    (lo hi : ℚ) (hn : n ≤ max_buffer_size) (hfresh : s.obj.m_last_fill < t)
    (hin : v.validateInputRange s.obj = none) (hfill : (v.fill t n s.obj).2 = none)
    (hrange : v.getOutputRange (Module.output v false t n s).1.obj = (lo, hi)) :
    ((∃ name a x b, (Module.output v false t n s).2 =
        .error (.InvalidOutputRangeExcept name a x b)) ↔
      ∃ i, i < n ∧ ((v.fill t n s.obj).1.m_output i < lo ∨
        (v.fill t n s.obj).1.m_output i > hi)) ∧
    (∀ i, i < n →
      ((v.fill t n s.obj).1.m_output i < lo ∨ (v.fill t n s.obj).1.m_output i > hi) →
      (∀ j, j < i → ¬ ((v.fill t n s.obj).1.m_output j < lo ∨
        (v.fill t n s.obj).1.m_output j > hi)) →
      (Module.output v false t n s).2 =
        .error (.InvalidOutputRangeExcept v.moduleName lo
          ((v.fill t n s.obj).1.m_output i) hi)) ∧
    ((∀ i, i < n → ¬ ((v.fill t n s.obj).1.m_output i < lo ∨
        (v.fill t n s.obj).1.m_output i > hi)) →
      (Module.output v false t n s).2 = .ok (v.fill t n s.obj).1.m_output) := by
  obtain ⟨_, hres⟩ := mono_output_checked v t n s hn hfresh hin hfill
  rw [hrange] at hres
  simp only at hres
  have hfirst : ∀ i, i < n →
      ((v.fill t n s.obj).1.m_output i < lo ∨ (v.fill t n s.obj).1.m_output i > hi) →
      (∀ j, j < i → ¬ ((v.fill t n s.obj).1.m_output j < lo ∨
        (v.fill t n s.obj).1.m_output j > hi)) →
      (Module.output v false t n s).2 =
        .error (.InvalidOutputRangeExcept v.moduleName lo
          ((v.fill t n s.obj).1.m_output i) hi) := by
    intro i hi1 hbad hbefore
    have h := validateOutputRangeFrom_first v.moduleName lo hi
      ⟨max_buffer_size, (v.fill t n s.obj).1.m_output⟩
      ⟨max_buffer_size, (v.fill t n s.obj).1.m_output⟩ 0 n
      (by simpa using hn) (by simpa using hn) i (Nat.zero_le _) (by omega) hbad
      (fun j _ hj => not_or.mp (hbefore j hj))
    rw [hres, h]
  have hnone : (∀ i, i < n → ¬ ((v.fill t n s.obj).1.m_output i < lo ∨
        (v.fill t n s.obj).1.m_output i > hi)) →
      (Module.output v false t n s).2 = .ok (v.fill t n s.obj).1.m_output := by
    intro hall
    have h := (validateOutputRangeFrom_eq_none v.moduleName lo hi
      ⟨max_buffer_size, (v.fill t n s.obj).1.m_output⟩
      ⟨max_buffer_size, (v.fill t n s.obj).1.m_output⟩ 0 n
      (by simpa using hn) (by simpa using hn)).mpr
      (fun j _ hj => not_or.mp (hall j (by omega)))
    rw [hres, h]
  refine ⟨⟨?_, ?_⟩, hfirst, hnone⟩
  · rintro ⟨name, a, x, b, herr⟩
    by_contra hex
    have hall : ∀ i, i < n → ¬ ((v.fill t n s.obj).1.m_output i < lo ∨
        (v.fill t n s.obj).1.m_output i > hi) := fun i hi1 hbad => hex ⟨i, hi1, hbad⟩
    rw [hnone hall] at herr
    simp at herr
  · intro hex
    have hex' : ∃ i, i < n ∧ ((v.fill t n s.obj).1.m_output i < lo ∨
        (v.fill t n s.obj).1.m_output i > hi) := hex
    classical
    have hspec := Nat.find_spec hex'
    have hmin := fun j (hj : j < Nat.find hex') => Nat.find_min hex' hj
    refine ⟨v.moduleName, lo, _, hi, hfirst (Nat.find hex') hspec.1 hspec.2 ?_⟩
    intro j hj hbad
    exact hmin j hj ⟨by omega, hbad⟩

/-- Witness of `mono_output_range_check`: a fresh `Peak`, which declares `[-1, 1]` and
emits `3/2` in its first sample, fails at timestamp `1` with Invalid-Output-Range
naming the module, the range and the value `3/2`. -/
theorem mono_output_range_check_witness :
    (8 ≤ max_buffer_size ∧ (Module.new () : Module Unit).m_last_fill < 1) ∧
    (Module.output Peak.virtuals false 1 8 ⟨Module.new (), []⟩).2 =
      .error (.InvalidOutputRangeExcept "Peak" (-1) (3 / 2) 1) :=
  ⟨⟨by decide, by rfl⟩,
   (mono_output_range_check Peak.virtuals 1 8 ⟨Module.new (), []⟩ (-1) 1
      (by decide) (by rfl) rfl rfl rfl).2.1 0 (by decide)
      (Or.inr (by norm_num [Peak.virtuals]))
      (fun j hj => absurd hj (Nat.not_lt_zero j))⟩

/-! ### C6: the output range check of a stereo module -/

/-- C6 fails on the code: a fresh `Loud`, a stereo module that declares `[-1, 1]`,
emits `3/2 > 1` in the left channel of the first frame at the fresh timestamp `1`, and
`output(1, 1)` returns that buffer instead of failing with Invalid-Output-Range: the
upper bound is tested on `Module::m_output`, which a stereo module leaves at `0`. -/
theorem stereo_output_accepts_sample_above_range :
    (StereoModule.new () : Module (StereoPart Unit)).m_last_fill < 1 ∧
    Loud.virtuals.getOutputRange
      (StereoModule.output Loud.virtuals 1 1 ⟨StereoModule.new (), []⟩).1.obj = (-1, 1) ∧
    (StereoModule.output Loud.virtuals 1 1 ⟨StereoModule.new (), []⟩).2 =
      .ok (StereoModule.output Loud.virtuals 1 1 ⟨StereoModule.new (), []⟩).1.obj.sub.m_output ∧
    (StereoModule.output Loud.virtuals 1 1 ⟨StereoModule.new (), []⟩).1.obj.sub.m_output 0
      = 3 / 2 ∧
    (3 / 2 : ℚ) > 1 ∧
    (StereoModule.output Loud.virtuals 1 1 ⟨StereoModule.new (), []⟩).1.calls =
      [.fill 1 1, .validateOutputRange 2] := by
  have hout : StereoModule.output Loud.virtuals 1 1 ⟨StereoModule.new (), []⟩ =
      (⟨{ m_output := fun _ => 0, m_last_fill := 1, m_waveout := none,
          sub := { m_output := fun i => if i < 1 * 2 then (if i = 0 then 3 / 2 else 0) else 0,
                   sub := () } },
        [.fill 1 1, .validateOutputRange 2]⟩,
       .ok (fun i => if i < 1 * 2 then (if i = 0 then 3 / 2 else 0) else 0)) := by
    norm_num [StereoModule.output, Loud.virtuals, StereoModule.new, Module.new, Module.record,
      recordCalls, Module.validateOutputRange, validateOutputRangeFrom, FloatPtr.read,
      max_buffer_size]
  rw [hout]
  refine ⟨by rfl, rfl, rfl, ?_, by norm_num, rfl⟩
  norm_num

/-! ### The parser: what the loop of `addModule` leaves unchanged -/

theorem bindParam_frame {X : Type} (atof : String → ℚ) (def_copy type t param_type : String)
    (g : Globals X) :
    (bindParam atof def_copy type t param_type g).1.g_module_infos = g.g_module_infos ∧
    (bindParam atof def_copy type t param_type g).1.g_modules = g.g_modules ∧
    (bindParam atof def_copy type t param_type g).1.instantiated = g.instantiated ∧
    ∃ extra, (bindParam atof def_copy type t param_type g).1.heap = g.heap ++ extra := by
  unfold bindParam
  repeat' split
  all_goals first
    | exact ⟨rfl, rfl, rfl, [], (List.append_nil _).symm⟩
    | exact ⟨rfl, rfl, rfl, _, rfl⟩

theorem addModuleStep_frame {X : Type} (atof : String → ℚ) (def_copy t : String)
    (g : Globals X) (l : Locals) :
    (addModuleStep atof def_copy t g l).1.g_module_infos = g.g_module_infos ∧
    (addModuleStep atof def_copy t g l).1.g_modules = g.g_modules ∧
    (addModuleStep atof def_copy t g l).1.instantiated = g.instantiated ∧
    ∃ extra, (addModuleStep atof def_copy t g l).1.heap = g.heap ++ extra := by
  unfold addModuleStep
  by_cases h1 : l.type = ""
  · rw [if_pos h1]
    cases g.g_module_infos t <;> exact ⟨rfl, rfl, rfl, [], (List.append_nil _).symm⟩
  · rw [if_neg h1]
    by_cases h2 : l.name = ""
    · rw [if_pos h2]
      exact ⟨rfl, rfl, rfl, [], (List.append_nil _).symm⟩
    · rw [if_neg h2]
      cases hi : g.g_module_infos l.type with
      | none => exact ⟨rfl, rfl, rfl, [], (List.append_nil _).symm⟩
      | some info =>
        simp only
        cases hp : info.parameter l.params.length with
        | error e => exact ⟨rfl, rfl, rfl, [], (List.append_nil _).symm⟩
        | ok p =>
          simp only
          have hb := bindParam_frame atof def_copy l.type t p.2 g
          rcases hr : bindParam atof def_copy l.type t p.2 g with ⟨g1, e | m⟩ <;>
            (rw [hr] at hb; exact hb)

theorem addModuleLoop_frame {X : Type} (atof : String → ℚ) (def_copy : String)
    (ts : List String) (g : Globals X) (l : Locals) :
    (addModuleLoop atof def_copy ts g l).1.g_module_infos = g.g_module_infos ∧
    (addModuleLoop atof def_copy ts g l).1.g_modules = g.g_modules ∧
    (addModuleLoop atof def_copy ts g l).1.instantiated = g.instantiated ∧
    ∃ extra, (addModuleLoop atof def_copy ts g l).1.heap = g.heap ++ extra := by
  induction ts generalizing g l with
  | nil => exact ⟨rfl, rfl, rfl, [], (List.append_nil _).symm⟩
  | cons t ts ih =>
    unfold addModuleLoop
    have hs := addModuleStep_frame atof def_copy t g l
    rcases hr : addModuleStep atof def_copy t g l with ⟨g1, e | l1⟩
    · rw [hr] at hs
      exact hs
    · rw [hr] at hs
      simp only
      obtain ⟨h1, h2, h3, extra1, h4⟩ := hs
      obtain ⟨k1, k2, k3, extra2, k4⟩ := ih g1 l1
      refine ⟨k1.trans h1, k2.trans h2, k3.trans h3, extra1 ++ extra2, ?_⟩
      rw [k4, h4, List.append_assoc]

theorem addModuleLoop_append {X : Type} (atof : String → ℚ) (def_copy : String)
    (ts1 ts2 : List String) (g : Globals X) (l : Locals) :
    addModuleLoop atof def_copy (ts1 ++ ts2) g l =
      match addModuleLoop atof def_copy ts1 g l with
      | (g1, .error e) => (g1, .error e)
      | (g1, .ok l1) => addModuleLoop atof def_copy ts2 g1 l1 := by
  induction ts1 generalizing g l with
  | nil => rfl
  | cons t ts ih =>
    simp only [List.cons_append, addModuleLoop]
    rcases hr : addModuleStep atof def_copy t g l with ⟨g1, e | l1⟩
    · rfl
    · exact ih g1 l1

/-! ### The parser: reaching a parameter token -/

theorem addModule_loop_error {X : Type} (atof : String → ℚ) (definition : String)
    (g g2 : Globals X) (e : Exc) (hne : strtok definition ≠ [])
    (h : addModuleLoop atof definition (strtok definition) g ⟨"", "", []⟩ = (g2, .error e)) :
    addModule atof definition g = (g2, .error e) := by
  unfold addModule
  cases hts : strtok definition with
  | nil => exact absurd hts hne
  | cons t ts =>
    rw [hts] at h
    simp only [h]

/-- When the tokens before `t` are processed without exception and the loop body
throws at `t`, `addModule` throws that exception. -/
theorem addModule_step_error {X : Type} (atof : String → ℚ) (definition : String)
    (g g1 g2 : Globals X) (ts1 ts2 : List String) (t : String) (l : Locals) (e : Exc)
    (htok : strtok definition = ts1 ++ t :: ts2)
    (hpre : addModuleLoop atof definition ts1 g ⟨"", "", []⟩ = (g1, .ok l))
    (hstep : addModuleStep atof definition t g1 l = (g2, .error e)) :
    addModule atof definition g = (g2, .error e) := by
  apply addModule_loop_error
  · rw [htok]
    simp
  · rw [htok, addModuleLoop_append, hpre]
    simp only [addModuleLoop, hstep]

/-- When the tokens before `t` are processed without exception and the loop body
binds `t`, the loop has processed the tokens up to `t` without exception. -/
theorem addModuleLoop_snoc_ok {X : Type} (atof : String → ℚ) (definition : String)
    (g g1 g2 : Globals X) (ts1 : List String) (t : String) (l l2 : Locals)
    (hpre : addModuleLoop atof definition ts1 g ⟨"", "", []⟩ = (g1, .ok l))
    (hstep : addModuleStep atof definition t g1 l = (g2, .ok l2)) :
    addModuleLoop atof definition (ts1 ++ [t]) g ⟨"", "", []⟩ = (g2, .ok l2) := by
  rw [addModuleLoop_append, hpre]
  simp only [addModuleLoop, hstep]

/-- The loop body at a parameter token: the token is bound against the type the
schema declares for the next parameter. -/
theorem addModuleStep_param {X : Type} (atof : String → ℚ) (def_copy t : String)
    (g1 : Globals X) (l : Locals) (info : ModuleInfo X) (pname slot : String)
    (hty : l.type ≠ "") (hnm : l.name ≠ "")
    (hinfo : g1.g_module_infos l.type = some info)
    (hslot : info.m_parameters[l.params.length]? = some (pname, slot)) :
    addModuleStep atof def_copy t g1 l =
      match bindParam atof def_copy l.type t slot g1 with
      | (g2, .error e) => (g2, .error e)
      | (g2, .ok m) => (g2, .ok { l with params := l.params ++ [m] }) := by
  unfold addModuleStep
  rw [if_neg hty, if_neg hnm]
  simp only [hinfo, ModuleInfo.parameter, hslot]

theorem bindParam_module_ref {X : Type} (atof : String → ℚ) (def_copy type t : String)
    (g1 : Globals X) (hnd : (firstChar t).isDigit = false) :
    bindParam atof def_copy type t "Module" g1 =
      match g1.g_modules t with
      | none => (g1, .error (.UnknownModuleExcept (def_copy ++ t)))
      | some p =>
        match g1.heap[p]? with
        | none => (g1, .error (.UndefinedBehaviour "Module pointer to no object"))
        | some o =>
          if o.stereo then (g1, .error (.NotMonoExcept (def_copy ++ t)))
          else (g1, .ok (.m_module p)) := by
  unfold bindParam
  rw [if_neg (by decide), if_neg (by decide), if_pos rfl]
  simp only [hnd, Bool.false_eq_true, if_false]

theorem bindParam_stereo_ref {X : Type} (atof : String → ℚ) (def_copy type t : String)
    (g1 : Globals X) (hal : (firstChar t).isAlpha = true) :
    bindParam atof def_copy type t "StereoModule" g1 =
      match g1.g_modules t with
      | none => (g1, .error (.UnknownModuleExcept (def_copy ++ t)))
      | some p =>
        match g1.heap[p]? with
        | none => (g1, .error (.UndefinedBehaviour "Module pointer to no object"))
        | some o =>
          if o.stereo then (g1, .ok (.m_module p))
          else (g1, .error (.NotStereoExcept (def_copy ++ t))) := by
  unfold bindParam
  rw [if_neg (by decide), if_neg (by decide), if_neg (by decide), if_pos rfl]
  simp only [hal, if_true]

/-- An object the heap holds before the loop is still there, at the same index, after
the loop has processed some tokens. -/
theorem addModuleLoop_heap_get {X : Type} (atof : String → ℚ) (def_copy : String)
    (ts : List String) (g g1 : Globals X) (l0 l : Locals)
    (hpre : addModuleLoop atof def_copy ts g l0 = (g1, .ok l)) (p : Nat) (o : Object X)
    (hobj : g.heap[p]? = some o) : g1.heap[p]? = some o := by
  obtain ⟨_, _, _, extra, hh⟩ := addModuleLoop_frame atof def_copy ts g l0
  rw [hpre] at hh
  simp only at hh
  obtain ⟨hp, _⟩ := List.getElem?_eq_some.mp hobj
  rw [hh, List.getElem?_append_left hp]
  exact hobj

theorem addModuleLoop_g_modules {X : Type} (atof : String → ℚ) (def_copy : String)
    (ts : List String) (g g1 : Globals X) (l0 l : Locals)
    (hpre : addModuleLoop atof def_copy ts g l0 = (g1, .ok l)) :
    g1.g_modules = g.g_modules := by
  obtain ⟨_, h, _, _⟩ := addModuleLoop_frame atof def_copy ts g l0
  rw [hpre] at h
  exact h

/-! ### C7: mono and stereo parameter slots -/

/-- C7, as stated, fails: in the line `Wide w(_m)` the tokens `Wide` and `w` are
processed without exception, the slot of `_m` is declared `StereoModule`, and `_m`
names an existing instance that reports mono; `addModule` fails, but with
Expecting-Module (the token does not begin with a letter), not with Not-Stereo. -/
theorem stereo_slot_nonalphabetic_name_not_NotStereo :
    strtok "Wide w(_m)" = ["Wide", "w"] ++ "_m" :: [] ∧
    addModuleLoop atofDigits "Wide w(_m)" ["Wide", "w"] testGlobals ⟨"", "", []⟩ =
      (testGlobals, .ok ⟨"Wide", "w", []⟩) ∧
    (testGlobals.g_module_infos "Wide").map (fun info => info.m_parameters[0]?) =
      some (some ("in", "StereoModule")) ∧
    testGlobals.g_modules "_m" = some 0 ∧
    (testGlobals.heap[0]?).map Object.stereo = some false ∧
    (addModule atofDigits "Wide w(_m)" testGlobals).2 =
      .error (.ExpectingModuleExcept "Wide w(_m)_m") ∧
    (addModule atofDigits "Wide w(_m)" testGlobals).2 ≠
      .error (.NotStereoExcept "Wide w(_m)_m") := by
  refine ⟨by rfl, by rfl, by rfl, by rfl, by rfl, by rfl, ?_⟩
  have h : (addModule atofDigits "Wide w(_m)" testGlobals).2 =
      .error (.ExpectingModuleExcept "Wide w(_m)_m") := by rfl
  rw [h]
  simp

/-- C7 (amended): for every definition line whose tokens before `t` are processed
without exception, `t` being a parameter token whose slot the schema declares `slot`,
and `t` naming an existing instance, object `p` of the instance table.  In a slot
declared `Module`, a `t` that does not begin with a digit makes `addModule` fail with
Not-Mono when the instance reports stereo, and otherwise binds the parameter to `p`
itself.  In a slot declared `StereoModule`, a `t` that begins with a letter makes
`addModule` fail with Not-Stereo when the instance reports mono, and otherwise binds
the parameter to `p` itself. -/
theorem module_reference_checks_stereo_flag {X : Type} (atof : String → ℚ)
    (definition : String) (g g1 : Globals X) (ts1 ts2 : List String) (t : String)
    (l : Locals) (info : ModuleInfo X) (pname slot : String) (p : Nat) (o : Object X)
    (htok : strtok definition = ts1 ++ t :: ts2)
    (hpre : addModuleLoop atof definition ts1 g ⟨"", "", []⟩ = (g1, .ok l))
    (hty : l.type ≠ "") (hnm : l.name ≠ "")
    (hinfo : g.g_module_infos l.type = some info)
    (hslot : info.m_parameters[l.params.length]? = some (pname, slot))
    (hfound : g.g_modules t = some p) (hobj : g.heap[p]? = some o) :
    (slot = "Module" → (firstChar t).isDigit = false →
      (o.stereo = true →
        addModule atof definition g = (g1, .error (.NotMonoExcept (definition ++ t)))) ∧
      (o.stereo = false →
        addModuleLoop atof definition (ts1 ++ [t]) g ⟨"", "", []⟩ =
          (g1, .ok { l with params := l.params ++ [.m_module p] }))) ∧
    (slot = "StereoModule" → (firstChar t).isAlpha = true →
      (o.stereo = false →
        addModule atof definition g = (g1, .error (.NotStereoExcept (definition ++ t)))) ∧
      (o.stereo = true →
        addModuleLoop atof definition (ts1 ++ [t]) g ⟨"", "", []⟩ =
          (g1, .ok { l with params := l.params ++ [.m_module p] }))) := by
  have hobj1 := addModuleLoop_heap_get atof definition ts1 g g1 _ l hpre p o hobj
  have hmod1 := addModuleLoop_g_modules atof definition ts1 g g1 _ l hpre
  have hinfo1 : g1.g_module_infos l.type = some info := by
    obtain ⟨h, _⟩ := addModuleLoop_frame atof definition ts1 g ⟨"", "", []⟩
    rw [hpre] at h
    simp only at h
    rw [h]
    exact hinfo
  have hfound1 : g1.g_modules t = some p := by rw [hmod1]; exact hfound
  have hstep := addModuleStep_param atof definition t g1 l info pname slot hty hnm hinfo1 hslot
  constructor
  · intro hs hnd
    subst hs
    rw [bindParam_module_ref atof definition l.type t g1 hnd] at hstep
    simp only [hfound1, hobj1] at hstep
    constructor
    · intro hst
      simp only [hst, if_true] at hstep
      exact addModule_step_error atof definition g g1 g1 ts1 ts2 t l _ htok hpre hstep
    · intro hst
      simp only [hst, Bool.false_eq_true, if_false] at hstep
      exact addModuleLoop_snoc_ok atof definition g g1 g1 ts1 t l _ hpre hstep
  · intro hs hal
    subst hs
    rw [bindParam_stereo_ref atof definition l.type t g1 hal] at hstep
    simp only [hfound1, hobj1] at hstep
    constructor
    · intro hst
      simp only [hst, Bool.false_eq_true, if_false] at hstep
      exact addModule_step_error atof definition g g1 g1 ts1 ts2 t l _ htok hpre hstep
    · intro hst
      simp only [hst, if_true] at hstep
      exact addModuleLoop_snoc_ok atof definition g g1 g1 ts1 t l _ hpre hstep

/-- Witness of `module_reference_checks_stereo_flag`: `Pan p(st)` binds the stereo
instance `st` into a `Module` slot and fails with Not-Mono; `Wide w(m)` binds the mono
instance `m` into a `StereoModule` slot and fails with Not-Stereo. -/
theorem module_reference_checks_stereo_flag_witness :
    addModule atofDigits "Pan p(st)" testGlobals =
      (testGlobals, .error (.NotMonoExcept ("Pan p(st)" ++ "st"))) ∧
    addModule atofDigits "Wide w(m)" testGlobals =
      (testGlobals, .error (.NotStereoExcept ("Wide w(m)" ++ "m"))) :=
  ⟨((module_reference_checks_stereo_flag atofDigits "Pan p(st)" testGlobals testGlobals
      ["Pan", "p"] [] "st" ⟨"Pan", "p", []⟩ ⟨"Pan", [("in", "Module")], fun _ => .made true ()⟩
      "in" "Module" 1 (.made true ()) (by rfl) (by rfl) (by decide) (by decide) (by rfl)
      (by rfl) (by rfl) (by rfl)).1 rfl (by rfl)).1 (by rfl),
   ((module_reference_checks_stereo_flag atofDigits "Wide w(m)" testGlobals testGlobals
      ["Wide", "w"] [] "m" ⟨"Wide", "w", []⟩
      ⟨"Wide", [("in", "StereoModule")], fun _ => .made true ()⟩
      "in" "StereoModule" 0 (.made false ()) (by rfl) (by rfl) (by decide) (by decide)
      (by rfl) (by rfl) (by rfl) (by rfl)).2 rfl (by rfl)).1 (by rfl)⟩

/-! ### C8: numeric literals in `Module` slots -/

/-- A parameter token beyond the schema: the loop body throws Too-Many-Params, from
`ModuleInfo::parameter`, and `addModule` with it; no factory is invoked. -/
theorem addModule_too_many_params {X : Type} (atof : String → ℚ) (definition : String)
    (g g1 : Globals X) (ts1 ts2 : List String) (t : String) (l : Locals)
    (info : ModuleInfo X)
    (htok : strtok definition = ts1 ++ t :: ts2)
    (hpre : addModuleLoop atof definition ts1 g ⟨"", "", []⟩ = (g1, .ok l))
    (hty : l.type ≠ "") (hnm : l.name ≠ "")
    (hinfo : g.g_module_infos l.type = some info)
    (hfull : l.params.length = info.parameterCount) :
    addModule atof definition g = (g1, .error .TooManyParamsExcept) ∧
    g1.instantiated = g.instantiated := by
  obtain ⟨h, _, hinst, _⟩ := addModuleLoop_frame atof definition ts1 g ⟨"", "", []⟩
  rw [hpre] at h hinst
  simp only at h hinst
  refine ⟨?_, hinst⟩
  apply addModule_step_error atof definition g g1 g1 ts1 ts2 t l _ htok hpre
  unfold addModuleStep
  rw [if_neg hty, if_neg hnm, h, hinfo]
  have hnone : info.m_parameters[l.params.length]? = none := by
    apply List.getElem?_eq_none
    rw [hfull]
    exact le_refl _
  simp only [ModuleInfo.parameter, hnone]

/-- After the loop has consumed every token: with as many bound parameters as the
schema declares, the factory is invoked once, on the bound parameters, and its object
is stored under the instance name; with another number the operand `def_copy+t` of
the `throw` is evaluated with `t` the null pointer, and no factory is invoked. -/
theorem addModule_after_loop {X : Type} (atof : String → ℚ) (definition : String)
    (g g1 : Globals X) (l : Locals) (info : ModuleInfo X)
    (hne : strtok definition ≠ [])
    (hloop : addModuleLoop atof definition (strtok definition) g ⟨"", "", []⟩ = (g1, .ok l))
    (hinfo : g.g_module_infos l.type = some info) :
    (l.params.length = info.parameterCount →
      addModule atof definition g =
        ({ g1 with
            heap := g1.heap ++ [info.m_instantiator l.params]
            g_modules := fun k => if k = l.name then some g1.heap.length else g1.g_modules k
            instantiated := g.instantiated ++ [(l.type, l.params)] },
          .ok g1.heap.length)) ∧
    (l.params.length ≠ info.parameterCount →
      addModule atof definition g =
        (g1, .error (.UndefinedBehaviour "std::string + null char pointer")) ∧
      g1.instantiated = g.instantiated) := by
  obtain ⟨h, _, hinst, _⟩ := addModuleLoop_frame atof definition (strtok definition) g
    ⟨"", "", []⟩
  rw [hloop] at h hinst
  simp only at h hinst
  have hinfo1 : g1.g_module_infos l.type = some info := by rw [h]; exact hinfo
  unfold addModule
  cases hts : strtok definition with
  | nil => exact absurd hts hne
  | cons t ts =>
    rw [hts] at hloop
    simp only [hloop, hinfo1]
    constructor
    · intro heq
      simp only [heq, ne_eq, not_true_eq_false, if_false, hinst]
    · intro hneq
      simp only [ne_eq, hneq, not_false_eq_true, if_true, appendCStr]
      exact ⟨trivial, hinst⟩

/-- C9 fails on the code: with the schema `Gain(Module, Module)` the line
`Gain out(3)` has one parameter token where two are declared, and with the schema
`Input(axis: int)` the line `Input knob` has none where one is declared; the tokens
of each line are processed without exception, and then `addModule` does not throw
Too-Few-Params: the operand `def_copy+t` of the `throw` adds the null pointer `t` that
ended the loop to a `std::string`, which is undefined.  No factory has been invoked. -/
theorem too_few_params_null_pointer_operand :
    (strtok "Gain out(3)" = ["Gain", "out", "3"] ∧
      (addModuleLoop atofDigits "Gain out(3)" ["Gain", "out", "3"] testGlobals
        ⟨"", "", []⟩).2 = .ok ⟨"Gain", "out", [.m_module 2]⟩ ∧
      (testGlobals.g_module_infos "Gain").map ModuleInfo.parameterCount = some 2 ∧
      (addModule atofDigits "Gain out(3)" testGlobals).2 =
        .error (.UndefinedBehaviour "std::string + null char pointer") ∧
      (∀ text, (addModule atofDigits "Gain out(3)" testGlobals).2 ≠
        .error (.TooFewParamsExcept text)) ∧
      (addModule atofDigits "Gain out(3)" testGlobals).1.instantiated = []) ∧
    (strtok "Input knob" = ["Input", "knob"] ∧
      (addModuleLoop atofDigits "Input knob" ["Input", "knob"] testGlobals
        ⟨"", "", []⟩).2 = .ok ⟨"Input", "knob", []⟩ ∧
      (testGlobals.g_module_infos "Input").map ModuleInfo.parameterCount = some 1 ∧
      (addModule atofDigits "Input knob" testGlobals).2 =
        .error (.UndefinedBehaviour "std::string + null char pointer") ∧
      (∀ text, (addModule atofDigits "Input knob" testGlobals).2 ≠
        .error (.TooFewParamsExcept text)) ∧
      (addModule atofDigits "Input knob" testGlobals).1.instantiated = []) := by
  have h1 : (addModule atofDigits "Gain out(3)" testGlobals).2 =
      .error (.UndefinedBehaviour "std::string + null char pointer") := by rfl
  have h2 : (addModule atofDigits "Input knob" testGlobals).2 =
      .error (.UndefinedBehaviour "std::string + null char pointer") := by rfl
  refine ⟨⟨by rfl, by rfl, by rfl, h1, ?_, by rfl⟩, ⟨by rfl, by rfl, by rfl, h2, ?_, by rfl⟩⟩
  · intro text
    rw [h1]
    simp
  · intro text
    rw [h2]
    simp

/-! ### C10: references to unknown instances -/

/-- C10: for every definition line whose tokens before `t` are processed without
exception, `t` being a parameter token whose slot the schema declares `slot`: if `t`
is not a key of the instance table as it is when the line is parsed, then in a slot
declared `Module` a `t` that does not begin with a digit, and in a slot declared
`StereoModule` a `t` that begins with a letter, makes `addModule` fail with
Unknown-Module-Instance.  The table is the one from before the call, so a name
defined only by a later line, or by this line itself, is unknown. -/
theorem unknown_module_reference {X : Type} (atof : String → ℚ)
    (definition : String) (g g1 : Globals X) (ts1 ts2 : List String) (t : String)
    (l : Locals) (info : ModuleInfo X) (pname slot : String)
    (htok : strtok definition = ts1 ++ t :: ts2)
    (hpre : addModuleLoop atof definition ts1 g ⟨"", "", []⟩ = (g1, .ok l))
    (hty : l.type ≠ "") (hnm : l.name ≠ "")
    (hinfo : g.g_module_infos l.type = some info)
    (hslot : info.m_parameters[l.params.length]? = some (pname, slot))
    (hnone : g.g_modules t = none) :
    (slot = "Module" → (firstChar t).isDigit = false →
      addModule atof definition g = (g1, .error (.UnknownModuleExcept (definition ++ t)))) ∧
    (slot = "StereoModule" → (firstChar t).isAlpha = true →
      addModule atof definition g = (g1, .error (.UnknownModuleExcept (definition ++ t)))) := by
  have hmod1 := addModuleLoop_g_modules atof definition ts1 g g1 _ l hpre
  have hinfo1 : g1.g_module_infos l.type = some info := by
    obtain ⟨h, _⟩ := addModuleLoop_frame atof definition ts1 g ⟨"", "", []⟩
    rw [hpre] at h
    simp only at h
    rw [h]
    exact hinfo
  have hnone1 : g1.g_modules t = none := by rw [hmod1]; exact hnone
  have hstep := addModuleStep_param atof definition t g1 l info pname slot hty hnm hinfo1 hslot
  constructor
  · intro hs hnd
    subst hs
    rw [bindParam_module_ref atof definition l.type t g1 hnd] at hstep
    simp only [hnone1] at hstep
    exact addModule_step_error atof definition g g1 g1 ts1 ts2 t l _ htok hpre hstep
  · intro hs hal
    subst hs
    rw [bindParam_stereo_ref atof definition l.type t g1 hal] at hstep
    simp only [hnone1] at hstep
    exact addModule_step_error atof definition g g1 g1 ts1 ts2 t l _ htok hpre hstep

/-- Witness of `unknown_module_reference`: the line `Gain g(g, 1)` refers to the
instance `g` it is itself defining, and the line `Wide w(later)` to an instance no
earlier line has defined; both fail with Unknown-Module-Instance. -/
theorem unknown_module_reference_witness :
    addModule atofDigits "Gain g(g, 1)" testGlobals =
      (testGlobals, .error (.UnknownModuleExcept ("Gain g(g, 1)" ++ "g"))) ∧
    addModule atofDigits "Wide w(later)" testGlobals =
      (testGlobals, .error (.UnknownModuleExcept ("Wide w(later)" ++ "later"))) :=
  ⟨(unknown_module_reference atofDigits "Gain g(g, 1)" testGlobals testGlobals
      ["Gain", "g"] ["1"] "g" ⟨"Gain", "g", []⟩
      ⟨"Gain", [("in", "Module"), ("amount", "Module")], fun _ => .made false ()⟩
      "in" "Module" (by rfl) (by rfl) (by decide) (by decide) (by rfl) (by rfl)
      (by rfl)).1 rfl (by rfl),
   (unknown_module_reference atofDigits "Wide w(later)" testGlobals testGlobals
      ["Wide", "w"] [] "later" ⟨"Wide", "w", []⟩
      ⟨"Wide", [("in", "StereoModule")], fun _ => .made true ()⟩
      "in" "StereoModule" (by rfl) (by rfl) (by decide) (by decide) (by rfl) (by rfl)
      (by rfl)).2 rfl (by rfl)⟩

/-! ### C14: literals in `float` and `int` slots -/

theorem mk_ne_empty (cur : List Char) (h : cur ≠ []) : String.mk cur ≠ "" := by
  intro e
  apply h
  have := congrArg String.data e
  simpa using this

/-- No token of a line is the empty string. -/
theorem strtokFrom_ne_empty (cs cur : List Char) :
    ∀ t ∈ strtokFrom cs cur, t ≠ "" := by
  induction cs generalizing cur with
  | nil =>
    intro t ht
    unfold strtokFrom at ht
    by_cases hc : cur = []
    · rw [if_pos hc] at ht
      simp at ht
    · rw [if_neg hc] at ht
      simp only [List.mem_singleton] at ht
      rw [ht]
      exact mk_ne_empty cur hc
  | cons c cs ih =>
    intro t ht
    unfold strtokFrom at ht
    by_cases hd : c ∈ delim
    · rw [if_pos hd] at ht
      by_cases hc : cur = []
      · rw [if_pos hc] at ht
        exact ih [] t ht
      · rw [if_neg hc] at ht
        rcases List.mem_cons.mp ht with h | h
        · rw [h]
          exact mk_ne_empty cur hc
        · exact ih [] t h
    · rw [if_neg hd] at ht
      exact ih _ t ht

theorem strtok_ne_empty (definition : String) : ∀ t ∈ strtok definition, t ≠ "" :=
  strtokFrom_ne_empty _ _

/-- The loop body at a parameter token, when it does not throw, appends one
parameter and changes neither `type` nor `name`. -/
theorem addModuleStep_ok_param {X : Type} (atof : String → ℚ) (def_copy t : String)
    (g g1 : Globals X) (l l1 : Locals) (hty : l.type ≠ "") (hnm : l.name ≠ "")
    (h : addModuleStep atof def_copy t g l = (g1, .ok l1)) :
    ∃ m, l1 = { l with params := l.params ++ [m] } := by
  unfold addModuleStep at h
  rw [if_neg hty, if_neg hnm] at h
  cases hi : g.g_module_infos l.type with
  | none => simp [hi] at h
  | some info =>
    simp only [hi] at h
    cases hp : info.parameter l.params.length with
    | error e => simp [hp] at h
    | ok p =>
      simp only [hp] at h
      rcases hr : bindParam atof def_copy l.type t p.2 g with ⟨g2, e | m⟩
      · simp [hr] at h
      · simp only [hr, Prod.mk.injEq, Except.ok.injEq] at h
        exact ⟨m, h.2.symm⟩

/-- Once `type` and `name` are set, the loop appends one parameter for each token, in
the order of the tokens, and changes neither `type` nor `name`. -/
theorem addModuleLoop_params {X : Type} (atof : String → ℚ) (def_copy : String)
    (ts : List String) (g g1 : Globals X) (l l1 : Locals)
    (hty : l.type ≠ "") (hnm : l.name ≠ "")
    (h : addModuleLoop atof def_copy ts g l = (g1, .ok l1)) :
    l1.type = l.type ∧ l1.name = l.name ∧
    ∃ ps, l1.params = l.params ++ ps ∧ ps.length = ts.length := by
  induction ts generalizing g l with
  | nil =>
    unfold addModuleLoop at h
    simp only [Prod.mk.injEq, Except.ok.injEq] at h
    rw [← h.2]
    exact ⟨rfl, rfl, [], (List.append_nil _).symm, rfl⟩
  | cons t ts ih =>
    unfold addModuleLoop at h
    rcases hs : addModuleStep atof def_copy t g l with ⟨g2, e | l2⟩
    · simp [hs] at h
    · simp only [hs] at h
      obtain ⟨m, hm⟩ := addModuleStep_ok_param atof def_copy t g g2 l l2 hty hnm hs
      subst hm
      obtain ⟨h1, h2, ps, h3, h4⟩ :=
        ih g2 { l with params := l.params ++ [m] } hty hnm h
      refine ⟨h1, h2, m :: ps, ?_, ?_⟩
      · rw [h3]
        simp
      · simp [h4]

/-- The first token sets `type`, the second `name`, and each further token binds one
parameter. -/
theorem addModuleLoop_init {X : Type} (atof : String → ℚ) (def_copy : String)
    (ts : List String) (g g1 : Globals X) (l : Locals) (hts : ∀ t ∈ ts, t ≠ "")
    (h : addModuleLoop atof def_copy ts g ⟨"", "", []⟩ = (g1, .ok l)) :
    l.type = ts.headD "" ∧ l.name = ts.getD 1 "" ∧ l.params.length = ts.length - 2 := by
  match ts, hts, h with
  | [], _, h =>
    unfold addModuleLoop at h
    simp only [Prod.mk.injEq, Except.ok.injEq] at h
    rw [← h.2]
    exact ⟨rfl, rfl, rfl⟩
  | [a], _, h =>
    unfold addModuleLoop addModuleStep at h
    rw [if_pos rfl] at h
    cases hi : g.g_module_infos a with
    | none => simp [hi] at h
    | some info =>
      simp only [hi, addModuleLoop, Prod.mk.injEq, Except.ok.injEq] at h
      rw [← h.2]
      exact ⟨rfl, rfl, rfl⟩
  | a :: b :: rest, hts, h =>
    have ha : a ≠ "" := hts a (by simp)
    have hb : b ≠ "" := hts b (by simp)
    unfold addModuleLoop addModuleStep at h
    rw [if_pos rfl] at h
    cases hi : g.g_module_infos a with
    | none => simp [hi] at h
    | some info =>
      simp only [hi] at h
      unfold addModuleLoop addModuleStep at h
      rw [if_neg ha, if_pos rfl] at h
      simp only at h
      obtain ⟨h1, h2, ps, h3, h4⟩ :=
        addModuleLoop_params atof def_copy rest g g1 ⟨a, b, []⟩ l ha hb h
      refine ⟨h1, h2, ?_⟩
      rw [h3]
      simp [h4]

/-- What a successful call of `addModule` went through: the loop consumed every token
without exception, the schema of the type declares as many parameters as were bound,
and the state is the state after the loop with the factory's object added to the heap
and stored under the instance name. -/
theorem addModule_ok_inv {X : Type} (atof : String → ℚ) (definition : String)
    (g g2 : Globals X) (p : Nat) (hok : addModule atof definition g = (g2, .ok p)) :
    ∃ g1 l info, strtok definition ≠ [] ∧
      addModuleLoop atof definition (strtok definition) g ⟨"", "", []⟩ = (g1, .ok l) ∧
      g.g_module_infos l.type = some info ∧
      l.params.length = info.parameterCount ∧
      p = g1.heap.length ∧
      g2 = { g1 with
              heap := g1.heap ++ [info.m_instantiator l.params]
              g_modules := fun k => if k = l.name then some g1.heap.length else g1.g_modules k
              instantiated := g.instantiated ++ [(l.type, l.params)] } := by
  unfold addModule at hok
  cases hts : strtok definition with
  | nil => simp [hts] at hok
  | cons t ts =>
    simp only [hts] at hok
    rcases hl : addModuleLoop atof definition (t :: ts) g ⟨"", "", []⟩ with ⟨g1, e | l⟩
    · simp [hl] at hok
    · simp only [hl] at hok
      obtain ⟨hreg, _, hinst, _⟩ := addModuleLoop_frame atof definition (t :: ts) g ⟨"", "", []⟩
      rw [hl] at hreg hinst
      simp only at hreg hinst
      cases hi : g1.g_module_infos l.type with
      | none => simp [hi] at hok
      | some info =>
        simp only [hi] at hok
        by_cases hc : l.params.length = info.parameterCount
        · rw [if_neg (by simpa using hc)] at hok
          simp only [Prod.mk.injEq, Except.ok.injEq] at hok
          refine ⟨g1, l, info, by simp, rfl, by rw [← hreg]; exact hi, hc, hok.2.symm, ?_⟩
          rw [← hok.1, hinst]
        · rw [if_pos hc] at hok
          simp [appendCStr] at hok

/-- The parameter bound at a token sits, in the parameter list the loop ends with, at
the position of the token among the parameter tokens. -/
theorem addModuleLoop_param_at {X : Type} (atof : String → ℚ) (def_copy : String)
    (ts1 ts2 : List String) (t : String) (g g1 : Globals X) (l : Locals)
    (hts : ∀ u ∈ ts1, u ≠ "") (h2 : 2 ≤ ts1.length)
    (h : addModuleLoop atof def_copy (ts1 ++ t :: ts2) g ⟨"", "", []⟩ = (g1, .ok l)) :
    ∃ ga la gb m, addModuleLoop atof def_copy ts1 g ⟨"", "", []⟩ = (ga, .ok la) ∧
      addModuleStep atof def_copy t ga la =
        (gb, .ok { la with params := la.params ++ [m] }) ∧
      l.params[ts1.length - 2]? = some m := by
  rw [addModuleLoop_append] at h
  rcases hpre : addModuleLoop atof def_copy ts1 g ⟨"", "", []⟩ with ⟨ga, e | la⟩
  · simp [hpre] at h
  · simp only [hpre] at h
    unfold addModuleLoop at h
    rcases hs : addModuleStep atof def_copy t ga la with ⟨gb, e | lb⟩
    · simp [hs] at h
    · simp only [hs] at h
      obtain ⟨i1, i2, i3⟩ := addModuleLoop_init atof def_copy ts1 g ga la hts hpre
      obtain ⟨a, b, rest, hab⟩ : ∃ a b rest, ts1 = a :: b :: rest := by
        match ts1, h2 with
        | a :: b :: rest, _ => exact ⟨a, b, rest, rfl⟩
      have hty : la.type ≠ "" := by
        rw [i1, hab]
        exact hts a (by simp [hab])
      have hnm : la.name ≠ "" := by
        rw [i2, hab]
        exact hts b (by simp [hab])
      obtain ⟨m, hm⟩ := addModuleStep_ok_param atof def_copy t ga gb la lb hty hnm hs
      subst hm
      obtain ⟨_, _, ps, k3, _⟩ := addModuleLoop_params atof def_copy ts2 gb g1
        { la with params := la.params ++ [m] } l hty hnm h
      refine ⟨ga, la, gb, m, rfl, hs, ?_⟩
      rw [k3, ← i3]
      show (la.params ++ [m] ++ ps)[la.params.length]? = some m
      rw [List.append_assoc, List.getElem?_append_right (le_refl _), Nat.sub_self]
      simp

/-- C11: for every definition line on which `addModule` succeeds.  The instance name
is the second token of the line and the type the first; each further token is bound,
in the order of the tokens, to one parameter.  The resulting instance table maps the
instance name to the object the factory of the type returns for the bound parameters,
whatever the name was bound to before, and maps every other name as before the
call. -/
theorem successful_definition_binds_instance {X : Type} (atof : String → ℚ)
    (definition : String) (g g2 : Globals X) (p : Nat)
    (hok : addModule atof definition g = (g2, .ok p)) :
    ∃ (l : Locals) (info : ModuleInfo X),
      l.type = (strtok definition).headD "" ∧
      l.name = (strtok definition).getD 1 "" ∧
      g.g_module_infos l.type = some info ∧
      l.params.length = (strtok definition).length - 2 ∧
      (∀ ts1 t ts2, strtok definition = ts1 ++ t :: ts2 → 2 ≤ ts1.length →
        ∃ ga la gb m, addModuleLoop atof definition ts1 g ⟨"", "", []⟩ = (ga, .ok la) ∧
          addModuleStep atof definition t ga la =
            (gb, .ok { la with params := la.params ++ [m] }) ∧
          l.params[ts1.length - 2]? = some m) ∧
      g2.g_modules l.name = some p ∧
      g2.heap[p]? = some (info.m_instantiator l.params) ∧
      (∀ k, k ≠ l.name → g2.g_modules k = g.g_modules k) ∧
      g2.g_module_infos = g.g_module_infos ∧
      g2.instantiated = g.instantiated ++ [(l.type, l.params)] := by
  obtain ⟨g1, l, info, _, hloop, hinfo, _, hp, hg2⟩ :=
    addModule_ok_inv atof definition g g2 p hok
  obtain ⟨i1, i2, i3⟩ := addModuleLoop_init atof definition (strtok definition) g g1 l
    (strtok_ne_empty definition) hloop
  obtain ⟨hreg, hmod, _, _⟩ := addModuleLoop_frame atof definition (strtok definition) g
    ⟨"", "", []⟩
  rw [hloop] at hreg hmod
  simp only at hreg hmod
  refine ⟨l, info, i1, i2, hinfo, i3, ?_, ?_, ?_, ?_, ?_, ?_⟩
  · intro ts1 t ts2 htok h2
    apply addModuleLoop_param_at atof definition ts1 ts2 t g g1 l _ h2
    · rw [← htok]
      exact hloop
    · intro u hu
      apply strtok_ne_empty definition
      rw [htok]
      simp [hu]
  · rw [hg2, hp]
    simp
  · rw [hg2, hp]
    simp
  · intro k hk
    rw [hg2]
    simp only
    rw [if_neg hk, hmod]
  · rw [hg2]
    exact hreg
  · rw [hg2]

/-- Witness of `successful_definition_binds_instance`: the line `Gain m(m, 3)`
succeeds on a table that binds `m` to object 0; afterwards `m` is bound to the new
object 3 and `st` is bound as before. -/
theorem successful_definition_binds_instance_witness :
    addModule atofDigits "Gain m(m, 3)" testGlobals =
      ((addModule atofDigits "Gain m(m, 3)" testGlobals).1, .ok 3) ∧
    testGlobals.g_modules "m" = some 0 ∧
    (addModule atofDigits "Gain m(m, 3)" testGlobals).1.g_modules "m" = some 3 ∧
    (addModule atofDigits "Gain m(m, 3)" testGlobals).1.heap[3]? = some (.made false ()) ∧
    (addModule atofDigits "Gain m(m, 3)" testGlobals).1.g_modules "st" =
      testGlobals.g_modules "st" := by
  obtain ⟨l, info, _, hname, hinfo, _, _, hx, hobj, hothers, _⟩ :=
    successful_definition_binds_instance atofDigits "Gain m(m, 3)" testGlobals
      (addModule atofDigits "Gain m(m, 3)" testGlobals).1 3 (by rfl)
  have hn : l.name = "m" := hname.trans (by rfl)
  rw [hn] at hx
  exact ⟨by rfl, by rfl, hx, by rfl, hothers "st" (by rw [hn]; decide)⟩

/-! ### C19: a failed definition changes neither table nor registry -/

/-- Whatever `addModule` returns or throws, the registry is as before the call; when
it throws, so are the instance table and the record of factory invocations. -/
theorem addModule_frame {X : Type} (atof : String → ℚ) (definition : String)
    (g : Globals X) :
    (addModule atof definition g).1.g_module_infos = g.g_module_infos ∧
    (∀ e, (addModule atof definition g).2 = .error e →
      (addModule atof definition g).1.g_modules = g.g_modules ∧
      (addModule atof definition g).1.instantiated = g.instantiated) := by
  unfold addModule
  cases hts : strtok definition with
  | nil => exact ⟨rfl, fun _ _ => ⟨rfl, rfl⟩⟩
  | cons t ts =>
    simp only
    obtain ⟨hreg, hmod, hinst, _⟩ :=
      addModuleLoop_frame atof definition (t :: ts) g ⟨"", "", []⟩
    rcases hl : addModuleLoop atof definition (t :: ts) g ⟨"", "", []⟩ with ⟨g1, e | l⟩
    · rw [hl] at hreg hmod hinst
      exact ⟨hreg, fun _ _ => ⟨hmod, hinst⟩⟩
    · rw [hl] at hreg hmod hinst
      simp only at hreg hmod hinst ⊢
      cases hi : g1.g_module_infos l.type with
      | none => exact ⟨hreg, fun _ _ => ⟨hmod, hinst⟩⟩
      | some info =>
        simp only
        by_cases hc : l.params.length = info.parameterCount
        · rw [if_neg (by simpa using hc)]
          refine ⟨hreg, fun e he => ?_⟩
          simp at he
        · rw [if_pos hc]
          simp only [appendCStr]
          exact ⟨hreg, fun _ _ => ⟨hmod, hinst⟩⟩

/-- C19: for every definition line, registry and instance table: if `addModule` fails,
with any exception, the instance table and the registry are exactly as they were
before the call, and no factory has been invoked (the record of factory invocations
is as before the call). -/
theorem failed_definition_changes_nothing {X : Type} (atof : String → ℚ)
    (definition : String) (g g2 : Globals X) (e : Exc)
    (hfail : addModule atof definition g = (g2, .error e)) :
    g2.g_modules = g.g_modules ∧ g2.g_module_infos = g.g_module_infos ∧
    g2.instantiated = g.instantiated := by
  obtain ⟨hreg, h⟩ := addModule_frame atof definition g
  rw [hfail] at hreg h
  obtain ⟨hmod, hinst⟩ := h e rfl
  exact ⟨hmod, hreg, hinst⟩

/-- Witness of `failed_definition_changes_nothing`: the line `Gain out(m, 3, 4)` fails
with Too-Many-Params after a Constant has been created for `3`; the instance table,
the registry and the record of factory invocations are those of before the call. -/
theorem failed_definition_changes_nothing_witness :
    addModule atofDigits "Gain out(m, 3, 4)" testGlobals =
      ((addModule atofDigits "Gain out(m, 3, 4)" testGlobals).1,
        .error .TooManyParamsExcept) ∧
    (addModule atofDigits "Gain out(m, 3, 4)" testGlobals).1.heap.length = 3 ∧
    (addModule atofDigits "Gain out(m, 3, 4)" testGlobals).1.g_modules =
      testGlobals.g_modules ∧
    (addModule atofDigits "Gain out(m, 3, 4)" testGlobals).1.g_module_infos =
      testGlobals.g_module_infos ∧
    (addModule atofDigits "Gain out(m, 3, 4)" testGlobals).1.instantiated =
      testGlobals.instantiated :=
  ⟨by rfl, by rfl,
    failed_definition_changes_nothing atofDigits "Gain out(m, 3, 4)" testGlobals
      (addModule atofDigits "Gain out(m, 3, 4)" testGlobals).1 .TooManyParamsExcept
      (by rfl)⟩

/-! ### C15: lines with fewer than two tokens -/

/-- C15 fails on the code.  The line `\n` has no token: the loop is entered with `t`
the null pointer and `type = t` assigns the null pointer to a `std::string`, which is
undefined; no parse error is thrown.  The line `Noise\n` has a type token and no
instance name, and `Noise` declares no parameter: `addModule` succeeds, invokes the
factory and stores its object under the empty name.  The line `Input\n` has a type
token and no instance name, and `Input` declares one parameter: the operand
`def_copy+t` of the Too-Few-Params `throw` adds the null pointer to a `std::string`.
Only a line whose single token is no registered type fails with a parse error
carrying the line and the token. -/
theorem line_without_instance_name_not_rejected :
    (strtok "\n" = [] ∧
      addModule atofDigits "\n" literalGlobals =
        (literalGlobals, .error (.UndefinedBehaviour "type = t with t the null pointer"))) ∧
    (strtok "Noise\n" = ["Noise"] ∧
      (literalGlobals.g_module_infos "Noise").map ModuleInfo.parameterCount = some 0 ∧
      (addModule atofDigits "Noise\n" literalGlobals).2 = .ok 0 ∧
      literalGlobals.g_modules "" = none ∧
      (addModule atofDigits "Noise\n" literalGlobals).1.g_modules "" = some 0 ∧
      (addModule atofDigits "Noise\n" literalGlobals).1.instantiated = [("Noise", [])]) ∧
    (strtok "Input\n" = ["Input"] ∧
      (literalGlobals.g_module_infos "Input").map ModuleInfo.parameterCount = some 1 ∧
      addModule atofDigits "Input\n" literalGlobals =
        (literalGlobals, .error (.UndefinedBehaviour "std::string + null char pointer"))) ∧
    (strtok "Foo\n" = ["Foo"] ∧
      addModule atofDigits "Foo\n" literalGlobals =
        (literalGlobals, .error (.UnknownModuleTypeExcept ("Foo\n" ++ "Foo")))) := by
  refine ⟨⟨by rfl, by rfl⟩, ⟨by rfl, by rfl, by rfl, by rfl, by rfl, by rfl⟩,
    ⟨by rfl, by rfl, by rfl⟩, ⟨by rfl, by rfl⟩⟩

/-! ### C13: the lengths in the header of the recording -/

theorem pokeAt_length (off : Nat) (bs file : List Nat) :
    (pokeAt off bs file).length = file.length := by
  induction bs generalizing off file with
  | nil => rfl
  | cons b bs ih =>
    unfold pokeAt
    rw [ih, List.length_set]

theorem pokeAt_getElem?_of_lt (off : Nat) (bs file : List Nat) (i : Nat) (h : i < off) :
    (pokeAt off bs file)[i]? = file[i]? := by
  induction bs generalizing off file with
  | nil => rfl
  | cons b bs ih =>
    unfold pokeAt
    rw [ih (off + 1) _ (by omega), List.getElem?_set_ne (by omega)]

theorem pokeAt_getElem?_of_ge (off : Nat) (bs file : List Nat) (i : Nat)
    (h : off + bs.length ≤ i) : (pokeAt off bs file)[i]? = file[i]? := by
  induction bs generalizing off file with
  | nil => rfl
  | cons b bs ih =>
    unfold pokeAt
    simp only [List.length_cons] at h
    rw [ih (off + 1) _ (by omega), List.getElem?_set_ne (by omega)]

theorem pokeAt_getElem?_in (off : Nat) (bs file : List Nat) (j : Nat)
    (hfile : off + bs.length ≤ file.length) (hj : j < bs.length) :
    (pokeAt off bs file)[off + j]? = bs[j]? := by
  induction bs generalizing off file j with
  | nil => simp at hj
  | cons b bs ih =>
    unfold pokeAt
    simp only [List.length_cons] at hfile hj
    cases j with
    | zero =>
      simp only [Nat.add_zero, List.getElem?_cons_zero]
      rw [pokeAt_getElem?_of_lt _ _ _ _ (by omega), List.getElem?_set_self (by omega)]
    | succ j =>
      have := ih (off + 1) (file.set off b) j (by rw [List.length_set]; omega) (by omega)
      rw [show off + (j + 1) = off + 1 + j by omega, this]
      simp

theorem intBytes_length (z : Int) : (intBytes z).length = 4 := rfl

/-- The four bytes `fwrite(&chunklength, 4, 1, m_out)` writes for a value below 2^31
are bytes, and read back in little-endian order they give the value. -/
theorem intBytes_value (n : Nat) (h : n < 2147483648) :
    ∃ b0 b1 b2 b3, intBytes (n : Int) = [b0, b1, b2, b3] ∧
      b0 < 256 ∧ b1 < 256 ∧ b2 < 256 ∧ b3 < 256 ∧
      b0 + 256 * b1 + 65536 * b2 + 16777216 * b3 = n := by
  have hu : ((n : Int) % 4294967296).toNat = n := by
    rw [Int.emod_eq_of_lt (by omega) (by omega)]
    simp
  refine ⟨n % 256, n / 256 % 256, n / 65536 % 256, n / 16777216, ?_, ?_, ?_, ?_, ?_, ?_⟩
  · simp only [intBytes, hu]
  · omega
  · omega
  · omega
  · omega
  · omega
theorem readInt32_congr (f g : List Nat) (off : Nat)
    (h : ∀ j, j < 4 → f[off + j]? = g[off + j]?) : readInt32 f off = readInt32 g off := by
  unfold readInt32
  simp only [List.getD_eq_getElem?_getD]
  have h0 := h 0 (by omega)
  rw [Nat.add_zero] at h0
  rw [h0, h 1 (by omega), h 2 (by omega), h 3 (by omega)]

/-- The value written by `fseek(m_out, off, SEEK_SET); fwrite(&chunklength, 4, 1, m_out)`
is read back from offset `off`, and the four bytes are bytes. -/
theorem readInt32_pokeAt (file : List Nat) (off n : Nat) (hfile : off + 4 ≤ file.length)
    (hn : n < 2147483648) :
    readInt32 (pokeAt off (intBytes (n : Int)) file) off = n ∧
    ∀ j, j < 4 → ∃ b, (pokeAt off (intBytes (n : Int)) file)[off + j]? = some b ∧ b < 256 := by
  obtain ⟨b0, b1, b2, b3, hb, h0, h1, h2, h3, hv⟩ := intBytes_value n hn
  rw [hb]
  have k : ∀ j, j < 4 → (pokeAt off [b0, b1, b2, b3] file)[off + j]? = [b0, b1, b2, b3][j]? :=
    fun j hj => pokeAt_getElem?_in off [b0, b1, b2, b3] file j (by simpa using hfile)
      (by simpa using hj)
  constructor
  · unfold readInt32
    simp only [List.getD_eq_getElem?_getD]
    have k0 := k 0 (by omega)
    rw [Nat.add_zero] at k0
    rw [k0, k 1 (by omega), k 2 (by omega), k 3 (by omega)]
    simpa using hv
  · intro j hj
    rw [k j hj]
    match j, hj with
    | 0, _ => exact ⟨b0, rfl, h0⟩
    | 1, _ => exact ⟨b1, rfl, h1⟩
    | 2, _ => exact ⟨b2, rfl, h2⟩
    | 3, _ => exact ⟨b3, rfl, h3⟩

theorem flatMap_shortBytes_length (l : List Int) :
    (l.flatMap shortBytes).length = 2 * l.length := by
  induction l with
  | nil => rfl
  | cons a l ih =>
    rw [List.flatMap_cons, List.length_append, ih]
    simp only [shortBytes, List.length_cons, List.length_nil]
    omega

/-- One call of `writeBuffer` that stays inside the arrays, on a sink that has
written `K` samples and whose header bytes outside the two length fields are those of
construction: the sink has then written `K + size` samples, the file is `2 * size`
bytes longer, the header bytes outside the two length fields are unchanged, and the
length fields hold `36 + 2 * (K + size)` and `2 * (K + size)`. -/
theorem writeBuffer_header (stereo : Bool) (w w1 : WaveOut) (buffer : FloatPtr)
    (size K : Nat) (hlen : w.m_length = K) (hfile : w.m_out.length = 44 + 2 * K)
    (hhdr : ∀ i, i < 44 → ¬ (4 ≤ i ∧ i < 8) → ¬ (40 ≤ i ∧ i < 44) →
      w.m_out[i]? = (waveHeader stereo)[i]?)
    (hsmall : 36 + 2 * (K + size) < 2147483648)
    (h : w.writeBuffer buffer size = some w1) :
    w1.m_length = ((K + size : Nat) : Int) ∧
    w1.m_out.length = 44 + 2 * (K + size) ∧
    (∀ i, i < 44 → ¬ (4 ≤ i ∧ i < 8) → ¬ (40 ≤ i ∧ i < 44) →
      w1.m_out[i]? = (waveHeader stereo)[i]?) ∧
    readInt32 w1.m_out 4 = 36 + 2 * (K + size) ∧
    readInt32 w1.m_out 40 = 2 * (K + size) ∧
    (∀ i, (4 ≤ i ∧ i < 8) ∨ (40 ≤ i ∧ i < 44) → ∃ b, w1.m_out[i]? = some b ∧ b < 256) := by
  unfold WaveOut.writeBuffer at h
  split at h
  case isFalse => simp at h
  case isTrue =>
    simp only [Option.some.injEq] at h
    subst h
    simp only [WaveOut.updateLength, hlen]
    have e1 : ((K : Int) + (size : Int)) * 2 = ((2 * (K + size) : Nat) : Int) := by
      push_cast
      ring
    have e2 : ((K : Int) + (size : Int)) * 2 + 36 = ((36 + 2 * (K + size) : Nat) : Int) := by
      push_cast
      ring
    rw [e2, e1]
    generalize hd : ((WaveOut.writeBufferIndices size).map
      (fun i => toShort (buffer.data i * w.m_scaler))).flatMap shortBytes = data
    have hdl : data.length = 2 * size := by
      rw [← hd, flatMap_shortBytes_length, List.length_map]
      simp [WaveOut.writeBufferIndices]
    have hf0 : (w.m_out ++ data).length = 44 + 2 * (K + size) := by
      rw [List.length_append, hfile, hdl]
      omega
    generalize hf0d : w.m_out ++ data = f0 at hf0
    have hf1 : (pokeAt 40 (intBytes ((2 * (K + size) : Nat) : Int)) f0).length =
        44 + 2 * (K + size) := by
      rw [pokeAt_length, hf0]
    obtain ⟨r40, b40⟩ := readInt32_pokeAt f0 40 (2 * (K + size)) (by omega) (by omega)
    generalize hf1d : pokeAt 40 (intBytes ((2 * (K + size) : Nat) : Int)) f0 = f1
      at hf1 r40 b40
    obtain ⟨r4, b4⟩ := readInt32_pokeAt f1 4 (36 + 2 * (K + size)) (by omega) (by omega)
    refine ⟨by push_cast; rfl, by rw [pokeAt_length, hf1], ?_, r4, ?_, ?_⟩
    · intro i hi h4 h40
      have : (pokeAt 4 (intBytes ((36 + 2 * (K + size) : Nat) : Int)) f1)[i]? = f1[i]? := by
        by_cases hlt : i < 4
        · exact pokeAt_getElem?_of_lt _ _ _ _ hlt
        · exact pokeAt_getElem?_of_ge _ _ _ _ (by rw [intBytes_length]; omega)
      rw [this, ← hf1d, pokeAt_getElem?_of_lt _ _ _ _ (by omega), ← hf0d,
        List.getElem?_append_left (by omega)]
      exact hhdr i hi h4 h40
    · rw [← r40]
      apply readInt32_congr
      intro j _
      exact pokeAt_getElem?_of_ge _ _ _ _ (by rw [intBytes_length]; omega)
    · intro i hi
      rcases hi with ⟨hlo, hhi⟩ | ⟨hlo, hhi⟩
      · have := b4 (i - 4) (by omega)
        rw [show 4 + (i - 4) = i by omega] at this
        exact this
      · have := b40 (i - 40) (by omega)
        rw [show 40 + (i - 40) = i by omega] at this
        rw [pokeAt_getElem?_of_ge _ _ _ _ (by rw [intBytes_length]; omega)]
        exact this
/-- Further calls of `writeBuffer` that stay inside the arrays, on a sink that has
written `K` samples and whose header is in order, leave a sink that has written the
samples of all the calls and whose header is in order. -/
theorem writeBuffers_header_from (stereo : Bool) (calls : List (FloatPtr × Nat))
    (w : WaveOut) (K : Nat)
    (hin : ∀ c ∈ calls, c.2 ≤ max_buffer_size ∧ c.2 ≤ c.1.cap)
    (hsmall : 36 + 2 * (K + (calls.map Prod.snd).sum) < 2147483648)
    (hlen : w.m_length = K) (hfile : w.m_out.length = 44 + 2 * K)
    (hhdr : ∀ i, i < 44 → ¬ (4 ≤ i ∧ i < 8) → ¬ (40 ≤ i ∧ i < 44) →
      w.m_out[i]? = (waveHeader stereo)[i]?)
    (h4 : readInt32 w.m_out 4 = 36 + 2 * K) (h40 : readInt32 w.m_out 40 = 2 * K)
    (hb : ∀ i, (4 ≤ i ∧ i < 8) ∨ (40 ≤ i ∧ i < 44) → ∃ b, w.m_out[i]? = some b ∧ b < 256) :
    ∃ w1, w.writeBuffers calls = some w1 ∧
      w1.m_length = ((K + (calls.map Prod.snd).sum : Nat) : Int) ∧
      w1.m_out.length = 44 + 2 * (K + (calls.map Prod.snd).sum) ∧
      (∀ i, i < 44 → ¬ (4 ≤ i ∧ i < 8) → ¬ (40 ≤ i ∧ i < 44) →
        w1.m_out[i]? = (waveHeader stereo)[i]?) ∧
      readInt32 w1.m_out 4 = 36 + 2 * (K + (calls.map Prod.snd).sum) ∧
      readInt32 w1.m_out 40 = 2 * (K + (calls.map Prod.snd).sum) ∧
      (∀ i, (4 ≤ i ∧ i < 8) ∨ (40 ≤ i ∧ i < 44) → ∃ b, w1.m_out[i]? = some b ∧ b < 256) := by
  induction calls generalizing w K with
  | nil =>
    refine ⟨w, rfl, ?_, ?_, hhdr, ?_, ?_, hb⟩
    · simpa using hlen
    · simpa using hfile
    · simpa using h4
    · simpa using h40
  | cons c rest ih =>
    obtain ⟨buffer, size⟩ := c
    simp only [List.map_cons, List.sum_cons] at hsmall ⊢
    obtain ⟨hs1, hs2⟩ := hin (buffer, size) (by simp)
    obtain ⟨w0, hw0⟩ := writeBuffer_in_bounds w buffer size hs1 hs2
    obtain ⟨k1, k2, k3, k4, k5, k6⟩ :=
      writeBuffer_header stereo w w0 buffer size K hlen hfile hhdr (by omega) hw0
    obtain ⟨w1, hw1, r⟩ := ih w0 (K + size) (fun c hc => hin c (by simp [hc]))
      (by omega) k1 k2 k3 k4 k5 k6
    refine ⟨w1, ?_, ?_⟩
    · simp only [WaveOut.writeBuffers, hw0]
      exact hw1
    · rw [show K + (size + (rest.map Prod.snd).sum) = K + size + (rest.map Prod.snd).sum by
        omega]
      exact r
/-- A call of `writeBuffer` with more samples than the staging array `out` holds
indexes `out` outside the array. -/
theorem writeBuffer_eq_none_of_gt (w : WaveOut) (buffer : FloatPtr) (size : Nat)
    (h : max_buffer_size < size) : w.writeBuffer buffer size = none := by
  unfold WaveOut.writeBuffer
  rw [if_neg]
  intro hall
  rw [List.all_eq_true] at hall
  have := hall max_buffer_size (by simpa [WaveOut.writeBufferIndices] using h)
  simp at this

/-- C13, as stated, fails: on a freshly constructed stereo sink, one call of
`writeBuffer` with the 4002 samples of a stereo block of 2001 frames writes
`out[4000]`, outside the staging array `static short out[max_buffer_size]`: the call
leaves defined C++ and the bytes of the file are not determined. -/
theorem writeBuffer_larger_than_staging_array :
    (4002 : Nat) = 2001 * 2 ∧ 36 + 2 * 4002 < 2147483648 ∧
    (4002 : Nat) ≤ (⟨max_buffer_size * 2, fun _ => 0⟩ : FloatPtr).cap ∧
    (WaveOut.new 32768 true).writeBuffers [(⟨max_buffer_size * 2, fun _ => 0⟩, 4002)] =
      none := by
  refine ⟨by norm_num, by norm_num, by decide, ?_⟩
  simp only [WaveOut.writeBuffers]
  rw [writeBuffer_eq_none_of_gt _ _ _ (by decide)]

/-- C13 (amended): for every non-empty sequence of `writeBuffer` calls on a freshly
constructed recording sink, each call with at most `max_buffer_size` samples, all
inside the array it is given, the calls writing `K` samples together with
`36 + 2 * K` below 2^31: every call returns, and after the last one bytes 4..7 of the
file hold the little-endian value `36 + 2 * K` and bytes 40..43 hold `2 * K`, the
other header bytes are as written at construction, and the file is `44 + 2 * K`
bytes long.  (The calls made so far form such a sequence after each call.) -/
theorem recording_header_lengths (scaler : ℚ) (stereo : Bool)
    (calls : List (FloatPtr × Nat)) (hne : calls ≠ [])
    (hin : ∀ c ∈ calls, c.2 ≤ max_buffer_size ∧ c.2 ≤ c.1.cap)
    (hsmall : 36 + 2 * (calls.map Prod.snd).sum < 2147483648) :
    ∃ w, (WaveOut.new scaler stereo).writeBuffers calls = some w ∧
      readInt32 w.m_out 4 = 36 + 2 * (calls.map Prod.snd).sum ∧
      readInt32 w.m_out 40 = 2 * (calls.map Prod.snd).sum ∧
      (∀ i, (4 ≤ i ∧ i < 8) ∨ (40 ≤ i ∧ i < 44) → ∃ b, w.m_out[i]? = some b ∧ b < 256) ∧
      (∀ i, i < 44 → ¬ (4 ≤ i ∧ i < 8) → ¬ (40 ≤ i ∧ i < 44) →
        w.m_out[i]? = (waveHeader stereo)[i]?) ∧
      w.m_out.length = 44 + 2 * (calls.map Prod.snd).sum := by
  match calls, hne with
  | (buffer, size) :: rest, _ =>
    simp only [List.map_cons, List.sum_cons] at hsmall ⊢
    obtain ⟨hs1, hs2⟩ := hin (buffer, size) (by simp)
    obtain ⟨w0, hw0⟩ := writeBuffer_in_bounds (WaveOut.new scaler stereo) buffer size hs1 hs2
    have hl0 : (WaveOut.new scaler stereo).m_out.length = 44 + 2 * 0 := by
      cases stereo <;> rfl
    obtain ⟨k1, k2, k3, k4, k5, k6⟩ :=
      writeBuffer_header stereo (WaveOut.new scaler stereo) w0 buffer size 0 rfl hl0
        (fun _ _ _ _ => rfl) (by omega) hw0
    obtain ⟨w1, hw1, _, r2, r3, r4, r5, r6⟩ :=
      writeBuffers_header_from stereo rest w0 (0 + size) (fun c hc => hin c (by simp [hc]))
        (by omega) k1 k2 k3 k4 k5 k6
    rw [Nat.zero_add] at r2 r4 r5
    refine ⟨w1, ?_, r4, r5, r6, r3, r2⟩
    simp only [WaveOut.writeBuffers, hw0]
    exact hw1

/-- Witness of `recording_header_lengths`: a mono sink after a block of 3 samples and
a block of 2 samples. -/
theorem recording_header_lengths_witness :
    ∃ w, (WaveOut.new 32768 false).writeBuffers
        [(⟨max_buffer_size, fun _ => 0⟩, 3), (⟨max_buffer_size, fun _ => 0⟩, 2)] = some w ∧
      readInt32 w.m_out 4 = 36 + 2 * 5 ∧
      readInt32 w.m_out 40 = 2 * 5 ∧
      (∀ i, (4 ≤ i ∧ i < 8) ∨ (40 ≤ i ∧ i < 44) → ∃ b, w.m_out[i]? = some b ∧ b < 256) ∧
      (∀ i, i < 44 → ¬ (4 ≤ i ∧ i < 8) → ¬ (40 ≤ i ∧ i < 44) →
        w.m_out[i]? = (waveHeader false)[i]?) ∧
      w.m_out.length = 44 + 2 * 5 :=
  recording_header_lengths 32768 false
    [(⟨max_buffer_size, fun _ => 0⟩, 3), (⟨max_buffer_size, fun _ => 0⟩, 2)]
    (by simp) (by decide) (by decide)

/-! ### C16: the conversion of the recording sink -/

theorem truncate_of_nonneg (x : ℚ) (h : 0 ≤ x) : truncate x = ⌊x⌋ := by
  unfold truncate
  rw [Rat.floor_def, Int.tdiv_eq_ediv (Rat.num_nonneg.mpr h) (by positivity)]

theorem truncate_intCast (z : Int) : truncate (z : ℚ) = z := by
  simp [truncate]

theorem truncate_neg (x : ℚ) : truncate (-x) = -truncate x := by
  unfold truncate
  rw [Rat.neg_num, Rat.neg_den, Int.neg_tdiv]

theorem truncate_bounds (x : ℚ) (N : Int) (h1 : -(N : ℚ) ≤ x) (h2 : x ≤ N) :
    -N ≤ truncate x ∧ truncate x ≤ N := by
  by_cases h : 0 ≤ x
  · rw [truncate_of_nonneg x h]
    constructor
    · have : (0 : Int) ≤ ⌊x⌋ := Int.floor_nonneg.mpr h
      have hN : (0 : ℚ) ≤ N := le_trans h h2
      have : (0 : Int) ≤ N := by exact_mod_cast hN
      omega
    · have k : ((⌊x⌋ : Int) : ℚ) ≤ N := le_trans (Int.floor_le x) h2
      exact_mod_cast k
  · have hx : 0 ≤ -x := by linarith
    have e : truncate x = -⌊-x⌋ := by
      have := truncate_neg (-x)
      rw [neg_neg] at this
      rw [this, truncate_of_nonneg _ hx]
    rw [e]
    have k1 : (0 : Int) ≤ ⌊-x⌋ := Int.floor_nonneg.mpr hx
    have k2 : ((⌊-x⌋ : Int) : ℚ) ≤ N := le_trans (Int.floor_le _) (by linarith)
    have k3 : ⌊-x⌋ ≤ N := by exact_mod_cast k2
    constructor <;> omega

theorem toShort_eq_truncate (x : ℚ) (h1 : -32768 ≤ truncate x) (h2 : truncate x ≤ 32767) :
    toShort x = truncate x := by
  unfold toShort
  omega

/-- The loop of `validateOutputRange` over more samples than `Module::m_output` holds,
on a block inside the declared range: it reads `m_output[i]` outside the array. -/
theorem validateOutputRangeFrom_outside_m_output (name : String) (lo hi : ℚ)
    (b m : FloatPtr) (i k : Nat) (hb : i + k ≤ b.cap) (hi1 : i ≤ m.cap)
    (hk : m.cap < i + k) (hin : ∀ j, i ≤ j → j < i + k → ¬ b.data j < lo)
    (hin2 : ∀ j, i ≤ j → j < m.cap → ¬ m.data j > hi) :
    validateOutputRangeFrom name lo hi b m i k =
      some (.UndefinedBehaviour "m_output[i] outside m_output") := by
  induction k generalizing i with
  | zero => omega
  | succ k ih =>
    have hib : i < b.cap := by omega
    have h1 : ¬ b.data i < lo := hin i (le_refl _) (by omega)
    simp only [validateOutputRangeFrom, FloatPtr.read, hib, if_true, h1, if_false]
    by_cases him : i < m.cap
    · have h2 : ¬ m.data i > hi := hin2 i (le_refl _) him
      simp only [him, if_true, h2, if_false]
      exact ih (i + 1) (by omega) (by omega) (by omega)
        (fun j hj1 hj2 => hin j (by omega) (by omega))
        (fun j hj1 hj2 => hin2 j (by omega) hj2)
    · simp only [him, if_false]

/-- C18 fails on the code at the block size 2001, which is at most 4000.  The 4002
samples of the block make the loop of `writeBuffer` write `out[4000]`, outside the
staging array `static short out[max_buffer_size]`, so that `output` of a stereo
module with a sink leaves defined C++; and `validateOutputRange(m_output, 4002)` reads
`Module::m_output[4000]`, outside that array of `max_buffer_size` floats, so that
`output` of a stereo module without a sink does too. -/
theorem stereo_block_indexes_outside_arrays :
    2001 ≤ max_buffer_size ∧
    4000 ∈ WaveOut.writeBufferIndices (2001 * 2) ∧ ¬ 4000 < max_buffer_size ∧
    (StereoModule.output Silence.virtuals 1 2001
      ⟨(StereoModule.new ()).log 32768 true, []⟩).2 =
      .error (.UndefinedBehaviour "writeBuffer indexes outside an array") ∧
    (StereoModule.output Silence.virtuals 1 2001 ⟨StereoModule.new (), []⟩).2 =
      .error (.UndefinedBehaviour "m_output[i] outside m_output") := by
  refine ⟨by decide, by simp [WaveOut.writeBufferIndices], by decide, ?_, ?_⟩
  · have hw : (WaveOut.new 32768 true).writeBuffer
        ⟨max_buffer_size * 2, fun _ => 0⟩ (2001 * 2) = none :=
      writeBuffer_eq_none_of_gt _ _ _ (by decide)
    simp [StereoModule.output, Silence.virtuals, StereoModule.new, Module.new, Module.log,
      Module.record, hw]
  · have hv : validateOutputRangeFrom "Silence" (-1) 1 ⟨max_buffer_size * 2, fun _ => 0⟩
        ⟨max_buffer_size, fun _ => 0⟩ 0 (2001 * 2) =
        some (.UndefinedBehaviour "m_output[i] outside m_output") :=
      validateOutputRangeFrom_outside_m_output _ _ _ _ _ 0 (2001 * 2) (by decide) (by decide)
        (by decide) (fun _ _ _ => by norm_num) (fun _ _ _ => by norm_num)
    simp [StereoModule.output, Silence.virtuals, StereoModule.new, Module.new,
      Module.record, Module.validateOutputRange, hv]

/-! ### C12: the checks of the driver on the output module -/

/-- C12: for every instance table produced by parsing the patch on the first call of
`produceStream`.  If the table has no entry `output`, the call fails with
No-Output-Module; if the object of the entry `output` reports mono, the call fails
with Output-Not-Stereo; in both cases the call has made no call of `output` on any
object: the heap is the one the parser left and the record of the calls
`output->output(time, samples)` is unchanged.  Otherwise the call makes the call
`output->output(time, samples)` on the object of the entry `output`. -/
theorem driver_checks_output_module {X : Type} (d : Driver X) (samples : Nat)
    (s : Statics X) (g1 : Globals X) (hfirst : s.first = true)
    (hparse : parsePatch d.atof d.patch (d.register s.globals) = (g1, none)) :
    (g1.g_modules "output" = none →
      produceStream d samples s =
        ({ s with globals := g1, first := false }, .error .NoOutputModuleExcept)) ∧
    (∀ p o, g1.g_modules "output" = some p → g1.heap[p]? = some o → o.stereo = false →
      produceStream d samples s =
        ({ s with globals := g1, first := false, output := some p },
          .error .OutputNotStereoExcept)) ∧
    (∀ p o, g1.g_modules "output" = some p → g1.heap[p]? = some o → o.stereo = true →
      (produceStream d samples s).1.pulls = s.pulls ++ [(p, s.time, samples)] ∧
      (produceStream d samples s).1.globals.heap = (d.output g1.heap p s.time samples).1) := by
  refine ⟨?_, ?_, ?_⟩
  · intro hnone
    simp only [produceStream, hfirst, if_true, produceStream.setup, hparse, hnone]
  · intro p o hp ho hst
    simp only [produceStream, hfirst, if_true, produceStream.setup, hparse, hp, ho, hst,
      Bool.false_eq_true, if_false]
  · intro p o hp ho hst
    simp only [produceStream, hfirst, if_true, produceStream.setup, hparse, hp, ho, hst,
      produceStream.play]
    rcases hc : d.output g1.heap p s.time samples with ⟨heap1, e | buf⟩
    · exact ⟨rfl, rfl⟩
    · simp only
      cases pcm d.apple buf samples <;> exact ⟨rfl, rfl⟩

/-- Witness of `driver_checks_output_module`: the patch `Silence other` defines no
instance `output`, the patch `Input output(0)` defines a mono one, and the patch
`Silence output` a stereo one, on which the first call of `produceStream` calls
`output(0, 2)`. -/
theorem driver_checks_output_module_witness :
    (produceStream (silenceDriver ["Silence other"] false) 2
      (Statics.initial Globals.empty)).2 = .error .NoOutputModuleExcept ∧
    (produceStream (silenceDriver ["Silence other"] false) 2
      (Statics.initial Globals.empty)).1.pulls = [] ∧
    (produceStream (silenceDriver ["Input output(0)"] false) 2
      (Statics.initial Globals.empty)).2 = .error .OutputNotStereoExcept ∧
    (produceStream (silenceDriver ["Input output(0)"] false) 2
      (Statics.initial Globals.empty)).1.pulls = [] ∧
    (produceStream (silenceDriver ["Silence output"] false) 2
      (Statics.initial Globals.empty)).1.pulls = [] ++ [(0, 0, 2)] :=
  ⟨congrArg Prod.snd
      ((driver_checks_output_module (silenceDriver ["Silence other"] false) 2
        (Statics.initial Globals.empty)
        (parsePatch atofDigits ["Silence other"]
          ((silenceDriver ["Silence other"] false).register Globals.empty)).1
        rfl (by rfl)).1 (by rfl)),
    congrArg (fun r => r.1.pulls)
      ((driver_checks_output_module (silenceDriver ["Silence other"] false) 2
        (Statics.initial Globals.empty)
        (parsePatch atofDigits ["Silence other"]
          ((silenceDriver ["Silence other"] false).register Globals.empty)).1
        rfl (by rfl)).1 (by rfl)),
    congrArg Prod.snd
      ((driver_checks_output_module (silenceDriver ["Input output(0)"] false) 2
        (Statics.initial Globals.empty)
        (parsePatch atofDigits ["Input output(0)"]
          ((silenceDriver ["Input output(0)"] false).register Globals.empty)).1
        rfl (by rfl)).2.1 0 (.made false (.input 0)) (by rfl) (by rfl) rfl),
    congrArg (fun r => r.1.pulls)
      ((driver_checks_output_module (silenceDriver ["Input output(0)"] false) 2
        (Statics.initial Globals.empty)
        (parsePatch atofDigits ["Input output(0)"]
          ((silenceDriver ["Input output(0)"] false).register Globals.empty)).1
        rfl (by rfl)).2.1 0 (.made false (.input 0)) (by rfl) (by rfl) rfl),
    ((driver_checks_output_module (silenceDriver ["Silence output"] false) 2
        (Statics.initial Globals.empty)
        (parsePatch atofDigits ["Silence output"]
          ((silenceDriver ["Silence output"] false).register Globals.empty)).1
        rfl (by rfl)).2.2 0 (.made true (.silence ⟨StereoModule.new (), []⟩))
        (by rfl) (by rfl) rfl).1⟩

/-! ### C17: the conversion of the driver -/

theorem toShort_intCast (z : Int) :
    toShort (z : ℚ) = (z + 32768) % 65536 - 32768 := by
  unfold toShort
  rw [truncate_intCast]

theorem pcm_in_bounds (apple : Bool) (o : FloatPtr) (n : Nat) (hcap : 2 * n ≤ o.cap) :
    pcm apple o n = .ok ((List.range n).flatMap
      (fun k => pcmFrame apple (o.data (2 * k)) (o.data (2 * k + 1)))) := by
  unfold pcm
  rw [if_pos]
  rw [List.all_eq_true]
  intro k hk
  rw [List.mem_range] at hk
  simp only [decide_eq_true_eq]
  omega

/-- The values of frame `k` in a list of frames of two values each. -/
theorem flatMap_pairs_getElem? (f : Nat → List Int) (hf : ∀ k, (f k).length = 2) (n : Nat) :
    ((List.range n).flatMap f).length = 2 * n ∧
    ∀ k, k < n → ∀ j, j < 2 → ((List.range n).flatMap f)[2 * k + j]? = (f k)[j]? := by
  induction n with
  | zero => exact ⟨rfl, fun k hk => absurd hk (by omega)⟩
  | succ n ih =>
    obtain ⟨hl, hg⟩ := ih
    rw [List.range_succ, List.flatMap_append]
    simp only [List.flatMap_cons, List.flatMap_nil, List.append_nil]
    refine ⟨by rw [List.length_append, hl, hf]; omega, ?_⟩
    intro k hk j hj
    by_cases hkn : k < n
    · rw [List.getElem?_append_left (by rw [hl]; omega)]
      exact hg k hkn j hj
    · have hk' : k = n := by omega
      subst hk'
      rw [List.getElem?_append_right (by rw [hl]; omega), hl]
      congr 1
      omega

/-- In the arithmetic of the model, where products are exact: when `__APPLE__` is not
defined, a production call of `n` frames whose samples all lie in `[-1, 1]`, read
inside the array `output` returned, writes `2 * n` values:
value `2 * k` is the truncation of `left_k * 32767` and value `2 * k + 1` that of
`right_k * 32767`, and every value lies in `[-32767, 32767]`. -/
theorem pcm_scales_channels_independently (o : FloatPtr) (n : Nat) (hcap : 2 * n ≤ o.cap)
    (hrange : ∀ i, i < 2 * n → -1 ≤ o.data i ∧ o.data i ≤ 1) :
    ∃ values, pcm false o n = .ok values ∧ values.length = 2 * n ∧
      ∀ k, k < n →
        values[2 * k]? = some (truncate (o.data (2 * k) * 32767)) ∧
        values[2 * k + 1]? = some (truncate (o.data (2 * k + 1) * 32767)) ∧
        -32767 ≤ truncate (o.data (2 * k) * 32767) ∧
        truncate (o.data (2 * k) * 32767) ≤ 32767 ∧
        -32767 ≤ truncate (o.data (2 * k + 1) * 32767) ∧
        truncate (o.data (2 * k + 1) * 32767) ≤ 32767 := by
  refine ⟨_, pcm_in_bounds false o n hcap, ?_, ?_⟩
  · exact (flatMap_pairs_getElem? _ (fun k => by simp [pcmFrame]) n).1
  · intro k hk
    have hb : ∀ i, i < 2 * n →
        -32767 ≤ truncate (o.data i * 32767) ∧ truncate (o.data i * 32767) ≤ 32767 := by
      intro i hi
      obtain ⟨h1, h2⟩ := hrange i hi
      exact truncate_bounds (o.data i * 32767) 32767 (by push_cast; linarith)
        (by push_cast; linarith)
    have hs : ∀ i, i < 2 * n → toShort (o.data i * 32767) = truncate (o.data i * 32767) := by
      intro i hi
      obtain ⟨h1, h2⟩ := hb i hi
      exact toShort_eq_truncate _ (by omega) h2
    obtain ⟨_, hg⟩ := flatMap_pairs_getElem?
      (fun k => pcmFrame false (o.data (2 * k)) (o.data (2 * k + 1)))
      (fun k => by simp [pcmFrame]) n
    have g0 := hg k hk 0 (by omega)
    have g1 := hg k hk 1 (by omega)
    rw [Nat.add_zero] at g0
    refine ⟨?_, ?_, (hb (2 * k) (by omega)).1, (hb (2 * k) (by omega)).2,
      (hb (2 * k + 1) (by omega)).1, (hb (2 * k + 1) (by omega)).2⟩
    · rw [g0, ← hs (2 * k) (by omega)]
      simp [pcmFrame]
    · rw [g1, ← hs (2 * k + 1) (by omega)]
      simp [pcmFrame]

/-- C17 fails on the code in a build that defines `__APPLE__`.  A production call of
one frame whose output module returns left 1 and right 1, both in `[-1, 1]`, writes one
value, `short(o[i]+o[i+1] * 16384)`, which is 16385: not the two values 32767 and
32767 that scaling each channel by 32767 gives, and that the build without
`__APPLE__` writes. -/
theorem apple_build_writes_one_mixed_value :
    (produceStream (bufferDriver true (fun _ => 1)) 1
      ⟨Globals.empty, false, some 0, 1, []⟩).2 = .ok [16385] ∧
    truncate (1 * 32767) = 32767 ∧
    (produceStream (bufferDriver false (fun _ => 1)) 1
      ⟨Globals.empty, false, some 0, 1, []⟩).2 = .ok [32767, 32767] := by
  have e1 : ((1 : ℚ) + 1 * 16384) = ((16385 : Int) : ℚ) := by norm_num
  have e2 : ((1 : ℚ) * 32767) = ((32767 : Int) : ℚ) := by norm_num
  have s1 : toShort (1 + 1 * 16384) = 16385 := by
    rw [e1, toShort_intCast]
    rfl
  have s2 : toShort (1 * 32767) = 32767 := by
    rw [e2, toShort_intCast]
    rfl
  refine ⟨?_, by rw [e2, truncate_intCast], ?_⟩
  · have hp : pcm true ⟨max_buffer_size * 2, fun _ => 1⟩ 1 = .ok [16385] := by
      rw [pcm_in_bounds _ _ _ (by decide)]
      simp only [List.range_succ, List.range_zero, List.nil_append, List.flatMap_cons,
        List.flatMap_nil, List.append_nil, pcmFrame, if_true, s1]
    simp only [produceStream, produceStream.play, bufferDriver, Bool.false_eq_true, if_false,
      hp]
  · have hp : pcm false ⟨max_buffer_size * 2, fun _ => 1⟩ 1 = .ok [32767, 32767] := by
      rw [pcm_in_bounds _ _ _ (by decide)]
      simp only [List.range_succ, List.range_zero, List.nil_append, List.flatMap_cons,
        List.flatMap_nil, List.append_nil, pcmFrame, Bool.false_eq_true, if_false, s2]
    simp only [produceStream, produceStream.play, bufferDriver, Bool.false_eq_true, if_false,
      hp]

/-! ### C20: the block counter of the driver -/

/-- At a fresh timestamp `StereoModule::output` executes `fill` exactly once, with
that timestamp, whether or not it then returns. -/
theorem stereo_output_fresh_calls {E : Type} (v : Virtuals (StereoPart E)) (t : ℚ) (n : Nat)
    (s : Traced (StereoPart E)) (h : s.obj.m_last_fill < t) :
    ∃ rest, (StereoModule.output v t n s).1.calls = s.calls ++ Call.fill t n :: rest ∧
      fills rest = 0 := by
  unfold StereoModule.output
  simp only [h, if_true]
  rcases hf : v.fill t n s.obj with ⟨o1, _ | e⟩
  · simp only
    rcases hr : Module.record ({ o1 with m_last_fill := t } : Module (StereoPart E))
      ⟨max_buffer_size * 2, o1.sub.m_output⟩ (n * 2) with ⟨o3, _ | e⟩
    · simp only
      cases hc : Module.validateOutputRange v o3 ⟨max_buffer_size * 2, o3.sub.m_output⟩
        (n * 2) with
      | some e =>
        refine ⟨recordCalls o1.m_waveout (n * 2) ++ [.validateOutputRange (n * 2)], ?_, ?_⟩
        · simp
        · simp only [fills_append, fills_recordCalls, fills_cons_validateOutputRange,
            fills_nil]
      | none =>
        refine ⟨recordCalls o1.m_waveout (n * 2) ++ [.validateOutputRange (n * 2)], ?_, ?_⟩
        · simp
        · simp only [fills_append, fills_recordCalls, fills_cons_validateOutputRange,
            fills_nil]
    · refine ⟨recordCalls o1.m_waveout (n * 2), ?_, ?_⟩
      · simp
      · simp only [fills_recordCalls]
  · exact ⟨[], by simp, rfl⟩

/-- The statement `time += 1.0` on a counter that has counted `k` calls. -/
theorem nextTime_min (k : Nat) :
    nextTime ((min k 16777216 : Nat) : ℚ) = ((min (k + 1) 16777216 : Nat) : ℚ) := by
  unfold nextTime
  by_cases h : k < 16777216
  · rw [Nat.min_eq_left (by omega), Nat.min_eq_left (by omega), if_pos (by exact_mod_cast h)]
    push_cast
    rfl
  · rw [Nat.min_eq_right (by omega), Nat.min_eq_right (by omega), if_neg (by norm_num)]

/-- What the statements of `produceStream` from the call of `output` on leave, when
`output` is not the null pointer. -/
theorem play_state {X : Type} (d : Driver X) (n : Nat) (s1 : Statics X) (p : Nat)
    (ho : s1.output = some p) :
    (produceStream.play d n s1).1.pulls = s1.pulls ++ [(p, s1.time, n)] ∧
    (produceStream.play d n s1).1.globals.heap = (d.output s1.globals.heap p s1.time n).1 ∧
    (produceStream.play d n s1).1.first = s1.first ∧
    (produceStream.play d n s1).1.output = some p ∧
    (∀ e, (d.output s1.globals.heap p s1.time n).2 = .error e →
      (produceStream.play d n s1).2 = .error e) ∧
    (∀ o, (d.output s1.globals.heap p s1.time n).2 = .ok o →
      (produceStream.play d n s1).1.time = nextTime s1.time ∧
      (produceStream.play d n s1).2 = pcm d.apple o n) := by
  unfold produceStream.play
  simp only [ho]
  rcases hc : d.output s1.globals.heap p s1.time n with ⟨heap1, e | o⟩
  · refine ⟨rfl, rfl, rfl, rfl, fun e1 he => ?_, fun o ho1 => ?_⟩
    · simp only [Except.error.injEq] at he
      rw [he]
    · simp at ho1
  · simp only
    cases hp : pcm d.apple o n with
    | error e =>
      refine ⟨rfl, rfl, rfl, rfl, fun e1 he => ?_, fun o1 ho1 => ?_⟩
      · simp at he
      · simp only [Except.ok.injEq] at ho1
        rw [← ho1, hp]
        exact ⟨rfl, rfl⟩
    | ok values =>
      refine ⟨rfl, rfl, rfl, rfl, fun e1 he => ?_, fun o1 ho1 => ?_⟩
      · simp at he
      · simp only [Except.ok.injEq] at ho1
        rw [← ho1, hp]
        exact ⟨rfl, rfl⟩

/-- A call of `produceStream` after the first: it goes straight to the call of
`output`. -/
theorem produceStream_not_first {X : Type} (d : Driver X) (n : Nat) (s : Statics X)
    (hf : s.first = false) :
    produceStream d n s = produceStream.play d n { s with globals := d.register s.globals } := by
  simp only [produceStream, hf, Bool.false_eq_true, if_false]

/-- The first call of `produceStream` on a patch that parses and defines a stereo
`output`: it goes on to the call of `output` on that object. -/
theorem produceStream_first_ok {X : Type} (d : Driver X) (n : Nat) (s : Statics X)
    (g1 : Globals X) (p : Nat) (o : Object X) (hf : s.first = true)
    (hparse : parsePatch d.atof d.patch (d.register s.globals) = (g1, none))
    (hout : g1.g_modules "output" = some p) (hobj : g1.heap[p]? = some o)
    (hst : o.stereo = true) :
    produceStream d n s =
      produceStream.play d n { s with globals := g1, first := false, output := some p } := by
  simp only [produceStream, hf, if_true, produceStream.setup, hparse, hout, hobj, hst]

/-- The call of `output` in `produceStream`, on a stereo output object whose typed
view is `x`, when the counter has counted `k` calls and the last-evaluated timestamp
of the object is that of the call before (0 for the first call). -/
theorem play_counted {X E : Type} (d : Driver X) (vs : Virtuals (StereoPart E))
    (view : List (Object X) → Option (Traced (StereoPart E))) (p : Nat)
    (hcall : ∀ heap t n x, view heap = some x →
      view (d.output heap p t n).1 = some (StereoModule.output vs t n x).1 ∧
      (d.output heap p t n).2 =
        (StereoModule.output vs t n x).2.map (FloatPtr.mk (max_buffer_size * 2)))
    (k n : Nat) (s1 : Statics X) (x : Traced (StereoPart E))
    (ho : s1.output = some p) (ht : s1.time = ((min k 16777216 : Nat) : ℚ))
    (hv : view s1.globals.heap = some x)
    (hL : x.obj.m_last_fill = ((min (k - 1) 16777216 : Nat) : ℚ)) :
    (produceStream.play d n s1).1.pulls = s1.pulls ++ [(p, s1.time, n)] ∧
    (produceStream.play d n s1).1.first = s1.first ∧
    (produceStream.play d n s1).1.output = some p ∧
    (1 ≤ k → k ≤ 16777216 →
      ∃ x1 rest, view (produceStream.play d n s1).1.globals.heap = some x1 ∧
        x1.calls = x.calls ++ Call.fill k n :: rest ∧ fills rest = 0) ∧
    (k = 0 ∨ 16777216 < k →
      view (produceStream.play d n s1).1.globals.heap = some x ∧
      (produceStream.play d n s1).2 =
        pcm d.apple ⟨max_buffer_size * 2, x.obj.sub.m_output⟩ n) ∧
    (∀ values, (produceStream.play d n s1).2 = .ok values →
      (produceStream.play d n s1).1.time = ((min (k + 1) 16777216 : Nat) : ℚ) ∧
      ∃ x1, view (produceStream.play d n s1).1.globals.heap = some x1 ∧
        x1.obj.m_last_fill = ((min k 16777216 : Nat) : ℚ)) := by
  obtain ⟨q1, q2, q3, q4, q5, q6⟩ := play_state d n s1 p ho
  obtain ⟨c1, c2⟩ := hcall s1.globals.heap s1.time n x hv
  rw [← q2] at c1
  refine ⟨q1, q3, q4, ?_, ?_, ?_⟩
  · intro hk1 hk2
    have hfresh : x.obj.m_last_fill < s1.time := by
      rw [hL, ht, Nat.min_eq_left (by omega), Nat.min_eq_left hk2]
      exact_mod_cast (by omega : k - 1 < k)
    obtain ⟨rest, hr1, hr2⟩ := stereo_output_fresh_calls vs s1.time n x hfresh
    refine ⟨_, rest, c1, ?_, hr2⟩
    rw [hr1, ht, Nat.min_eq_left hk2]
  · intro hk
    have hcached : s1.time ≤ x.obj.m_last_fill := by
      rw [hL, ht]
      rcases hk with hk | hk
      · subst hk
        exact le_refl _
      · rw [Nat.min_eq_right (by omega), Nat.min_eq_right (by omega)]
    rw [stereo_output_cached vs s1.time n x hcached] at c1 c2
    exact ⟨c1, (q6 _ c2).2⟩
  · intro values hvals
    rcases hso : (StereoModule.output vs s1.time n x).2 with e | buf
    · rw [hso] at c2
      rw [q5 e c2] at hvals
      simp at hvals
    · rw [hso] at c2
      obtain ⟨t1, _⟩ := q6 _ c2
      refine ⟨by rw [t1, ht, nextTime_min], _, c1, ?_⟩
      by_cases hfresh : x.obj.m_last_fill < s1.time
      · rw [(stereo_output_fresh_ok vs s1.time n x hfresh buf hso).1, ht]
      · rw [stereo_output_cached vs s1.time n x (not_lt.mp hfresh), hL]
        rw [hL, ht] at hfresh
        have hle : min k 16777216 ≤ min (k - 1) 16777216 := by
          exact_mod_cast not_lt.mp hfresh
        have : min (k - 1) 16777216 = min k 16777216 := by
          simp only [Nat.min_def] at hle ⊢
          split_ifs at hle ⊢ <;> omega
        rw [this]

theorem toShort_zero : toShort 0 = 0 := by
  have h := toShort_intCast 0
  simpa using h

theorem flatMap_const_replicate (l : List Int) (n : Nat) :
    (List.range n).flatMap (fun _ => l) = (List.replicate n l).flatten := by
  induction n with
  | zero => rfl
  | succ n ih =>
    rw [List.range_succ, List.flatMap_append, ih, List.replicate_succ']
    simp

/-- The conversion loop on an array of zeros, read inside the array, writes zeros. -/
theorem pcm_zero (apple : Bool) (o : FloatPtr) (n : Nat) (hcap : 2 * n ≤ o.cap)
    (hzero : ∀ i, o.data i = 0) :
    pcm apple o n = .ok (List.replicate (if apple then n else 2 * n) 0) := by
  rw [pcm_in_bounds apple o n hcap]
  congr 1
  cases apple with
  | true =>
    have hf : (fun k => pcmFrame true (o.data (2 * k)) (o.data (2 * k + 1))) =
        fun _ => [0] := by
      funext k
      simp [pcmFrame, hzero, toShort_zero]
    rw [hf, flatMap_const_replicate]
    simp
  | false =>
    have hf : (fun k => pcmFrame false (o.data (2 * k)) (o.data (2 * k + 1))) =
        fun _ => [0, 0] := by
      funext k
      simp [pcmFrame, hzero, toShort_zero]
    rw [hf, flatMap_const_replicate]
    simp only [Bool.false_eq_true, if_false]
    induction n with
    | zero => rfl
    | succ n ih =>
      rw [List.replicate_succ, List.flatten_cons, ih (by omega),
        show 2 * (n + 1) = 2 * n + 1 + 1 by omega, List.replicate_succ, List.replicate_succ]
      rfl

/-- Calls of `produceStream` that return, after the first: each advances the counter
by one up to 16777216, where it stays, and leaves the last-evaluated timestamp of the
output object at the counter of the call. -/
theorem produceStreams_counted {X E : Type} (d : Driver X) (vs : Virtuals (StereoPart E))
    (view : List (Object X) → Option (Traced (StereoPart E))) (p : Nat)
    (hcall : ∀ heap t n x, view heap = some x →
      view (d.output heap p t n).1 = some (StereoModule.output vs t n x).1 ∧
      (d.output heap p t n).2 =
        (StereoModule.output vs t n x).2.map (FloatPtr.mk (max_buffer_size * 2)))
    (ns : List Nat) (k : Nat) (s s1 : Statics X) (x : Traced (StereoPart E))
    (hf : s.first = false) (ho : s.output = some p)
    (ht : s.time = ((min k 16777216 : Nat) : ℚ))
    (hv : view s.globals.heap = some x)
    (hL : x.obj.m_last_fill = ((min (k - 1) 16777216 : Nat) : ℚ))
    (hrun : produceStreams d ns s = some s1) :
    s1.first = false ∧ s1.output = some p ∧
    s1.time = ((min (k + ns.length) 16777216 : Nat) : ℚ) ∧
    ∃ x1, view s1.globals.heap = some x1 ∧
      x1.obj.m_last_fill = ((min (k + ns.length - 1) 16777216 : Nat) : ℚ) := by
  induction ns generalizing k s x with
  | nil =>
    simp only [produceStreams, Option.some.injEq] at hrun
    subst hrun
    exact ⟨hf, ho, ht, x, hv, hL⟩
  | cons n rest ih =>
    unfold produceStreams at hrun
    rw [produceStream_not_first d n s hf] at hrun
    obtain ⟨_, q2, q3, _, _, q6⟩ := play_counted d vs view p hcall k n
      { s with globals := d.register s.globals } x ho ht hv hL
    rcases hp : produceStream.play d n { s with globals := d.register s.globals } with
      ⟨s2, e | values⟩
    · simp [hp] at hrun
    · simp only [hp] at hrun q2 q3 q6
      obtain ⟨t1, x1, v1, l1⟩ := q6 values rfl
      have := ih (k + 1) s2 x1 (q2.trans hf) q3 t1 v1 l1 hrun
      rw [List.length_cons, show k + (rest.length + 1) = k + 1 + rest.length by omega]
      exact this

/-- C20 (amended): for every patch that parses and defines a stereo instance `output`,
the virtual call `output->output(time, samples)` being `StereoModule::output` on the
typed view of the output object, which the parser leaves with last-evaluated
timestamp 0 and a buffer of zeros, and for every run of `k` calls of `produceStream`
from program start that all return.  The counter of the next call, the `k+1`-th, is
`k` as long as `k` is at most 16777216, and 16777216 from then on, and the call passes
it to `output` as the timestamp.  The first call leaves the output object, with
everything it reaches, as the parser left it (no `fill` is executed) and, for a block
of at most `max_buffer_size` frames, writes zeros only.  On the `k+1`-th call with
`1 ≤ k ≤ 16777216` the `fill` of the output object is executed exactly once, with
timestamp `k`. -/
theorem driver_block_counter {X E : Type} (d : Driver X) (vs : Virtuals (StereoPart E))
    (view : List (Object X) → Option (Traced (StereoPart E))) (p : Nat)
    (s0 : Statics X) (g1 : Globals X) (o : Object X) (x0 : Traced (StereoPart E))
    (hfirst : s0.first = true) (htime : s0.time = 0)
    (hparse : parsePatch d.atof d.patch (d.register s0.globals) = (g1, none))
    (hout : g1.g_modules "output" = some p) (hobj : g1.heap[p]? = some o)
    (hst : o.stereo = true)
    (hcall : ∀ heap t n x, view heap = some x →
      view (d.output heap p t n).1 = some (StereoModule.output vs t n x).1 ∧
      (d.output heap p t n).2 =
        (StereoModule.output vs t n x).2.map (FloatPtr.mk (max_buffer_size * 2)))
    (hview : view g1.heap = some x0) (hfresh : x0.obj.m_last_fill = 0)
    (hzero : ∀ i, x0.obj.sub.m_output i = 0)
    (ns : List Nat) (n : Nat) (sk : Statics X) (hrun : produceStreams d ns s0 = some sk) :
    sk.time = ((min ns.length 16777216 : Nat) : ℚ) ∧
    (produceStream d n sk).1.pulls = sk.pulls ++ [(p, sk.time, n)] ∧
    (ns = [] →
      view (produceStream d n sk).1.globals.heap = some x0 ∧
      (n ≤ max_buffer_size →
        (produceStream d n sk).2 = .ok (List.replicate (if d.apple then n else 2 * n) 0))) ∧
    (1 ≤ ns.length → ns.length ≤ 16777216 →
      ∃ xk x1 rest, view sk.globals.heap = some xk ∧
        view (produceStream d n sk).1.globals.heap = some x1 ∧
        x1.calls = xk.calls ++ Call.fill ns.length n :: rest ∧ fills rest = 0) := by
  have hfirst_call : ∀ m, produceStream d m s0 =
      produceStream.play d m { s0 with globals := g1, first := false, output := some p } :=
    fun m => produceStream_first_ok d m s0 g1 p o hfirst hparse hout hobj hst
  have hcount0 := fun m => play_counted d vs view p hcall 0 m
    { s0 with globals := g1, first := false, output := some p } x0 rfl
    (by rw [htime]; simp) hview (by rw [hfresh]; simp)
  cases ns with
  | nil =>
    simp only [produceStreams, Option.some.injEq] at hrun
    subst hrun
    obtain ⟨q1, _, _, _, q5, _⟩ := hcount0 n
    rw [← hfirst_call n] at q1 q5
    refine ⟨by rw [htime]; simp, q1, fun _ => ?_, fun h => absurd h (by simp)⟩
    obtain ⟨v1, r1⟩ := q5 (Or.inl rfl)
    refine ⟨v1, fun hn => ?_⟩
    rw [r1]
    exact pcm_zero d.apple _ n (by simp only [max_buffer_size] at hn ⊢; omega) hzero
  | cons n0 rest =>
    unfold produceStreams at hrun
    obtain ⟨_, q2, q3, _, _, q6⟩ := hcount0 n0
    rw [← hfirst_call n0] at q2 q3 q6
    rcases hp : produceStream d n0 s0 with ⟨s1, e | values⟩
    · simp [hp] at hrun
    · simp only [hp] at hrun q2 q3 q6
      obtain ⟨t1, x1, v1, l1⟩ := q6 values rfl
      obtain ⟨r1, r2, r3, xk, r4, r5⟩ := produceStreams_counted d vs view p hcall rest 1 s1 sk
        x1 q2 q3 t1 v1 l1 hrun
      have hlen : (n0 :: rest).length = 1 + rest.length := by
        rw [List.length_cons]
        omega
      rw [← hlen] at r3 r5
      obtain ⟨w1, _, _, w4, _, _⟩ := play_counted d vs view p hcall (n0 :: rest).length n
        { sk with globals := d.register sk.globals } xk r2 r3 r4 r5
      rw [← produceStream_not_first d n sk r1] at w1 w4
      refine ⟨r3, w1, fun h => absurd h (by simp), fun h1 h2 => ?_⟩
      obtain ⟨y, rest1, y1, y2, y3⟩ := w4 h1 h2
      exact ⟨xk, y, rest1, r4, y1, y2, y3⟩

/-- The virtual call of the test driver is `StereoModule::output` with the virtual
members of `Silence`, on the `Silence` object at `p`. -/
theorem silenceOutput_simulates (p : Nat) (heap : List (Object DriverObject)) (t : ℚ)
    (n : Nat) (x : Traced (StereoPart Unit)) (hv : silenceView p heap = some x) :
    silenceView p (silenceOutput heap p t n).1 =
      some (StereoModule.output Silence.virtuals t n x).1 ∧
    (silenceOutput heap p t n).2 =
      (StereoModule.output Silence.virtuals t n x).2.map (FloatPtr.mk (max_buffer_size * 2)) := by
  have hp : p < heap.length := by
    unfold silenceView at hv
    cases hg : heap[p]? with
    | none => simp [hg] at hv
    | some o => exact (List.getElem?_eq_some.mp hg).1
  unfold silenceOutput
  simp only [hv, and_true]
  unfold silenceView
  rw [List.getElem?_set_self hp]

/-- A `Silence` object without sink whose arrays hold zeros: `output` returns for a
block of at most `max_buffer_size / 2` frames, and leaves such an object. -/
theorem silence_output_ok (x : Traced (StereoPart Unit)) (t : ℚ) (n : Nat)
    (hw : x.obj.m_waveout = none) (hm : ∀ i, x.obj.m_output i = 0)
    (hs : ∀ i, x.obj.sub.m_output i = 0) (hn : n * 2 ≤ max_buffer_size) :
    (∃ buf, (StereoModule.output Silence.virtuals t n x).2 = .ok buf) ∧
    (StereoModule.output Silence.virtuals t n x).1.obj.m_waveout = none ∧
    (∀ i, (StereoModule.output Silence.virtuals t n x).1.obj.m_output i = 0) ∧
    (∀ i, (StereoModule.output Silence.virtuals t n x).1.obj.sub.m_output i = 0) := by
  by_cases hfresh : x.obj.m_last_fill < t
  · have hv : validateOutputRangeFrom "Silence" (-1) 1
        ⟨max_buffer_size * 2, x.obj.sub.m_output⟩ ⟨max_buffer_size, x.obj.m_output⟩ 0 (n * 2) =
        none := by
      rw [validateOutputRangeFrom_eq_none _ _ _ _ _ _ _ (by simp only [max_buffer_size] at hn ⊢; omega)
        (by simpa using hn)]
      intro j _ _
      simp only [hs, hm]
      norm_num
    simp only [StereoModule.output, hfresh, if_true, Silence.virtuals, Module.record, hw,
      Module.validateOutputRange, hv]
    refine ⟨?_, ?_, ?_, ?_⟩ <;>
      first | trivial | exact hm | exact hs | exact hw | exact ⟨_, rfl⟩
  · rw [stereo_output_cached _ _ _ _ (not_lt.mp hfresh)]
    exact ⟨⟨_, rfl⟩, hw, hm, hs⟩

/-- Calls of `produceStream` from program start that all return, at least one: the
state they leave. -/
theorem produceStreams_counted_from_start {X E : Type} (d : Driver X)
    (vs : Virtuals (StereoPart E))
    (view : List (Object X) → Option (Traced (StereoPart E))) (p : Nat)
    (s0 : Statics X) (g1 : Globals X) (o : Object X) (x0 : Traced (StereoPart E))
    (hfirst : s0.first = true) (htime : s0.time = 0)
    (hparse : parsePatch d.atof d.patch (d.register s0.globals) = (g1, none))
    (hout : g1.g_modules "output" = some p) (hobj : g1.heap[p]? = some o)
    (hst : o.stereo = true)
    (hcall : ∀ heap t n x, view heap = some x →
      view (d.output heap p t n).1 = some (StereoModule.output vs t n x).1 ∧
      (d.output heap p t n).2 =
        (StereoModule.output vs t n x).2.map (FloatPtr.mk (max_buffer_size * 2)))
    (hview : view g1.heap = some x0) (hfresh : x0.obj.m_last_fill = 0)
    (n0 : Nat) (rest : List Nat) (sk : Statics X)
    (hrun : produceStreams d (n0 :: rest) s0 = some sk) :
    sk.first = false ∧ sk.output = some p ∧
    sk.time = ((min (1 + rest.length) 16777216 : Nat) : ℚ) ∧
    ∃ xk, view sk.globals.heap = some xk ∧
      xk.obj.m_last_fill = ((min rest.length 16777216 : Nat) : ℚ) := by
  unfold produceStreams at hrun
  obtain ⟨_, q2, q3, _, _, q6⟩ := play_counted d vs view p hcall 0 n0
    { s0 with globals := g1, first := false, output := some p } x0 rfl
    (by rw [htime]; simp) hview (by rw [hfresh]; simp)
  rw [← produceStream_first_ok d n0 s0 g1 p o hfirst hparse hout hobj hst] at q2 q3 q6
  rcases hp : produceStream d n0 s0 with ⟨s1, e | values⟩
  · simp [hp] at hrun
  · simp only [hp] at hrun q2 q3 q6
    obtain ⟨t1, x1, v1, l1⟩ := q6 values rfl
    obtain ⟨r1, r2, r3, xk, r4, r5⟩ := produceStreams_counted d vs view p hcall rest 1 s1 sk
      x1 q2 q3 t1 v1 l1 hrun
    refine ⟨r1, r2, r3, xk, r4, ?_⟩
    rw [r5, show 1 + rest.length - 1 = rest.length by omega]

/-- Calls of `produceStream` of the test driver, after the first, on a `Silence`
object without sink whose arrays hold zeros: each returns, for blocks of at most
`max_buffer_size / 2` frames. -/
theorem silence_run_from (patch : List String) (apple : Bool) (ns : List Nat)
    (s : Statics DriverObject) (x : Traced (StereoPart Unit))
    (hf : s.first = false) (ho : s.output = some 0)
    (hv : silenceView 0 s.globals.heap = some x)
    (hw : x.obj.m_waveout = none) (hm : ∀ i, x.obj.m_output i = 0)
    (hs : ∀ i, x.obj.sub.m_output i = 0) (hns : ∀ n ∈ ns, n * 2 ≤ max_buffer_size) :
    ∃ s1, produceStreams (silenceDriver patch apple) ns s = some s1 := by
  induction ns generalizing s x with
  | nil => exact ⟨s, rfl⟩
  | cons n rest ih =>
    have hn : n * 2 ≤ max_buffer_size := hns n (by simp)
    unfold produceStreams
    rw [produceStream_not_first _ n s hf]
    obtain ⟨_, q2, q3, q4, _, q6⟩ := play_state (silenceDriver patch apple) n
      { s with globals := (silenceDriver patch apple).register s.globals } 0 ho
    obtain ⟨c1, c2⟩ := silenceOutput_simulates 0 s.globals.heap s.time n x hv
    obtain ⟨⟨buf, hb⟩, k1, k2, k3⟩ := silence_output_ok x s.time n hw hm hs hn
    rw [hb] at c2
    obtain ⟨_, t2⟩ := q6 _ c2
    have hpcm := pcm_in_bounds (silenceDriver patch apple).apple ⟨max_buffer_size * 2, buf⟩ n
      (by simp only [max_buffer_size] at hn ⊢; omega)
    rcases hp : produceStream.play (silenceDriver patch apple) n
      { s with globals := (silenceDriver patch apple).register s.globals } with ⟨s2, r⟩
    rw [hp] at q2 q3 q4 t2
    simp only at q2 q3 q4 t2
    rw [t2, hpcm]
    simp only
    apply ih s2 _ (q3.trans hf) q4 (by rw [q2]; exact c1) k1 k2 k3
      (fun m hm1 => hns m (by simp [hm1]))

/-- The statements of `produceStream` from the call of `output` on, in the test
driver, on a `Silence` object without sink whose arrays hold zeros: they return and
leave such an object. -/
theorem silence_play_ok (patch : List String) (apple : Bool) (n : Nat)
    (s1 : Statics DriverObject) (x : Traced (StereoPart Unit))
    (ho : s1.output = some 0) (hv : silenceView 0 s1.globals.heap = some x)
    (hw : x.obj.m_waveout = none) (hm : ∀ i, x.obj.m_output i = 0)
    (hs : ∀ i, x.obj.sub.m_output i = 0) (hn : n * 2 ≤ max_buffer_size) :
    ∃ s2 values x1, produceStream.play (silenceDriver patch apple) n s1 = (s2, .ok values) ∧
      s2.first = s1.first ∧ s2.output = some 0 ∧
      silenceView 0 s2.globals.heap = some x1 ∧
      x1.obj.m_waveout = none ∧ (∀ i, x1.obj.m_output i = 0) ∧
      (∀ i, x1.obj.sub.m_output i = 0) := by
  obtain ⟨_, q2, q3, q4, _, q6⟩ := play_state (silenceDriver patch apple) n s1 0 ho
  obtain ⟨c1, c2⟩ := silenceOutput_simulates 0 s1.globals.heap s1.time n x hv
  obtain ⟨⟨buf, hb⟩, k1, k2, k3⟩ := silence_output_ok x s1.time n hw hm hs hn
  rw [hb] at c2
  obtain ⟨_, t2⟩ := q6 _ c2
  have hpcm := pcm_in_bounds (silenceDriver patch apple).apple ⟨max_buffer_size * 2, buf⟩ n
    (by simp only [max_buffer_size] at hn ⊢; omega)
  rcases hp : produceStream.play (silenceDriver patch apple) n s1 with ⟨s2, r⟩
  rw [hp] at q2 q3 q4 t2
  simp only at q2 q3 q4 t2
  rw [t2, hpcm]
  exact ⟨s2, _, _, rfl, q3, q4, by rw [q2]; exact c1, k1, k2, k3⟩

/-- Every run of the test driver on the patch `Silence output`, from program start,
with blocks of at most `max_buffer_size / 2` frames: every call returns. -/
theorem silence_runs (apple : Bool) (ns : List Nat)
    (hns : ∀ n ∈ ns, n * 2 ≤ max_buffer_size) :
    ∃ sk, produceStreams (silenceDriver ["Silence output"] apple) ns
      (Statics.initial Globals.empty) = some sk := by
  cases ns with
  | nil => exact ⟨_, rfl⟩
  | cons n0 rest =>
    unfold produceStreams
    rw [produceStream_first_ok (silenceDriver ["Silence output"] apple) n0
      (Statics.initial Globals.empty)
      (parsePatch atofDigits ["Silence output"]
        ((silenceDriver ["Silence output"] apple).register Globals.empty)).1 0
      (.made true (.silence ⟨StereoModule.new (), []⟩)) rfl (by rfl) (by rfl) (by rfl) rfl]
    obtain ⟨s2, values, x1, hp, h1, h2, h3, h4, h5, h6⟩ :=
      silence_play_ok ["Silence output"] apple n0
        { (Statics.initial Globals.empty : Statics DriverObject) with
          globals := (parsePatch atofDigits ["Silence output"]
            ((silenceDriver ["Silence output"] apple).register Globals.empty)).1
          first := false
          output := some 0 }
        ⟨StereoModule.new (), []⟩ rfl (by rfl) rfl (fun _ => rfl) (fun _ => rfl)
        (hns n0 (by simp))
    rw [hp]
    exact silence_run_from ["Silence output"] apple rest s2 x1 h1 h2 h3 h4 h5 h6
      (fun m hm1 => hns m (by simp [hm1]))

/-- C20, as stated, fails: the patch `Silence output` parses, and 16777217 calls of
`produceStream` with one frame each all return; the counter of the next call, the
16777218-th, is 16777216, not 16777217 (`time += 1.0` leaves the `float` 16777216
unchanged), the call passes 16777216 to `output`, and the `fill` of the output object
is not executed: the object is as before the call. -/
theorem block_counter_stops_at_16777216 :
    ∃ sk xk, produceStreams (silenceDriver ["Silence output"] false)
        (List.replicate 16777217 1) (Statics.initial Globals.empty) = some sk ∧
      sk.time = 16777216 ∧ sk.time ≠ 16777217 ∧
      (produceStream (silenceDriver ["Silence output"] false) 1 sk).1.pulls =
        sk.pulls ++ [(0, 16777216, 1)] ∧
      silenceView 0 sk.globals.heap = some xk ∧
      silenceView 0 (produceStream (silenceDriver ["Silence output"] false) 1
        sk).1.globals.heap = some xk := by
  obtain ⟨sk, hsk⟩ := silence_runs false (List.replicate 16777217 1) (by
    intro n hn
    rw [List.eq_of_mem_replicate hn]
    decide)
  have hrep : List.replicate 16777217 1 = 1 :: List.replicate 16777216 1 :=
    List.replicate_succ 1 16777216
  have hrun := hsk
  rw [hrep] at hrun
  obtain ⟨r1, r2, r3, xk, r4, r5⟩ := produceStreams_counted_from_start
    (silenceDriver ["Silence output"] false) Silence.virtuals (silenceView 0) 0
    (Statics.initial Globals.empty)
    (parsePatch atofDigits ["Silence output"]
      ((silenceDriver ["Silence output"] false).register Globals.empty)).1
    (.made true (.silence ⟨StereoModule.new (), []⟩)) ⟨StereoModule.new (), []⟩
    rfl rfl (by rfl) (by rfl) (by rfl) rfl
    (fun heap t n x hv => silenceOutput_simulates 0 heap t n x hv) (by rfl) rfl
    1 (List.replicate 16777216 1) sk hrun
  rw [List.length_replicate] at r3 r5
  have ht : sk.time = 16777216 := by
    rw [r3]
    norm_num
  obtain ⟨w1, _, _, _, w5, _⟩ := play_counted (silenceDriver ["Silence output"] false)
    Silence.virtuals (silenceView 0) 0
    (fun heap t n x hv => silenceOutput_simulates 0 heap t n x hv) 16777217 1
    { sk with globals := (silenceDriver ["Silence output"] false).register sk.globals } xk
    r2 (ht.trans (by norm_num)) r4 (r5.trans (by norm_num))
  rw [← produceStream_not_first _ 1 sk r1] at w1 w5
  refine ⟨sk, xk, hsk, ht, by rw [ht]; norm_num, ?_, r4, (w5 (Or.inr (by norm_num))).1⟩
  rw [w1, ht]

/-- Witness of `driver_block_counter`: the test driver on the patch `Silence output`.
The first call, of two frames, writes four zeros; after one call that returns the
counter is 1, and the second call executes the `fill` of the output object exactly
once, with timestamp 1. -/
theorem driver_block_counter_witness :
    (produceStream (silenceDriver ["Silence output"] false) 2
      (Statics.initial Globals.empty)).2 = .ok (List.replicate (2 * 2) 0) ∧
    ∃ sk, produceStreams (silenceDriver ["Silence output"] false) [1]
        (Statics.initial Globals.empty) = some sk ∧
      sk.time = 1 ∧
      ∃ xk x1 rest, silenceView 0 sk.globals.heap = some xk ∧
        silenceView 0 (produceStream (silenceDriver ["Silence output"] false) 1
          sk).1.globals.heap = some x1 ∧
        x1.calls = xk.calls ++ Call.fill 1 1 :: rest ∧ fills rest = 0 := by
  constructor
  · exact ((driver_block_counter (silenceDriver ["Silence output"] false) Silence.virtuals
      (silenceView 0) 0 (Statics.initial Globals.empty)
      (parsePatch atofDigits ["Silence output"]
        ((silenceDriver ["Silence output"] false).register Globals.empty)).1
      (.made true (.silence ⟨StereoModule.new (), []⟩)) ⟨StereoModule.new (), []⟩
      rfl rfl (by rfl) (by rfl) (by rfl) rfl
      (fun heap t n x hv => silenceOutput_simulates 0 heap t n x hv) (by rfl) rfl
      (fun _ => rfl) [] 2 (Statics.initial Globals.empty) rfl).2.2.1 rfl).2 (by decide)
  · obtain ⟨sk, hsk⟩ := silence_runs false [1] (by decide)
    obtain ⟨h1, _, _, h4⟩ := driver_block_counter (silenceDriver ["Silence output"] false)
      Silence.virtuals (silenceView 0) 0 (Statics.initial Globals.empty)
      (parsePatch atofDigits ["Silence output"]
        ((silenceDriver ["Silence output"] false).register Globals.empty)).1
      (.made true (.silence ⟨StereoModule.new (), []⟩)) ⟨StereoModule.new (), []⟩
      rfl rfl (by rfl) (by rfl) (by rfl) rfl
      (fun heap t n x hv => silenceOutput_simulates 0 heap t n x hv) (by rfl) rfl
      (fun _ => rfl) [1] 1 sk hsk
    refine ⟨sk, hsk, by rw [h1]; norm_num, ?_⟩
    have h := h4 (by simp) (by simp)
    simpa using h

end ISynth
